import Mathlib

/-!
# bird-watcher: ActivityDetectorService and its ImageTools package

A shallow embedding of the Go sources

* `ActivityDetectorService/Main.go` (frame buffer, classifier, gate scan),
* `ActivityDetectorService/Config.go`,
* `ActivityDetectorService/ImageTools/*.go` (image arithmetic, statistics,
  thresholds, masks, convolution).

Modelling conventions.

* An image `[][]float32` is a `List (List ℚ)`, indexed `image[i][j]` with
  `i < len(image)` (the width) and `j < len(image[0])` (the height), as
  `Dimensions` does.  Go's `nil` slice is the empty list.
* `float32` and `float64` are idealised as exact rationals: the conversions
  `float64(x)` and `float32(x)` are the identity, and there is no rounding,
  overflow, infinity or NaN.  The section on overflow follows `MinMax`,
  `Normalise` and `Add` once more on values that can overflow to an infinity
  or become NaN.  `math.Sqrt` is not part of the repository and is a
  parameter `mathSqrt` of every function that calls it.
* `meanStd` and `CrossCorrelation` compute in `float64`; their model computes in
  a field `K` that contains the rationals, so that the theorems about them
  hold for the real numbers, where `math.Sqrt` is an exact square root.
* Go panics on an index out of range.  The model reads a default there (`0`
  for a pixel, the empty list for a column) and drops such a write; the
  theorems are stated for non-empty rectangular images and non-empty
  buffers, where every index the code uses is in range.
* The goroutines an operator starts (one per row `j`) write disjoint
  cells.  For an operator that waits for them before it returns, the model
  runs them to completion, one after the other.  `SingleThreshold`,
  `DualThreshold` and `Mask` return without waiting: their model takes as a
  parameter which cells are written when the returned image is read.
-/

namespace BirdWatcher

/-! ## Data model -/

/-- An image `[][]float32`: the list of its columns `image[i]`. -/
abbrev Image := List (List ℚ)

/-- The pixel read `image[i][j]`. -/
def px (image : Image) (i j : ℕ) : ℚ := (image.getD i []).getD j 0

/-- Function `Dimensions` (Stats.go:32): `len(image), len(image[0])`. -/
def Dimensions (image : Image) : ℕ × ℕ := (image.length, (image.getD 0 []).length)

/-- The image of the given width and height whose cell `[i][j]` holds `f i j`:
what a freshly made `outputImage` holds once the nested loops
`for j < height { for i < width { outputImage[i][j] = f i j } }` have run. -/
def mkImage (width height : ℕ) (f : ℕ → ℕ → ℚ) : Image :=
  (List.range width).map (fun i => (List.range height).map (fun j => f i j))

/-- The pixels `image[i][j]` in the order the scanning loops
`for j < height { for i < width { ... } }` visit them. -/
def scanPixels (image : Image) : List ℚ :=
  (List.range (Dimensions image).2).flatMap
    (fun j => (List.range (Dimensions image).1).map (fun i => px image i j))

/-- An image is rectangular of width `w` and height `h`. -/
def Rect (image : Image) (w h : ℕ) : Prop :=
  image.length = w ∧ ∀ col ∈ image, col.length = h

instance (image : Image) (w h : ℕ) : Decidable (Rect image w h) := by
  unfold Rect; infer_instance

/-- Every pixel of the image lies in the closed interval `[lo, hi]`. -/
def PixelsIn (image : Image) (lo hi : ℚ) : Prop :=
  ∀ col ∈ image, ∀ v ∈ col, lo ≤ v ∧ v ≤ hi

instance (image : Image) (lo hi : ℚ) : Decidable (PixelsIn image lo hi) := by
  unfold PixelsIn; infer_instance

/-- Structure `FrameBuffer` (Main.go:32). -/
structure FrameBuffer where
  frame : List Image
  deriving DecidableEq, Repr

/-- Structure `Config` (Config.go:9). -/
structure Config where
  WebcamURL : String
  FrameBufferSize : ℤ
  ActivityThreshold : ℚ
  ConsecutiveActiveFrames : ℤ
  OutputDir : String
  deriving DecidableEq, Repr

/-! ## ImageTools/Stats.go -/

/-- One step of the scan in `MinMax`: the pair is `(max, min)`. -/
def minMaxStep (acc : ℚ × ℚ) (currentPixel : ℚ) : ℚ × ℚ :=
  let max := if currentPixel > acc.1 then currentPixel else acc.1
  let min := if currentPixel < acc.2 then currentPixel else acc.2
  (max, min)

/-- Function `MinMax` (Stats.go:8): starts from `max, min := 0, 65535` and returns
`(min, max)`. -/
def MinMax (image : Image) : ℚ × ℚ :=
  let r := (scanPixels image).foldl minMaxStep (0, 65535)
  (r.2, r.1)

/-- Function `MeanStd` (Stats.go:41), two passes over the image. -/
def MeanStd (mathSqrt : ℚ → ℚ) (image : Image) : ℚ × ℚ :=
  let imageWidth := (Dimensions image).1
  let imageHeight := (Dimensions image).2
  let accumulator := (scanPixels image).foldl (fun acc currentPixel => acc + currentPixel) 0
  let mean := accumulator / ((imageWidth : ℚ) * (imageHeight : ℚ))
  let accumulator2 := (scanPixels image).foldl
    (fun acc currentPixel => acc + (currentPixel - mean) * (currentPixel - mean)) 0
  let std := mathSqrt (accumulator2 / ((imageWidth : ℚ) * (imageHeight : ℚ)))
  (mean, std)

/-- Function `MeanStd` (Stats.go:41) on an image that other tasks may still be
writing: its first pass finds the cells as in `firstRead`, its second pass as
in `secondRead`; the dimensions, read once at the start, are the same.  On an
image that no task writes the two are the same image, and this is `MeanStd`. -/
def MeanStdOfReads (mathSqrt : ℚ → ℚ) (firstRead secondRead : Image) : ℚ × ℚ :=
  let imageWidth := (Dimensions firstRead).1
  let imageHeight := (Dimensions firstRead).2
  let accumulator := (scanPixels firstRead).foldl (fun acc currentPixel => acc + currentPixel) 0
  let mean := accumulator / ((imageWidth : ℚ) * (imageHeight : ℚ))
  let accumulator2 := (scanPixels secondRead).foldl
    (fun acc currentPixel => acc + (currentPixel - mean) * (currentPixel - mean)) 0
  let std := mathSqrt (accumulator2 / ((imageWidth : ℚ) * (imageHeight : ℚ)))
  (mean, std)

/-- Function `meanStd` (Stats.go:78): the same two passes as `MeanStd`, without
the final conversion of the two results to `float32`.  The pixels are `float32`
values, which are rational numbers; the function converts each of them to
`float64` and computes there.  The `float64` arithmetic is carried out exactly,
in a field `K` that contains the rationals: the rationals themselves, or the
real numbers, where every nonnegative number has a square root.  The parameter
`mathSqrt` is `math.Sqrt` on `K`. -/
def meanStd {K : Type} [Field K] (mathSqrt : K → K) (image : Image) : K × K :=
  let imageWidth := (Dimensions image).1
  let imageHeight := (Dimensions image).2
  let accumulator := (scanPixels image).foldl
    (fun acc currentPixel => acc + ((currentPixel : ℚ) : K)) 0
  let mean := accumulator / ((imageWidth : K) * (imageHeight : K))
  let accumulator2 := (scanPixels image).foldl
    (fun acc currentPixel =>
      acc + (((currentPixel : ℚ) : K) - mean) * (((currentPixel : ℚ) : K) - mean)) 0
  let std := mathSqrt (accumulator2 / ((imageWidth : K) * (imageHeight : K)))
  (mean, std)

/-! ## ImageTools/BasicTools.go -/

/-- Function `Normalise` (BasicTools.go:133). -/
def Normalise (image : Image) : Image :=
  let min := (MinMax image).1
  let max := (MinMax image).2
  let imageWidth := (Dimensions image).1
  let imageHeight := (Dimensions image).2
  let quotient := if min = max then 1 else max - min
  mkImage imageWidth imageHeight (fun i j => (px image i j - min) / quotient)

/-- The pixel update of `Invert` (BasicTools.go:189-199): the new value of the
pixel and, when the last branch computes `1 / currentPixel`, the operand of
that reciprocal. -/
def invertPixel (currentPixel : ℚ) : ℚ × Option ℚ :=
  if currentPixel = 0 then (1, none)
  else if currentPixel = 1 then (0, none)
  else (1 / currentPixel, some currentPixel)

/-- Function `Invert` (BasicTools.go:170): every pixel is replaced by its
inverted value and the image is returned; the function does not call
`Normalise`. -/
def Invert (image : Image) : Image :=
  mkImage (Dimensions image).1 (Dimensions image).2 (fun i j => (invertPixel (px image i j)).1)

/-! ## ImageTools/ArithmeticOperators.go -/

/-- The dimension check that opens every binary operator: `some` error when
`len(a) != len(b)` or `len(a[0]) != len(b[0])`. -/
def dimensionError (a b : Image) : Option String :=
  if a.length ≠ b.length then some "Width mismatch"
  else if (a.getD 0 []).length ≠ (b.getD 0 []).length then some "Height mismatch"
  else none

/-- Function `Add` (ArithmeticOperators.go:13). -/
def Add (a b : Image) : Image × Option String :=
  match dimensionError a b with
  | some e => ([], some e)
  | none =>
    (Normalise (mkImage (Dimensions a).1 (Dimensions a).2 (fun i j => px a i j + px b i j)), none)

/-- Function `Subtract` (ArithmeticOperators.go:60). -/
def Subtract (a b : Image) : Image × Option String :=
  match dimensionError a b with
  | some e => ([], some e)
  | none =>
    (Normalise (mkImage (Dimensions a).1 (Dimensions a).2 (fun i j => px a i j - px b i j)), none)

/-- Function `CrossProduct` (ArithmeticOperators.go:107). -/
def CrossProduct (a b : Image) : Image × Option String :=
  match dimensionError a b with
  | some e => ([], some e)
  | none =>
    (Normalise (mkImage (Dimensions a).1 (Dimensions a).2 (fun i j => px a i j * px b i j)), none)

/-- The row task of `Divide` (ArithmeticOperators.go:179) for row `j`, from
column `i` on, with `n` columns left.  The first component lists the cells
`outputImage[i][j], outputImage[i+1][j], ...` as the task leaves them: at the
first zero divisor the cell is set to `0` and the loop is left by `break`, so
the cells after it keep the `0` that `make` put there.  The second component
records the divisors `b[i][j]` by which a quotient was computed. -/
def divideRow (a b : Image) (j : ℕ) : ℕ → ℕ → List ℚ × List ℚ
  | _, 0 => ([], [])
  | i, n + 1 =>
    if px b i j = 0 then (0 :: List.replicate n 0, [])
    else
      let rest := divideRow a b j (i + 1) n
      ((px a i j / px b i j) :: rest.1, px b i j :: rest.2)

/-- Function `Divide` (ArithmeticOperators.go:154). -/
def Divide (a b : Image) : Image × Option String :=
  match dimensionError a b with
  | some e => ([], some e)
  | none =>
    (Normalise (mkImage (Dimensions a).1 (Dimensions a).2
      (fun i j => (divideRow a b j 0 (Dimensions a).1).1.getD i 0)), none)

/-- Function `Sqrt` (ArithmeticOperators.go:205). -/
def Sqrt (mathSqrt : ℚ → ℚ) (image : Image) : Image :=
  Normalise (mkImage (Dimensions image).1 (Dimensions image).2
    (fun i j => mathSqrt |px image i j|))

/-! ## ImageTools/Thresholds.go and ImageTools/Masks.go

The functions of these two files start one task per row and return
`outputImage` without waiting for the tasks: no `waitGroup.Wait()` stands
before the `return`.  What a reader finds in a cell of the returned image
therefore depends on the schedule.  The definitions take the schedule as the
parameter `written`: `written i j` tells whether the task of row `j` has
executed its assignment to `outputImage[i][j]` by the time the cell is read.
A cell that is not yet written holds the `0` that `make` put there.  The
section on synchronisation below models the statements that start the tasks
and the `return` itself. -/

/-- Function `SingleThreshold` (Thresholds.go:10): the returned image as a reader
finds it under the schedule `written`. -/
def SingleThreshold (written : ℕ → ℕ → Bool) (image : Image) (threshold : ℚ) : Image :=
  mkImage (Dimensions image).1 (Dimensions image).2
    (fun i j =>
      if written i j then (if px image i j < threshold then 0 else 1) else 0)

/-- Function `DualThreshold` (Thresholds.go:56): the upper and lower
thresholds are `thresholdA` and `thresholdB`, swapped when
`thresholdA < thresholdB`; the returned image as a reader finds it under the
schedule `written`. -/
def DualThreshold (written : ℕ → ℕ → Bool) (image : Image) (thresholdA thresholdB : ℚ) :
    Image :=
  let upperThreshold := if thresholdA < thresholdB then thresholdB else thresholdA
  let lowerThreshold := if thresholdA < thresholdB then thresholdA else thresholdB
  mkImage (Dimensions image).1 (Dimensions image).2
    (fun i j =>
      if written i j then
        (if px image i j < upperThreshold ∧ px image i j > lowerThreshold then 1 else 0)
      else 0)

/-- Function `Mask` (Masks.go:8): the returned image as a reader finds it under
the schedule `written`. -/
def Mask (written : ℕ → ℕ → Bool) (image mask : Image) : Image × Option String :=
  match dimensionError image mask with
  | some e => ([], some e)
  | none =>
    (mkImage (Dimensions image).1 (Dimensions image).2
      (fun i j => if written i j then (if px mask i j > 1 / 2 then px image i j else 0) else 0),
      none)

/-! ## ImageTools/Filters.go -/

/-- The value `int(math.Ceil(0.5 * float64(n)))` of `halfKernelWidth` and
`halfKernelHeight`. -/
def halfKernel (n : ℕ) : ℕ := (n + 1) / 2

/-- The zero-padded copy `paddedImage` that `Convolution` builds
(Filters.go:19-27): `paddedImage[i + halfKernelWidth][j + halfKernelHeight] =
image[i][j]`, zero elsewhere. -/
def paddedImage (image : Image) (halfKernelWidth halfKernelHeight : ℕ) : Image :=
  mkImage ((Dimensions image).1 + halfKernelWidth + halfKernelWidth)
    ((Dimensions image).2 + halfKernelHeight + halfKernelHeight)
    (fun x y =>
      if halfKernelWidth ≤ x ∧ x < (Dimensions image).1 + halfKernelWidth ∧
          halfKernelHeight ≤ y ∧ y < (Dimensions image).2 + halfKernelHeight
      then px image (x - halfKernelWidth) (y - halfKernelHeight) else 0)

/-- The index `i+(kI-halfKernelWidth)+halfKernelWidth` of Filters.go:53,
computed on Go's signed `int`. -/
def windowIndex (i kI half : ℕ) : ℕ := (((i : ℤ) + ((kI : ℤ) - (half : ℤ))) + (half : ℤ)).toNat

/-- The accumulator of `Convolution` for output pixel `(i, j)`
(Filters.go:50-57): the loops over `kJ` and, inside, over `kI`. -/
def convolutionAccumulator (padded kernel : Image) (i j : ℕ) : ℚ :=
  (List.range (Dimensions kernel).2).foldl
    (fun acc kJ =>
      (List.range (Dimensions kernel).1).foldl
        (fun acc kI =>
          acc + px padded (windowIndex i kI (halfKernel (Dimensions kernel).1))
                  (windowIndex j kJ (halfKernel (Dimensions kernel).2)) * px kernel kI kJ)
        acc)
    0

/-- Function `Convolution` (Filters.go:12). -/
def Convolution (image kernel : Image) : Image :=
  let padded := paddedImage image (halfKernel (Dimensions kernel).1) (halfKernel (Dimensions kernel).2)
  Normalise (mkImage (Dimensions image).1 (Dimensions image).2
    (fun i j => convolutionAccumulator padded kernel i j))

/-- Function `SepConvolution` (Filters.go:72): `Convolution` with the first
kernel, `Convolution` with the second kernel, and `Normalise` once more. -/
def SepConvolution (image kernelA kernelB : Image) : Image :=
  let image1 := Convolution image kernelA
  let image2 := Convolution image1 kernelB
  Normalise image2

/-! ## ImageTools/kernels/EdgeDetection.go -/

/-- Kernel `SobelX` (EdgeDetection.go:3). -/
def SobelX : Image := [[-1, 0, 1], [-2, 0, 2], [-1, 0, 1]]

/-- Kernel `SepSobelXPt1` (EdgeDetection.go:9). -/
def SepSobelXPt1 : Image := [[1], [2], [1]]

/-- Kernel `SepSobelXPt2` (EdgeDetection.go:15). -/
def SepSobelXPt2 : Image := [[-1, 0, 1]]

/-- Kernel `SepSobelYPt1` (EdgeDetection.go:19). -/
def SepSobelYPt1 : Image := [[1, 2, 1]]

/-- Kernel `SepSobelYPt2` (EdgeDetection.go:23). -/
def SepSobelYPt2 : Image := [[-1], [0], [1]]

/-- Kernel `SobelY` (EdgeDetection.go:28). -/
def SobelY : Image := [[-1, -2, -1], [0, 0, 0], [1, 2, 1]]

/-! ## ImageTools/DistanceMetrics.go -/

/-- Go's constant `math.MaxFloat32`, `0x1p127 * (1 + (1 - 0x1p-23))`. -/
def MaxFloat32 : ℚ := 2 ^ 127 * (1 + (1 - 1 / 2 ^ 23))

/-- Function `SquareError` (DistanceMetrics.go:9): returns `(rmse, mse, sse)`. -/
def SquareError (mathSqrt : ℚ → ℚ) (a b : Image) : ℚ × ℚ × ℚ :=
  if (Dimensions a).1 ≠ (Dimensions b).1 ∨ (Dimensions a).2 ≠ (Dimensions b).2 then
    (MaxFloat32, MaxFloat32, MaxFloat32)
  else
    let imageWidth := (Dimensions a).1
    let imageHeight := (Dimensions a).2
    let sse := (List.range imageHeight).foldl
      (fun acc j =>
        (List.range imageWidth).foldl
          (fun acc i => acc + (px a i j - px b i j) * (px a i j - px b i j)) acc)
      0
    let mse := sse / ((imageWidth : ℚ) * (imageHeight : ℚ))
    let rmse := mathSqrt mse
    (rmse, mse, sse)

/-- Function `AbsoluteError` (DistanceMetrics.go:43): returns `(rmae, mae, sae)`. -/
def AbsoluteError (mathSqrt : ℚ → ℚ) (a b : Image) : ℚ × ℚ × ℚ :=
  if (Dimensions a).1 ≠ (Dimensions b).1 ∨ (Dimensions a).2 ≠ (Dimensions b).2 then
    (MaxFloat32, MaxFloat32, MaxFloat32)
  else
    let imageWidth := (Dimensions a).1
    let imageHeight := (Dimensions a).2
    let sae := (List.range imageHeight).foldl
      (fun acc j =>
        (List.range imageWidth).foldl (fun acc i => acc + |px a i j - px b i j|) acc)
      0
    let mae := sae / ((imageWidth : ℚ) * (imageHeight : ℚ))
    let rmae := mathSqrt mae
    (rmae, mae, sae)

/-- Function `CrossCorrelation` (DistanceMetrics.go:76).  As in `meanStd`, the
`float64` arithmetic is carried out exactly in a field `K` that contains the
rationals, and `mathSqrt` is `math.Sqrt` on `K`. -/
def CrossCorrelation {K : Type} [Field K] (mathSqrt : K → K) (a b : Image) : K :=
  if (Dimensions a).1 ≠ (Dimensions b).1 ∨ (Dimensions a).2 ≠ (Dimensions b).2 then
    ((MaxFloat32 : ℚ) : K)
  else
    let imageWidth := (Dimensions a).1
    let imageHeight := (Dimensions a).2
    let meanStdA := meanStd mathSqrt a
    let meanStdB := meanStd mathSqrt b
    let accumulator := (List.range imageHeight).foldl
      (fun acc j =>
        (List.range imageWidth).foldl
          (fun acc i =>
            acc + (((px a i j : ℚ) : K) - meanStdA.1) * (((px b i j : ℚ) : K) - meanStdB.1)) acc)
      0
    (accumulator / (meanStdA.2 * meanStdB.2)) / ((imageWidth : K) * (imageHeight : K))

/-! ## Main.go -/

/-- The package-level variable `var config Config` (Main.go:30).  Nothing
assigns it: `main` declares a local variable of the same name with `:=`
(Main.go:40) and assigns that one (Main.go:44), so the package-level variable
keeps Go's zero value for the whole run. -/
def config : Config :=
  { WebcamURL := "", FrameBufferSize := 0, ActivityThreshold := 0,
    ConsecutiveActiveFrames := 0, OutputDir := "" }

/-- The loop `for fr := len-2; fr > 0; fr-- { frame[fr] = frame[fr+1] }` of
`addFrameToBuffer` (Main.go:303), entered with loop variable `fr`. -/
def shiftLoop : ℕ → List Image → List Image
  | 0, frames => frames
  | fr + 1, frames => shiftLoop fr (frames.set (fr + 1) (frames.getD (fr + 2) []))

/-- Function `addFrameToBuffer` (Main.go:300). -/
def addFrameToBuffer (frame : Image) (frameBuffer : FrameBuffer) : FrameBuffer :=
  let shifted := shiftLoop (frameBuffer.frame.length - 2) frameBuffer.frame
  { frame := shifted.set (frameBuffer.frame.length - 1) frame }

/-- The body of the scan loop of `main` (Main.go:127-142) at index `fr`; the
state is `(maxConsecutiveFrames, consecutiveFrames)`. -/
def scanStep (activeFrames : List ℤ) (st : ℤ × ℤ) (fr : ℕ) : ℤ × ℤ :=
  let consecutiveFrames := if activeFrames.getD fr 0 = 1 then st.2 + 1 else st.2
  let maxConsecutiveFrames := if st.1 < consecutiveFrames then consecutiveFrames else st.1
  let consecutiveFrames := if activeFrames.getD fr 0 ≠ 1 then 0 else consecutiveFrames
  (maxConsecutiveFrames, consecutiveFrames)

/-- The gate scan of `main` (Main.go:121-142): the value of
`maxConsecutiveFrames` after the loop `for fr := 1; fr < FrameBufferSize; fr++`,
for the buffer size `main` holds in its local `config`. -/
def maxConsecutiveFrames (FrameBufferSize : ℤ) (activeFrames : List ℤ) : ℤ :=
  let consecutiveFrames : ℤ := if activeFrames.getD 0 0 = 1 then 1 else 0
  ((List.range' 1 (FrameBufferSize - 1).toNat).foldl (scanStep activeFrames)
    (0, consecutiveFrames)).1

/-- The gate of one iteration of the loop of `main` (Main.go:117-158), for the
configuration `main` holds in its local `config`: whether `encodeVideo` is
called.  The scan and the test against `ConsecutiveActiveFrames` only run when
`counter == config.FrameBufferSize - 1`. -/
def encodeVideoCalled (mainConfig : Config) (counter : ℤ) (activeFrames : List ℤ) : Bool :=
  if counter = mainConfig.FrameBufferSize - 1 then
    decide (maxConsecutiveFrames mainConfig.FrameBufferSize activeFrames ≥
      mainConfig.ConsecutiveActiveFrames)
  else false

/-- The background loop of `detectActivity` (Main.go:192-196) with loop bound
`bufferSize`: starts from `frameBuffer.frame[0]` and folds `ImageTools.Add`
over the frames `1, ..., bufferSize - 1`, dropping the error. -/
def accumulateFrames (bufferSize : ℤ) (frameBuffer : FrameBuffer) : Image :=
  (List.range' 1 (bufferSize - 1).toNat).foldl
    (fun background fr => (Add background (frameBuffer.frame.getD fr [])).1)
    (frameBuffer.frame.getD 0 [])

/-- The channel `detectActivity` sends the frame number on. -/
inductive Sent where
  | activityChan (frameNumber : ℤ)
  | inactivityChan (frameNumber : ℤ)
  deriving DecidableEq, Repr

/-- Lines 198-217 of `detectActivity`: classification of `frame` against a
given background image.  `Subtract` waits for its row tasks, so `subtracted`
is complete when `MeanStd` reads it.  `SingleThreshold` does not wait, and
`MeanStd` reads `foregroundMask` while the row tasks may still be writing it:
`firstPass i j` and `secondPass i j` tell whether cell `(i, j)` of the mask has
been written when the first and the second pass of `MeanStd` read it. -/
def classifyFrame (mathSqrt : ℚ → ℚ) (firstPass secondPass : ℕ → ℕ → Bool) (frameNumber : ℤ)
    (activityThreshold : ℚ) (frame background : Image) : Sent :=
  let subtracted := (Subtract background frame).1
  let meanStd := MeanStd mathSqrt subtracted
  let threshold := meanStd.1 + (1 / 2) * meanStd.2
  let std := (MeanStdOfReads mathSqrt (SingleThreshold firstPass subtracted threshold)
    (SingleThreshold secondPass subtracted threshold)).2
  if std > activityThreshold then Sent.inactivityChan frameNumber
  else Sent.activityChan frameNumber

/-- Function `detectActivity` (Main.go:189).  The loop bound of the background loop is
`config.FrameBufferSize`, read from the package-level `config`.  The parameters
`firstPass` and `secondPass` are the schedule under which `MeanStd` reads the
foreground mask, as in `classifyFrame`. -/
def detectActivity (mathSqrt : ℚ → ℚ) (firstPass secondPass : ℕ → ℕ → Bool) (frameNumber : ℤ)
    (activityThreshold : ℚ) (frame : Image) (frameBuffer : FrameBuffer) : Sent :=
  classifyFrame mathSqrt firstPass secondPass frameNumber activityThreshold frame
    (accumulateFrames config.FrameBufferSize frameBuffer)

/-- The state of the loop of `main` that the gate depends on: `counter` and
the array `activeFrames`. -/
structure MainState where
  counter : ℤ
  activeFrames : List ℤ
  deriving DecidableEq, Repr

/-- The state in which `main` enters its loop: `counter := 0` (Main.go:59; the
filling loop does not change it) and `activeFrames` holding `-1` in each of its
`FrameBufferSize` slots (Main.go:79-82). -/
def mainInit (mainConfig : Config) : MainState :=
  { counter := 0, activeFrames := List.replicate mainConfig.FrameBufferSize.toNat (-1) }

/-- Statement `activeFrames[counter] = -1` (Main.go:99). -/
def markUnchecked (s : MainState) : MainState :=
  { s with activeFrames := s.activeFrames.set s.counter.toNat (-1) }

/-- The non-blocking `select` (Main.go:106-115); `polled` is the send it
received, if there was one. -/
def applyPoll (polled : Option Sent) (s : MainState) : MainState :=
  match polled with
  | some (Sent.activityChan frameNumber) =>
    { s with activeFrames := s.activeFrames.set frameNumber.toNat 1 }
  | some (Sent.inactivityChan frameNumber) =>
    { s with activeFrames := s.activeFrames.set frameNumber.toNat 0 }
  | none => s

/-- The test `counter == config.FrameBufferSize - 1` (Main.go:118) under which
the gate scan runs. -/
def gateScanRuns (mainConfig : Config) (s : MainState) : Bool :=
  decide (s.counter = mainConfig.FrameBufferSize - 1)

/-- Statements `counter++` and `counter %= config.FrameBufferSize`
(Main.go:184-185); Go's `%` truncates towards zero. -/
def advanceCounter (mainConfig : Config) (s : MainState) : MainState :=
  { s with counter := Int.tmod (s.counter + 1) mainConfig.FrameBufferSize }

/-- One iteration of the loop of `main` (Main.go:90-186), as far as `counter`
and `activeFrames` go. -/
def mainIteration (mainConfig : Config) (polled : Option Sent) (s : MainState) : MainState :=
  advanceCounter mainConfig (applyPoll polled (markUnchecked s))

/-- The state at the start of the iteration that follows the iterations whose
polls are listed in `polls`. -/
def mainLoop (mainConfig : Config) (polls : List (Option Sent)) : MainState :=
  polls.foldl (fun s polled => mainIteration mainConfig polled s) (mainInit mainConfig)

/-! ## Synchronisation of the row tasks and of the frame saving

A small-step model of the statements that start goroutines and wait for them.
The caller runs its statements in order; a started task runs to its end in one
step, at any time after its start. -/

/-- The statements of the calling goroutine that matter for synchronisation. -/
inductive SyncStmt where
  /-- Statement `waitGroup.Add(n)`. -/
  | wgAdd (n : ℤ)
  /-- Statement `go func(j int) { defer waitGroup.Done(); ... }(j)`: starts
  the task of row `j`, which shares the caller's wait group. -/
  | goRow (j : ℕ)
  /-- Statement `go saveFrameToRAMDisk(frameSaveWaitGroup, colFrame, path)`:
  starts a save task; the wait group is passed by value. -/
  | goSave (k : ℕ)
  /-- Statement `waitGroup.Wait()`. -/
  | wgWait
  /-- Statement `return outputImage`. -/
  | ret
  /-- Statement `encodeVideo(path)`. -/
  | callEncodeVideo
  deriving DecidableEq, Repr

/-- A started goroutine. -/
inductive Task where
  | row (j : ℕ)
  | save (k : ℕ)
  deriving DecidableEq, Repr

/-- The state of a call: the output image as written so far, the counter of
the caller's wait group, the tasks started and not yet finished, the
statements the caller has still to run, and whether the caller has reached its
`return` or its call of `encodeVideo`. -/
structure SyncState where
  outputImage : Image
  counter : ℤ
  running : List Task
  rest : List SyncStmt
  reached : Bool
  deriving DecidableEq, Repr

/-- One step of the caller; `none` when it has no statement left or is blocked
in `Wait()`, which returns only when the counter is zero. -/
def stepCaller (s : SyncState) : Option SyncState :=
  match s.rest with
  | [] => none
  | SyncStmt.wgAdd n :: r => some { s with counter := s.counter + n, rest := r }
  | SyncStmt.goRow j :: r => some { s with running := s.running ++ [Task.row j], rest := r }
  | SyncStmt.goSave k :: r => some { s with running := s.running ++ [Task.save k], rest := r }
  | SyncStmt.wgWait :: r => if s.counter = 0 then some { s with rest := r } else none
  | SyncStmt.ret :: _ => some { s with rest := [], reached := true }
  | SyncStmt.callEncodeVideo :: r => some { s with rest := r, reached := true }

/-- The cells a row task writes: `outputImage[i][j] = rowValue i j` for every
`i` below the width. -/
def writeRow (rowValue : ℕ → ℕ → ℚ) (j : ℕ) (outputImage : Image) : Image :=
  mkImage (Dimensions outputImage).1 (Dimensions outputImage).2
    (fun i y => if y = j then rowValue i j else px outputImage i y)

/-- One step of a started task, run to its end; `none` when the task is not
running.  A row task writes its row and its deferred `waitGroup.Done()`
decrements the caller's counter.  A save task (`saveFrameToRAMDisk`,
Main.go:219) calls `Add(1)` and `Done()` on its parameter `waitGroup`, a copy
of the caller's wait group, so the caller's counter does not change. -/
def stepTask (rowValue : ℕ → ℕ → ℚ) (t : Task) (s : SyncState) : Option SyncState :=
  if t ∈ s.running then
    match t with
    | Task.row j =>
      some { s with outputImage := writeRow rowValue j s.outputImage,
                    counter := s.counter - 1, running := s.running.erase t }
    | Task.save _ => some { s with running := s.running.erase t }
  else none

/-- Whose turn it is. -/
inductive Turn where
  | caller
  | task (t : Task)
  deriving DecidableEq, Repr

/-- Runs a schedule; `none` when a turn in it cannot be taken. -/
def runSchedule (rowValue : ℕ → ℕ → ℚ) : List Turn → SyncState → Option SyncState
  | [], s => some s
  | Turn.caller :: ts, s =>
    match stepCaller s with
    | some s1 => runSchedule rowValue ts s1
    | none => none
  | Turn.task t :: ts, s =>
    match stepTask rowValue t s with
    | some s1 => runSchedule rowValue ts s1
    | none => none

/-- The state in which an operator starts its synchronisation statements: the
output image as `make` leaves it, all zero. -/
def syncInit (imageWidth imageHeight : ℕ) (body : List SyncStmt) : SyncState :=
  { outputImage := mkImage imageWidth imageHeight (fun _ _ => 0), counter := 0,
    running := [], rest := body, reached := false }

/-- The synchronisation statements of `SingleThreshold` (Thresholds.go:20-49):
`Add`, one `go` per row, `return`. -/
def singleThresholdSync (imageWidth imageHeight : ℕ) : List SyncStmt :=
  [SyncStmt.wgAdd (if imageWidth > imageHeight then imageWidth else imageHeight)] ++
    (List.range imageHeight).map SyncStmt.goRow ++ [SyncStmt.ret]

/-- The synchronisation statements of `DualThreshold` (Thresholds.go:72-101). -/
def dualThresholdSync (imageWidth imageHeight : ℕ) : List SyncStmt :=
  [SyncStmt.wgAdd (if imageWidth > imageHeight then imageWidth else imageHeight)] ++
    (List.range imageHeight).map SyncStmt.goRow ++ [SyncStmt.ret]

/-- The synchronisation statements of `Mask` after its dimension check
(Masks.go:25-55). -/
def maskSync (imageWidth imageHeight : ℕ) : List SyncStmt :=
  [SyncStmt.wgAdd (if imageWidth > imageHeight then imageWidth else imageHeight)] ++
    (List.range imageHeight).map SyncStmt.goRow ++ [SyncStmt.ret]

/-- The synchronisation statements of `Add` (ArithmeticOperators.go:30-53),
shared by `Subtract`, `CrossProduct` and `Divide`: `Add(imageHeight)`, one `go`
per row, `Wait`, `return`. -/
def addSync (imageHeight : ℕ) : List SyncStmt :=
  [SyncStmt.wgAdd imageHeight] ++ (List.range imageHeight).map SyncStmt.goRow ++
    [SyncStmt.wgWait, SyncStmt.ret]

/-- The synchronisation statements of `main` over a window of `frames`
iterations that ends with a recording: one
`go saveFrameToRAMDisk(frameSaveWaitGroup, ...)` per iteration (Main.go:102),
then `frameSaveWaitGroup.Wait()` (Main.go:146) and `encodeVideo(path)`
(Main.go:153). -/
def recordingSync (frames : ℕ) : List SyncStmt :=
  (List.range frames).map SyncStmt.goSave ++ [SyncStmt.wgWait, SyncStmt.callEncodeVideo]

/-! ## Specification-side definitions for the gate scan -/

/-- Spec side: the number of Active entries (value `1`) at the head of the
array, before the first entry that is not Active. -/
def leadingActive : List ℤ → ℕ
  | [] => 0
  | x :: xs => if x = 1 then leadingActive xs + 1 else 0

/-- Spec side, in the words of the specification: the length of the longest
run of consecutive Active entries, the largest `leadingActive` over all the
positions a run can start at. -/
def longestActiveRun : List ℤ → ℕ
  | [] => 0
  | x :: xs => max (leadingActive (x :: xs)) (longestActiveRun xs)

/-- The body of the scan loop as a function of the entry `activeFrames[fr]`. -/
def scanStepValue (st : ℤ × ℤ) (x : ℤ) : ℤ × ℤ :=
  let consecutiveFrames := if x = 1 then st.2 + 1 else st.2
  let maxConsecutiveFrames := if st.1 < consecutiveFrames then consecutiveFrames else st.1
  let consecutiveFrames := if x ≠ 1 then 0 else consecutiveFrames
  (maxConsecutiveFrames, consecutiveFrames)

/-! ## Specification-side definitions for the statistics -/

/-- Spec side: the mean of the pixels of the image, the sum over all pixels
divided by their number. -/
def populationMean (image : Image) : ℚ :=
  (∑ x in Finset.range (Dimensions image).1, ∑ y in Finset.range (Dimensions image).2,
      px image x y) /
    (((Dimensions image).1 : ℚ) * ((Dimensions image).2 : ℚ))

/-- Spec side: the population variance of the pixels of the image, the mean of
the squared deviations from `populationMean`. -/
def populationVariance (image : Image) : ℚ :=
  (∑ x in Finset.range (Dimensions image).1, ∑ y in Finset.range (Dimensions image).2,
      (px image x y - populationMean image) ^ 2) /
    (((Dimensions image).1 : ℚ) * ((Dimensions image).2 : ℚ))

/-- Spec side: the mean of the pixels of the image, as an element of a field
`K` that contains the rationals. -/
def populationMeanIn (K : Type) [Field K] (image : Image) : K :=
  (∑ x in Finset.range (Dimensions image).1, ∑ y in Finset.range (Dimensions image).2,
      ((px image x y : ℚ) : K)) /
    (((Dimensions image).1 : K) * ((Dimensions image).2 : K))

/-- Spec side: the population variance of the pixels of the image, as an
element of a field `K` that contains the rationals. -/
def populationVarianceIn (K : Type) [Field K] (image : Image) : K :=
  (∑ x in Finset.range (Dimensions image).1, ∑ y in Finset.range (Dimensions image).2,
      (((px image x y : ℚ) : K) - populationMeanIn K image) ^ 2) /
    (((Dimensions image).1 : K) * ((Dimensions image).2 : K))

/-- Spec side: the sum over all pixels of the squared difference of two
images of width `w` and height `h`. -/
def sumSquaredDifferences (a b : Image) (w h : ℕ) : ℚ :=
  ∑ x in Finset.range w, ∑ y in Finset.range h, (px a x y - px b x y) ^ 2

/-- Spec side: the sum over all pixels of the absolute difference of two
images of width `w` and height `h`. -/
def sumAbsoluteDifferences (a b : Image) (w h : ℕ) : ℚ :=
  ∑ x in Finset.range w, ∑ y in Finset.range h, |px a x y - px b x y|

/-! ## Specification-side definitions for the convolution -/

/-- Spec side: the image extended by zero outside its bounds, at signed
coordinates. -/
def zeroExtended (image : Image) (x y : ℤ) : ℚ :=
  if 0 ≤ x ∧ x < (Dimensions image).1 ∧ 0 ≤ y ∧ y < (Dimensions image).2 then
    px image x.toNat y.toNat
  else 0

/-- Spec side: the sum over the kernel of `kernel[kx][ky]` times the
zero-extended image at `(x + kx - hw, y + ky - hh)`, where `hw` and `hh` are
the halves of the kernel width and height, rounded up. -/
def windowSum (image kernel : Image) (x y : ℕ) : ℚ :=
  ∑ kx in Finset.range (Dimensions kernel).1, ∑ ky in Finset.range (Dimensions kernel).2,
    px kernel kx ky *
      zeroExtended image ((x : ℤ) + (kx : ℤ) - ⌈((Dimensions kernel).1 : ℚ) / 2⌉)
        ((y : ℤ) + (ky : ℤ) - ⌈((Dimensions kernel).2 : ℚ) / 2⌉)

/-- Spec side: the access `image[i][j]` is in bounds, `i` below the number of
columns and `j` below the length of column `i`. -/
def InBounds (image : Image) (i j : ℕ) : Prop :=
  i < image.length ∧ j < (image.getD i []).length

instance (image : Image) (i j : ℕ) : Decidable (InBounds image i j) := by
  unfold InBounds; infer_instance

/-! ## Overflow in the arithmetic operators

The definitions above compute with exact rational numbers.  The definitions of
this section follow `MinMax`, `Normalise` and `Add` once more, on values that
can overflow: a finite result whose magnitude reaches the overflow bound of
its format becomes an infinity, and the operations on infinities and NaN follow
IEEE 754.  Rounding of the finite results that stay in range, underflow and
the sign of zero are not modelled. -/

/-- A `float32` or `float64` value: a finite number, an infinity, or NaN. -/
inductive FloatValue where
  | finite (value : ℚ)
  | posInf
  | negInf
  | nan
  deriving DecidableEq

/-- The least magnitude that rounds to an infinity in `float32`,
`2^128 - 2^103`: half a unit in the last place above `math.MaxFloat32`. -/
def float32Overflow : ℚ := 2 ^ 128 - 2 ^ 103

/-- The least magnitude that rounds to an infinity in `float64`,
`2^1024 - 2^970`. -/
def float64Overflow : ℚ := 2 ^ 1024 - 2 ^ 970

/-- The value of an operation whose exact result is `q`, in a format whose
overflow bound is `limit`. -/
def floatOfExact (limit q : ℚ) : FloatValue :=
  if limit ≤ q then FloatValue.posInf
  else if q ≤ -limit then FloatValue.negInf
  else FloatValue.finite q

/-- The conversion `float32(x)` of a `float64` value. -/
def toFloat32 : FloatValue → FloatValue
  | FloatValue.finite q => floatOfExact float32Overflow q
  | x => x

/-- Negation. -/
def floatNeg : FloatValue → FloatValue
  | FloatValue.finite q => FloatValue.finite (-q)
  | FloatValue.posInf => FloatValue.negInf
  | FloatValue.negInf => FloatValue.posInf
  | FloatValue.nan => FloatValue.nan

/-- The sum `x + y` in a format whose overflow bound is `limit`. -/
def floatAdd (limit : ℚ) : FloatValue → FloatValue → FloatValue
  | FloatValue.finite a, FloatValue.finite b => floatOfExact limit (a + b)
  | FloatValue.nan, _ => FloatValue.nan
  | _, FloatValue.nan => FloatValue.nan
  | FloatValue.posInf, FloatValue.negInf => FloatValue.nan
  | FloatValue.negInf, FloatValue.posInf => FloatValue.nan
  | FloatValue.posInf, _ => FloatValue.posInf
  | _, FloatValue.posInf => FloatValue.posInf
  | FloatValue.negInf, _ => FloatValue.negInf
  | _, FloatValue.negInf => FloatValue.negInf

/-- The difference `x - y` in a format whose overflow bound is `limit`. -/
def floatSub (limit : ℚ) (x y : FloatValue) : FloatValue := floatAdd limit x (floatNeg y)

/-- The quotient `x / y` in a format whose overflow bound is `limit`. -/
def floatDiv (limit : ℚ) : FloatValue → FloatValue → FloatValue
  | FloatValue.nan, _ => FloatValue.nan
  | _, FloatValue.nan => FloatValue.nan
  | FloatValue.finite a, FloatValue.finite b =>
    if b = 0 then
      (if a = 0 then FloatValue.nan
       else if 0 < a then FloatValue.posInf else FloatValue.negInf)
    else floatOfExact limit (a / b)
  | FloatValue.finite _, _ => FloatValue.finite 0
  | FloatValue.posInf, FloatValue.finite b =>
    if 0 ≤ b then FloatValue.posInf else FloatValue.negInf
  | FloatValue.negInf, FloatValue.finite b =>
    if 0 ≤ b then FloatValue.negInf else FloatValue.posInf
  | _, _ => FloatValue.nan

/-- The comparison `x < y`; it is false when an operand is NaN. -/
def floatLt : FloatValue → FloatValue → Bool
  | FloatValue.finite a, FloatValue.finite b => decide (a < b)
  | FloatValue.nan, _ => false
  | _, FloatValue.nan => false
  | FloatValue.negInf, FloatValue.negInf => false
  | FloatValue.negInf, _ => true
  | FloatValue.posInf, _ => false
  | FloatValue.finite _, FloatValue.posInf => true
  | FloatValue.finite _, FloatValue.negInf => false

/-- The comparison `x == y`; NaN is equal to nothing. -/
def floatEq : FloatValue → FloatValue → Bool
  | FloatValue.nan, _ => false
  | _, FloatValue.nan => false
  | x, y => decide (x = y)

/-- An image `[][]float32` of values that can be infinite or NaN. -/
abbrev FloatImage := List (List FloatValue)

/-- The pixel read `image[i][j]`. -/
def pxFloat (image : FloatImage) (i j : ℕ) : FloatValue :=
  (image.getD i []).getD j (FloatValue.finite 0)

/-- The image of the given width and height whose cell `[i][j]` holds `f i j`. -/
def mkFloatImage (width height : ℕ) (f : ℕ → ℕ → FloatValue) : FloatImage :=
  (List.range width).map (fun i => (List.range height).map (fun j => f i j))

/-- The pixels in the order the scanning loops visit them. -/
def scanFloatPixels (image : FloatImage) : List FloatValue :=
  (List.range (image.getD 0 []).length).flatMap
    (fun j => (List.range image.length).map (fun i => pxFloat image i j))

/-- Function `MinMax` (Stats.go:8) on values that can overflow: the scan runs
in `float64` from `max, min := 0, 65535`, and the two results are converted to
`float32`. -/
def MinMaxFloat (image : FloatImage) : FloatValue × FloatValue :=
  let r := (scanFloatPixels image).foldl
    (fun acc currentPixel =>
      (if floatLt acc.1 currentPixel then currentPixel else acc.1,
        if floatLt currentPixel acc.2 then currentPixel else acc.2))
    (FloatValue.finite 0, FloatValue.finite 65535)
  (toFloat32 r.2, toFloat32 r.1)

/-- Function `Normalise` (BasicTools.go:133) on values that can overflow:
`quotient := float64(max - min)` is a `float32` difference, and each pixel is
`float32((currentPixel - float64(min)) / quotient)`, computed in `float64`. -/
def NormaliseFloat (image : FloatImage) : FloatImage :=
  let min := (MinMaxFloat image).1
  let max := (MinMaxFloat image).2
  let quotient :=
    if floatEq min max then FloatValue.finite 1 else floatSub float32Overflow max min
  mkFloatImage image.length (image.getD 0 []).length
    (fun i j =>
      toFloat32 (floatDiv float64Overflow (floatSub float64Overflow (pxFloat image i j) min)
        quotient))

/-- Function `Add` (ArithmeticOperators.go:13) on values that can overflow: the
sum `a[i][j] + b[i][j]` is a `float32` sum. -/
def AddFloat (a b : FloatImage) : FloatImage × Option String :=
  if a.length ≠ b.length then ([], some "Width mismatch")
  else if (a.getD 0 []).length ≠ (b.getD 0 []).length then ([], some "Height mismatch")
  else
    (NormaliseFloat (mkFloatImage a.length (a.getD 0 []).length
      (fun i j => floatAdd float32Overflow (pxFloat a i j) (pxFloat b i j))), none)

/-! ## Basic facts about the data model -/

theorem px_mkImage (w h : ℕ) (f : ℕ → ℕ → ℚ) {i j : ℕ} (hi : i < w) (hj : j < h) :
    px (mkImage w h f) i j = f i j := by
  simp [px, mkImage, List.getD_eq_getElem?_getD, List.getElem?_map, List.getElem?_range, hi, hj]

theorem length_mkImage (w h : ℕ) (f : ℕ → ℕ → ℚ) : (mkImage w h f).length = w := by
  simp [mkImage]

theorem dimensions_mkImage (w h : ℕ) (f : ℕ → ℕ → ℚ) (hw : 0 < w) :
    Dimensions (mkImage w h f) = (w, h) := by
  simp [Dimensions, mkImage, List.getD_eq_getElem?_getD, List.getElem?_map, List.getElem?_range, hw]

theorem rect_mkImage (w h : ℕ) (f : ℕ → ℕ → ℚ) : Rect (mkImage w h f) w h := by
  refine ⟨length_mkImage w h f, ?_⟩
  intro col hcol
  simp only [mkImage, List.mem_map, List.mem_range] at hcol
  obtain ⟨i, -, rfl⟩ := hcol
  simp

theorem mem_mkImage {w h : ℕ} {f : ℕ → ℕ → ℚ} {col : List ℚ} {v : ℚ}
    (hcol : col ∈ mkImage w h f) (hv : v ∈ col) : ∃ i j, i < w ∧ j < h ∧ v = f i j := by
  simp only [mkImage, List.mem_map, List.mem_range] at hcol
  obtain ⟨i, hi, rfl⟩ := hcol
  simp only [List.mem_map, List.mem_range] at hv
  obtain ⟨j, hj, rfl⟩ := hv
  exact ⟨i, j, hi, hj, rfl⟩

theorem dimensions_of_rect {image : Image} {w h : ℕ} (hr : Rect image w h) (hw : 0 < w) :
    Dimensions image = (w, h) := by
  obtain ⟨hl, hc⟩ := hr
  cases image with
  | nil => simp at hl; omega
  | cons c cs =>
    simp only [Dimensions, List.getD_cons_zero, hl, Prod.mk.injEq, true_and]
    exact hc c (List.mem_cons_self _ _)

theorem mem_scanPixels {image : Image} {v : ℚ} :
    v ∈ scanPixels image ↔
      ∃ i j, i < (Dimensions image).1 ∧ j < (Dimensions image).2 ∧ v = px image i j := by
  simp only [scanPixels, List.mem_flatMap, List.mem_range, List.mem_map]
  constructor
  · rintro ⟨j, hj, i, hi, rfl⟩
    exact ⟨i, j, hi, hj, rfl⟩
  · rintro ⟨i, j, hi, hj, rfl⟩
    exact ⟨j, hj, i, hi, rfl⟩

/-! ## `MinMax` and `Normalise` -/

theorem foldl_minMaxStep_bounds (l : List ℚ) (acc : ℚ × ℚ) :
    acc.1 ≤ (l.foldl minMaxStep acc).1 ∧ (l.foldl minMaxStep acc).2 ≤ acc.2 ∧
      ∀ v ∈ l, (l.foldl minMaxStep acc).2 ≤ v ∧ v ≤ (l.foldl minMaxStep acc).1 := by
  induction l generalizing acc with
  | nil => simp
  | cons x xs ih =>
    obtain ⟨h1, h2, h3⟩ := ih (minMaxStep acc x)
    have hx1 : acc.1 ≤ (minMaxStep acc x).1 ∧ x ≤ (minMaxStep acc x).1 := by
      simp only [minMaxStep]
      split_ifs with h
      · exact ⟨le_of_lt h, le_refl _⟩
      · exact ⟨le_refl _, not_lt.mp h⟩
    have hx2 : (minMaxStep acc x).2 ≤ acc.2 ∧ (minMaxStep acc x).2 ≤ x := by
      simp only [minMaxStep]
      split_ifs with h
      · exact ⟨le_of_lt h, le_refl _⟩
      · exact ⟨le_refl _, not_lt.mp h⟩
    simp only [List.foldl_cons]
    refine ⟨le_trans hx1.1 h1, le_trans h2 hx2.1, ?_⟩
    intro v hv
    rcases List.mem_cons.mp hv with rfl | hv
    · exact ⟨le_trans h2 hx2.2, le_trans hx1.2 h1⟩
    · exact h3 v hv

theorem minMax_bounds (image : Image) {i j : ℕ} (hi : i < (Dimensions image).1)
    (hj : j < (Dimensions image).2) :
    (MinMax image).1 ≤ px image i j ∧ px image i j ≤ (MinMax image).2 := by
  have h := (foldl_minMaxStep_bounds (scanPixels image) (0, 65535)).2.2 (px image i j)
    (mem_scanPixels.mpr ⟨i, j, hi, hj, rfl⟩)
  simpa [MinMax] using h

theorem minMax_min_le (image : Image) : (MinMax image).1 ≤ 65535 := by
  simpa [MinMax] using (foldl_minMaxStep_bounds (scanPixels image) (0, 65535)).2.1

theorem minMax_max_nonneg (image : Image) : 0 ≤ (MinMax image).2 := by
  simpa [MinMax] using (foldl_minMaxStep_bounds (scanPixels image) (0, 65535)).1

theorem normalise_pixelsIn (image : Image) : PixelsIn (Normalise image) 0 1 := by
  intro col hcol v hv
  obtain ⟨i, j, hi, hj, rfl⟩ := mem_mkImage hcol hv
  obtain ⟨hlo, hhi⟩ := minMax_bounds image hi hj
  by_cases hq : (MinMax image).1 = (MinMax image).2
  · have hv0 : px image i j = (MinMax image).1 := le_antisymm (hq ▸ hhi) hlo
    simp [hq, hv0]
  · have hpos : 0 < (MinMax image).2 - (MinMax image).1 :=
      sub_pos.mpr (lt_of_le_of_ne (le_trans hlo hhi) hq)
    simp only [if_neg hq]
    constructor
    · exact div_nonneg (sub_nonneg.mpr hlo) (le_of_lt hpos)
    · rw [div_le_one hpos]
      linarith

theorem rect_normalise (image : Image) {w h : ℕ} (hr : Rect image w h) (hw : 0 < w) :
    Rect (Normalise image) w h := by
  have hd := dimensions_of_rect hr hw
  simp only [Normalise, hd]
  exact rect_mkImage w h _

/-! ## The dimension check of the binary operators -/

theorem dimensionError_isSome_iff {a b : Image} {wa ha wb hb : ℕ} (hra : Rect a wa ha)
    (hrb : Rect b wb hb) (hwa : 0 < wa) (hwb : 0 < wb) :
    (dimensionError a b).isSome ↔ (wa ≠ wb ∨ ha ≠ hb) := by
  have hda := dimensions_of_rect hra hwa
  have hdb := dimensions_of_rect hrb hwb
  simp only [Dimensions, Prod.mk.injEq] at hda hdb
  simp only [dimensionError, hda.1, hda.2, hdb.1, hdb.2]
  by_cases h1 : wa = wb
  · by_cases h2 : ha = hb <;> simp [h1, h2]
  · simp [h1]

theorem dimensionError_eq_none {a b : Image} {w h : ℕ} (hra : Rect a w h)
    (hrb : Rect b w h) (hw : 0 < w) : dimensionError a b = none := by
  have h := dimensionError_isSome_iff hra hrb hw hw
  cases hd : dimensionError a b with
  | none => rfl
  | some e => simp [hd] at h

theorem add_error (a b : Image) :
    (Add a b).2 = dimensionError a b ∧ ((Add a b).2.isSome → (Add a b).1 = []) := by
  unfold Add; cases dimensionError a b <;> simp

theorem subtract_error (a b : Image) :
    (Subtract a b).2 = dimensionError a b ∧ ((Subtract a b).2.isSome → (Subtract a b).1 = []) := by
  unfold Subtract; cases dimensionError a b <;> simp

theorem crossProduct_error (a b : Image) :
    (CrossProduct a b).2 = dimensionError a b ∧
      ((CrossProduct a b).2.isSome → (CrossProduct a b).1 = []) := by
  unfold CrossProduct; cases dimensionError a b <;> simp

theorem divide_error (a b : Image) :
    (Divide a b).2 = dimensionError a b ∧ ((Divide a b).2.isSome → (Divide a b).1 = []) := by
  unfold Divide; cases dimensionError a b <;> simp

theorem mask_error (written : ℕ → ℕ → Bool) (a b : Image) :
    (Mask written a b).2 = dimensionError a b ∧
      ((Mask written a b).2.isSome → (Mask written a b).1 = []) := by
  unfold Mask; cases dimensionError a b <;> simp

/-- The result of a binary operator on two images of equal dimensions: the
normalised image of the pixelwise results, of the same dimensions. -/
theorem normalise_mkImage_spec (w h : ℕ) (f : ℕ → ℕ → ℚ) (hw : 0 < w) :
    Rect (Normalise (mkImage w h f)) w h ∧ PixelsIn (Normalise (mkImage w h f)) 0 1 :=
  ⟨rect_normalise _ (rect_mkImage w h f) hw, normalise_pixelsIn _⟩

/-- In exact arithmetic, where no result overflows: for images `a`, `b` of equal
dimensions `w x h` (non-empty, rectangular), the images returned by `Add`,
`Subtract`, `CrossProduct`, `Divide` and (for `a` alone, whatever `math.Sqrt`
returns) `Sqrt` are `w x h` images all of whose pixels lie in the closed
interval `[0, 1]`. -/
theorem arithmetic_outputs_in_unit_interval (mathSqrt : ℚ → ℚ) (a b : Image) (w h : ℕ)
    (hw : 0 < w) (hh : 0 < h) (hra : Rect a w h) (hrb : Rect b w h) :
    (Rect (Add a b).1 w h ∧ PixelsIn (Add a b).1 0 1) ∧
    (Rect (Subtract a b).1 w h ∧ PixelsIn (Subtract a b).1 0 1) ∧
    (Rect (CrossProduct a b).1 w h ∧ PixelsIn (CrossProduct a b).1 0 1) ∧
    (Rect (Divide a b).1 w h ∧ PixelsIn (Divide a b).1 0 1) ∧
    (Rect (Sqrt mathSqrt a) w h ∧ PixelsIn (Sqrt mathSqrt a) 0 1) := by
  have he := dimensionError_eq_none hra hrb hw
  have hd := dimensions_of_rect hra hw
  have _ := hh
  refine ⟨?_, ?_, ?_, ?_, ?_⟩
  · simp only [Add, he, hd]; exact normalise_mkImage_spec w h _ hw
  · simp only [Subtract, he, hd]; exact normalise_mkImage_spec w h _ hw
  · simp only [CrossProduct, he, hd]; exact normalise_mkImage_spec w h _ hw
  · simp only [Divide, he, hd]; exact normalise_mkImage_spec w h _ hw
  · simp only [Sqrt, hd]; exact normalise_mkImage_spec w h _ hw

theorem arithmetic_outputs_in_unit_interval_witness :
    (Rect (Add [[0, 1], [1, 1]] [[1, 1], [0, 1]]).1 2 2 ∧
      PixelsIn (Add [[0, 1], [1, 1]] [[1, 1], [0, 1]]).1 0 1) ∧
    (Rect (Subtract [[0, 1], [1, 1]] [[1, 1], [0, 1]]).1 2 2 ∧
      PixelsIn (Subtract [[0, 1], [1, 1]] [[1, 1], [0, 1]]).1 0 1) ∧
    (Rect (CrossProduct [[0, 1], [1, 1]] [[1, 1], [0, 1]]).1 2 2 ∧
      PixelsIn (CrossProduct [[0, 1], [1, 1]] [[1, 1], [0, 1]]).1 0 1) ∧
    (Rect (Divide [[0, 1], [1, 1]] [[1, 1], [0, 1]]).1 2 2 ∧
      PixelsIn (Divide [[0, 1], [1, 1]] [[1, 1], [0, 1]]).1 0 1) ∧
    (Rect (Sqrt (fun x => x) [[0, 1], [1, 1]]) 2 2 ∧
      PixelsIn (Sqrt (fun x => x) [[0, 1], [1, 1]]) 0 1) :=
  arithmetic_outputs_in_unit_interval (fun x => x) [[0, 1], [1, 1]] [[1, 1], [0, 1]] 2 2
    (by decide) (by decide) (by decide) (by decide)

/-- C8: for non-empty rectangular images `a` (`wa x ha`) and `b` (`wb x hb`),
each of `Add`, `Subtract`, `CrossProduct`, `Divide` and `Mask` returns an error
exactly when the widths or the heights differ, and an error always comes with
the nil image; for `Mask` this holds under every schedule of its row tasks. -/
theorem binary_operators_error_iff_dimension_mismatch (written : ℕ → ℕ → Bool) (a b : Image)
    (wa ha wb hb : ℕ)
    (hwa : 0 < wa) (hha : 0 < ha) (hwb : 0 < wb) (hhb : 0 < hb)
    (hra : Rect a wa ha) (hrb : Rect b wb hb) :
    (((Add a b).2.isSome ↔ (wa ≠ wb ∨ ha ≠ hb)) ∧ ((Add a b).2.isSome → (Add a b).1 = [])) ∧
    (((Subtract a b).2.isSome ↔ (wa ≠ wb ∨ ha ≠ hb)) ∧
      ((Subtract a b).2.isSome → (Subtract a b).1 = [])) ∧
    (((CrossProduct a b).2.isSome ↔ (wa ≠ wb ∨ ha ≠ hb)) ∧
      ((CrossProduct a b).2.isSome → (CrossProduct a b).1 = [])) ∧
    (((Divide a b).2.isSome ↔ (wa ≠ wb ∨ ha ≠ hb)) ∧
      ((Divide a b).2.isSome → (Divide a b).1 = [])) ∧
    (((Mask written a b).2.isSome ↔ (wa ≠ wb ∨ ha ≠ hb)) ∧
      ((Mask written a b).2.isSome → (Mask written a b).1 = [])) := by
  have h := dimensionError_isSome_iff hra hrb hwa hwb
  have _ := hha
  have _ := hhb
  refine ⟨⟨?_, (add_error a b).2⟩, ⟨?_, (subtract_error a b).2⟩,
    ⟨?_, (crossProduct_error a b).2⟩, ⟨?_, (divide_error a b).2⟩, ⟨?_, (mask_error written a b).2⟩⟩
  · rw [(add_error a b).1]; exact h
  · rw [(subtract_error a b).1]; exact h
  · rw [(crossProduct_error a b).1]; exact h
  · rw [(divide_error a b).1]; exact h
  · rw [(mask_error written a b).1]; exact h

theorem binary_operators_error_iff_dimension_mismatch_witness :
    (((Add [[0, 1]] [[0], [1]]).2.isSome ↔ ((1 : ℕ) ≠ 2 ∨ (2 : ℕ) ≠ 1)) ∧
      ((Add [[0, 1]] [[0], [1]]).2.isSome → (Add [[0, 1]] [[0], [1]]).1 = [])) ∧
    (((Subtract [[0, 1]] [[0], [1]]).2.isSome ↔ ((1 : ℕ) ≠ 2 ∨ (2 : ℕ) ≠ 1)) ∧
      ((Subtract [[0, 1]] [[0], [1]]).2.isSome → (Subtract [[0, 1]] [[0], [1]]).1 = [])) ∧
    (((CrossProduct [[0, 1]] [[0], [1]]).2.isSome ↔ ((1 : ℕ) ≠ 2 ∨ (2 : ℕ) ≠ 1)) ∧
      ((CrossProduct [[0, 1]] [[0], [1]]).2.isSome →
        (CrossProduct [[0, 1]] [[0], [1]]).1 = [])) ∧
    (((Divide [[0, 1]] [[0], [1]]).2.isSome ↔ ((1 : ℕ) ≠ 2 ∨ (2 : ℕ) ≠ 1)) ∧
      ((Divide [[0, 1]] [[0], [1]]).2.isSome → (Divide [[0, 1]] [[0], [1]]).1 = [])) ∧
    (((Mask (fun _ _ => false) [[0, 1]] [[0], [1]]).2.isSome ↔
        ((1 : ℕ) ≠ 2 ∨ (2 : ℕ) ≠ 1)) ∧
      ((Mask (fun _ _ => false) [[0, 1]] [[0], [1]]).2.isSome →
        (Mask (fun _ _ => false) [[0, 1]] [[0], [1]]).1 = [])) :=
  binary_operators_error_iff_dimension_mismatch (fun _ _ => false) [[0, 1]] [[0], [1]] 1 2 2 1
    (by decide) (by decide) (by decide) (by decide) (by decide) (by decide)

/-! ## `Divide` -/

theorem px_mem_or_zero (image : Image) (i j : ℕ) :
    px image i j = 0 ∨ ∃ col ∈ image, px image i j ∈ col := by
  unfold px
  rw [List.getD_eq_getElem?_getD, List.getD_eq_getElem?_getD]
  cases hc : image[i]? with
  | none => left; simp
  | some col =>
    cases hv : col[j]? with
    | none => left; simp [hv]
    | some v =>
      right
      exact ⟨col, List.getElem?_mem hc, by simpa [hv] using List.getElem?_mem hv⟩

theorem px_bounds_of_pixelsIn {image : Image} {lo hi : ℚ} (hp : PixelsIn image lo hi)
    (hlo : lo ≤ 0) (hhi : 0 ≤ hi) (i j : ℕ) : lo ≤ px image i j ∧ px image i j ≤ hi := by
  rcases px_mem_or_zero image i j with h0 | ⟨col, hcol, hv⟩
  · rw [h0]; exact ⟨hlo, hhi⟩
  · exact hp col hcol _ hv

theorem getD_cons_replicate_zero (n k : ℕ) : ((0 : ℚ) :: List.replicate n 0).getD k 0 = 0 := by
  rw [← List.replicate_succ, List.getD_eq_getElem?_getD, List.getElem?_replicate]
  split_ifs <;> rfl

theorem divideRow_length (a b : Image) (j : ℕ) :
    ∀ n i, (divideRow a b j i n).1.length = n := by
  intro n
  induction n with
  | zero => intro i; simp [divideRow]
  | succ n ih =>
    intro i
    simp only [divideRow]
    split_ifs with hz
    · simp
    · simp [ih (i + 1)]

/-- Early exit of a row of `Divide`: from the first zero divisor on, every cell
of the row is `0`. -/
theorem divideRow_zero_from_zero_divisor (a b : Image) (j : ℕ) :
    ∀ n i k k0, k0 ≤ k → px b (i + k0) j = 0 → (divideRow a b j i n).1.getD k 0 = 0 := by
  intro n
  induction n with
  | zero => intro i k k0 _ _; simp [divideRow]
  | succ n ih =>
    intro i k k0 hk hz
    simp only [divideRow]
    split_ifs with hb
    · exact getD_cons_replicate_zero n k
    · cases k0 with
      | zero => exact absurd (by simpa using hz) hb
      | succ k0 =>
        cases k with
        | zero => omega
        | succ k =>
          simp only [List.getD_cons_succ]
          exact ih (i + 1) k k0 (by omega) (by rw [← hz]; congr 1; omega)

theorem divideRow_nonneg (a b : Image) (j : ℕ) (ha : ∀ i j, 0 ≤ px a i j)
    (hb : ∀ i j, 0 ≤ px b i j) :
    ∀ n i k, 0 ≤ (divideRow a b j i n).1.getD k 0 := by
  intro n
  induction n with
  | zero => intro i k; simp [divideRow]
  | succ n ih =>
    intro i k
    simp only [divideRow]
    split_ifs with hz
    · exact le_of_eq (getD_cons_replicate_zero n k).symm
    · cases k with
      | zero => simpa using div_nonneg (ha i j) (hb i j)
      | succ k => simpa using ih (i + 1) k

/-- The quotient is only computed for a nonzero divisor. -/
theorem divideRow_divisors_ne_zero (a b : Image) (j : ℕ) :
    ∀ n i, ∀ d ∈ (divideRow a b j i n).2, d ≠ 0 := by
  intro n
  induction n with
  | zero => intro i d hd; simp [divideRow] at hd
  | succ n ih =>
    intro i d hd
    simp only [divideRow] at hd
    split_ifs at hd with hz
    · simp at hd
    · rcases List.mem_cons.mp hd with rfl | hd
      · exact hz
      · exact ih (i + 1) d hd

theorem foldl_minMaxStep_min_ge (l : List ℚ) (acc : ℚ × ℚ) (lo : ℚ) (hacc : lo ≤ acc.2)
    (hl : ∀ v ∈ l, lo ≤ v) : lo ≤ (l.foldl minMaxStep acc).2 := by
  induction l generalizing acc with
  | nil => simpa using hacc
  | cons x xs ih =>
    simp only [List.foldl_cons]
    apply ih
    · simp only [minMaxStep]
      split_ifs
      · exact hl x (List.mem_cons_self _ _)
      · exact hacc
    · intro v hv
      exact hl v (List.mem_cons_of_mem _ hv)

theorem minMax_min_nonneg (image : Image)
    (hp : ∀ i j, i < (Dimensions image).1 → j < (Dimensions image).2 → 0 ≤ px image i j) :
    0 ≤ (MinMax image).1 := by
  simp only [MinMax]
  apply foldl_minMaxStep_min_ge
  · norm_num
  · intro v hv
    obtain ⟨i, j, hi, hj, rfl⟩ := mem_scanPixels.mp hv
    exact hp i j hi hj

theorem px_normalise (image : Image) {i j : ℕ} (hi : i < (Dimensions image).1)
    (hj : j < (Dimensions image).2) :
    px (Normalise image) i j =
      (px image i j - (MinMax image).1) /
        (if (MinMax image).1 = (MinMax image).2 then 1 else (MinMax image).2 - (MinMax image).1) := by
  simp only [Normalise]
  rw [px_mkImage _ _ _ hi hj]

/-- C10: for images `a`, `b` of equal dimensions `w x h` with all pixels in
`[0, 1]`, `Divide` returns no error and a `w x h` image that holds `0` at every
pixel whose divisor `b[x][y]` is `0`; and every divisor by which a row task
computes a quotient is nonzero. -/
theorem divide_zero_divisor_gives_zero (a b : Image) (w h : ℕ) (hw : 0 < w) (hh : 0 < h)
    (hra : Rect a w h) (hrb : Rect b w h) (hpa : PixelsIn a 0 1) (hpb : PixelsIn b 0 1) :
    (Divide a b).2 = none ∧ Rect (Divide a b).1 w h ∧
    (∀ x y, x < w → y < h → px b x y = 0 → px (Divide a b).1 x y = 0) ∧
    (∀ y, y < h → ∀ d ∈ (divideRow a b y 0 (Dimensions a).1).2, d ≠ 0) := by
  have he := dimensionError_eq_none hra hrb hw
  have hd := dimensions_of_rect hra hw
  have _ := hh
  have hna : ∀ i j, 0 ≤ px a i j := fun i j => (px_bounds_of_pixelsIn hpa le_rfl zero_le_one i j).1
  have hnb : ∀ i j, 0 ≤ px b i j := fun i j => (px_bounds_of_pixelsIn hpb le_rfl zero_le_one i j).1
  refine ⟨?_, ?_, ?_, ?_⟩
  · simp [Divide, he]
  · simp only [Divide, he, hd]
    exact rect_normalise _ (rect_mkImage w h _) hw
  · intro x y hx hy hb0
    simp only [Divide, he, hd]
    have hdr := dimensions_mkImage w h (fun i j => (divideRow a b j 0 w).1.getD i 0) hw
    have hx' : x < (Dimensions (mkImage w h (fun i j => (divideRow a b j 0 w).1.getD i 0))).1 := by
      rw [hdr]; exact hx
    have hy' : y < (Dimensions (mkImage w h (fun i j => (divideRow a b j 0 w).1.getD i 0))).2 := by
      rw [hdr]; exact hy
    have hraw : px (mkImage w h (fun i j => (divideRow a b j 0 w).1.getD i 0)) x y = 0 := by
      rw [px_mkImage _ _ _ hx hy]
      exact divideRow_zero_from_zero_divisor a b y w 0 x x le_rfl (by simpa using hb0)
    have hmin0 : (MinMax (mkImage w h (fun i j => (divideRow a b j 0 w).1.getD i 0))).1 = 0 := by
      apply le_antisymm
      · have := (minMax_bounds _ hx' hy').1
        rwa [hraw] at this
      · apply minMax_min_nonneg
        intro i j hi hj
        rw [hdr] at hi hj
        rw [px_mkImage _ _ _ hi hj]
        exact divideRow_nonneg a b j hna hnb w 0 i
    rw [px_normalise _ hx' hy', hraw, hmin0]
    simp
  · intro y _ d hdm
    exact divideRow_divisors_ne_zero a b y _ 0 d hdm

theorem divide_zero_divisor_gives_zero_witness :
    (Divide [[1, 1, 1], [1, 1, 1]] [[1, 0, 1], [0, 1, 1 / 2]]).2 = none ∧
    Rect (Divide [[1, 1, 1], [1, 1, 1]] [[1, 0, 1], [0, 1, 1 / 2]]).1 2 3 ∧
    (∀ x y, x < 2 → y < 3 → px [[1, 0, 1], [0, 1, 1 / 2]] x y = 0 →
      px (Divide [[1, 1, 1], [1, 1, 1]] [[1, 0, 1], [0, 1, 1 / 2]]).1 x y = 0) ∧
    (∀ y, y < 3 → ∀ d ∈ (divideRow [[1, 1, 1], [1, 1, 1]] [[1, 0, 1], [0, 1, 1 / 2]] y 0
      (Dimensions [[1, 1, 1], [1, 1, 1]]).1).2, d ≠ 0) :=
  divide_zero_divisor_gives_zero [[1, 1, 1], [1, 1, 1]] [[1, 0, 1], [0, 1, 1 / 2]] 2 3
    (by decide) (by decide) (by decide) (by decide)
    (by simp [PixelsIn]) (by simp [PixelsIn]; norm_num)

/-! ## The gate scan -/

theorem leadingActive_le_longestActiveRun (l : List ℤ) : leadingActive l ≤ longestActiveRun l := by
  cases l with
  | nil => simp [leadingActive, longestActiveRun]
  | cons x xs => simp only [longestActiveRun]; exact le_max_left _ _

theorem foldl_scanStep_eq (xs : List ℤ) :
    ∀ (pre : List ℤ) (st : ℤ × ℤ),
      (List.range' pre.length xs.length).foldl (scanStep (pre ++ xs)) st =
        xs.foldl scanStepValue st := by
  induction xs with
  | nil => intro pre st; simp [List.range']
  | cons x xs ih =>
    intro pre st
    have hx : (pre ++ x :: xs).getD pre.length 0 = x := by
      rw [List.getD_eq_getElem?_getD, List.getElem?_append_right (le_refl _)]
      simp
    have hstep : scanStep (pre ++ x :: xs) st pre.length = scanStepValue st x := by
      simp only [scanStep, scanStepValue, hx]
    have hpre : pre ++ x :: xs = (pre ++ [x]) ++ xs := by simp
    simp only [List.length_cons, List.range', List.foldl_cons, hstep]
    have := ih (pre ++ [x]) (scanStepValue st x)
    rw [← hpre] at this
    simpa using this

theorem scanStepValue_active (mx c : ℤ) : scanStepValue (mx, c) 1 = (max mx (c + 1), c + 1) := by
  simp only [scanStepValue]
  by_cases hlt : mx < c + 1
  · simp [hlt, max_eq_right (le_of_lt hlt)]
  · simp [hlt, max_eq_left (not_lt.mp hlt)]

theorem scanStepValue_not_active (mx c x : ℤ) (hx : x ≠ 1) :
    scanStepValue (mx, c) x = (max mx c, 0) := by
  simp only [scanStepValue]
  by_cases hlt : mx < c
  · simp [hlt, hx, max_eq_right (le_of_lt hlt)]
  · simp [hlt, hx, max_eq_left (not_lt.mp hlt)]

theorem foldl_scanStepValue (xs : List ℤ) :
    ∀ (mx c : ℤ), 0 ≤ mx → 0 ≤ c → (xs ≠ [] ∨ c ≤ mx) →
      (xs.foldl scanStepValue (mx, c)).1 =
        max mx (max (c + (leadingActive xs : ℤ)) (longestActiveRun xs : ℤ)) := by
  induction xs with
  | nil =>
    intro mx c hmx hc h
    rcases h with h | h
    · exact absurd rfl h
    · simp only [List.foldl_nil, leadingActive, longestActiveRun, Nat.cast_zero, add_zero]
      rw [max_eq_left hc, max_eq_left h]
  | cons x xs ih =>
    intro mx c hmx hc _
    have hle : (leadingActive xs : ℤ) ≤ (longestActiveRun xs : ℤ) := by
      exact_mod_cast leadingActive_le_longestActiveRun xs
    have hl0 : (0 : ℤ) ≤ (leadingActive xs : ℤ) := Int.natCast_nonneg _
    simp only [List.foldl_cons]
    by_cases hx : x = 1
    · subst hx
      rw [scanStepValue_active, ih _ _ (le_trans hmx (le_max_left _ _)) (by omega)
        (Or.inr (le_max_right _ _))]
      simp only [leadingActive, longestActiveRun, if_true, Nat.cast_max, Nat.cast_add,
        Nat.cast_one]
      simp only [max_def]
      split_ifs <;> omega
    · rw [scanStepValue_not_active _ _ _ hx, ih _ _ (le_trans hmx (le_max_left _ _)) le_rfl
        (Or.inr (le_trans hmx (le_max_left _ _)))]
      simp only [leadingActive, longestActiveRun, hx, if_false, Nat.cast_max, Nat.cast_zero,
        add_zero, zero_add]
      simp only [max_def]
      split_ifs <;> omega

/-- For a buffer of at least two frames the gate scan computes the length of
the longest run of consecutive Active entries. -/
theorem maxConsecutiveFrames_eq_longestActiveRun (activeFrames : List ℤ)
    (h : 2 ≤ activeFrames.length) :
    maxConsecutiveFrames activeFrames.length activeFrames = longestActiveRun activeFrames := by
  cases activeFrames with
  | nil => simp at h
  | cons x xs =>
    have hxs : xs ≠ [] := by
      intro h0; subst h0; simp at h
    have hn : (((x :: xs).length : ℤ) - 1).toNat = xs.length := by
      simp
    have hfold := foldl_scanStep_eq xs [x] (0, if x = 1 then 1 else 0)
    simp only [List.length_singleton, List.singleton_append] at hfold
    simp only [maxConsecutiveFrames, hn, List.getD_cons_zero, hfold]
    have hl0 : (0 : ℤ) ≤ (leadingActive xs : ℤ) := Int.natCast_nonneg _
    have hle : (leadingActive xs : ℤ) ≤ (longestActiveRun xs : ℤ) := by
      exact_mod_cast leadingActive_le_longestActiveRun xs
    rw [foldl_scanStepValue xs 0 _ le_rfl (by split_ifs <;> norm_num) (Or.inl hxs)]
    by_cases hx : x = 1
    · simp only [hx, if_true, leadingActive, longestActiveRun, Nat.cast_max, Nat.cast_add,
        Nat.cast_one]
      simp only [max_def]
      split_ifs <;> omega
    · simp only [hx, if_false, leadingActive, longestActiveRun, Nat.cast_max, Nat.cast_zero,
        zero_add]
      simp only [max_def]
      split_ifs <;> omega

/-! ## The frame buffer -/

theorem length_shiftLoop : ∀ (fr : ℕ) (frames : List Image),
    (shiftLoop fr frames).length = frames.length := by
  intro fr
  induction fr with
  | zero => intro frames; rfl
  | succ fr ih => intro frames; simp [shiftLoop, ih]

/-- What the shift loop of `addFrameToBuffer` leaves in each slot: the slots
`1, ..., fr` all hold the frame that was in slot `fr + 1`, every other slot is
unchanged. -/
theorem getD_shiftLoop : ∀ (fr : ℕ) (frames : List Image), fr + 1 < frames.length →
    ∀ k, (shiftLoop fr frames).getD k [] =
      if 1 ≤ k ∧ k ≤ fr then frames.getD (fr + 1) [] else frames.getD k [] := by
  intro fr
  induction fr with
  | zero =>
    intro frames _ k
    have : ¬ (1 ≤ k ∧ k ≤ 0) := by omega
    rw [if_neg this]
    rfl
  | succ fr ih =>
    intro frames hlen k
    have hlen2 : fr + 1 < (frames.set (fr + 1) (frames.getD (fr + 2) [])).length := by
      simp; omega
    have hset : ∀ m, (frames.set (fr + 1) (frames.getD (fr + 2) [])).getD m [] =
        if m = fr + 1 then frames.getD (fr + 2) [] else frames.getD m [] := by
      intro m
      simp only [List.getD_eq_getElem?_getD, List.getElem?_set]
      by_cases hm : fr + 1 = m
      · subst hm
        have : fr + 1 < frames.length := by omega
        simp [this]
      · have hm2 : ¬ m = fr + 1 := fun h => hm h.symm
        simp [hm, hm2]
    simp only [shiftLoop]
    rw [ih _ hlen2 k, hset, hset]
    by_cases h1 : 1 ≤ k ∧ k ≤ fr
    · have h2 : 1 ≤ k ∧ k ≤ fr + 1 := by omega
      simp [h1, h2]
    · by_cases h3 : k = fr + 1
      · have h2 : 1 ≤ k ∧ k ≤ fr + 1 := by omega
        simp [h1, h2, h3]
      · have h2 : ¬ (1 ≤ k ∧ k ≤ fr + 1) := by omega
        simp [h1, h2, h3]

theorem length_addFrameToBuffer (frame : Image) (frameBuffer : FrameBuffer) :
    (addFrameToBuffer frame frameBuffer).frame.length = frameBuffer.frame.length := by
  simp [addFrameToBuffer, length_shiftLoop]

/-- The slots of the buffer `addFrameToBuffer` returns, for a buffer of at
least two frames: slot 0 is unchanged, the last slot holds the new frame, and
every slot between them holds the frame that was last. -/
theorem getD_addFrameToBuffer (frame : Image) (frameBuffer : FrameBuffer)
    (hlen : 2 ≤ frameBuffer.frame.length) (k : ℕ) (hk : k < frameBuffer.frame.length) :
    (addFrameToBuffer frame frameBuffer).frame.getD k [] =
      if k = 0 then frameBuffer.frame.getD 0 []
      else if k = frameBuffer.frame.length - 1 then frame
      else frameBuffer.frame.getD (frameBuffer.frame.length - 1) [] := by
  have hsl := getD_shiftLoop (frameBuffer.frame.length - 2) frameBuffer.frame (by omega) k
  have hidx : frameBuffer.frame.length - 2 + 1 = frameBuffer.frame.length - 1 := by omega
  rw [hidx] at hsl
  simp only [addFrameToBuffer, List.getD_eq_getElem?_getD, List.getElem?_set, length_shiftLoop]
  simp only [List.getD_eq_getElem?_getD] at hsl
  by_cases h0 : k = 0
  · subst h0
    have hne : ¬ frameBuffer.frame.length - 1 = 0 := by omega
    have h1 : ¬ (1 ≤ 0 ∧ 0 ≤ frameBuffer.frame.length - 2) := by omega
    simp only [hne, if_false, if_true, hsl, h1]
  · by_cases hl : k = frameBuffer.frame.length - 1
    · have hlt : frameBuffer.frame.length - 1 < frameBuffer.frame.length := by omega
      have hne : ¬ frameBuffer.frame.length - 1 = 0 := by omega
      simp [hl, hlt, hne]
    · have hne : ¬ frameBuffer.frame.length - 1 = k := fun h => hl h.symm
      have h1 : 1 ≤ k ∧ k ≤ frameBuffer.frame.length - 2 := by omega
      simp only [hne, if_false, hsl, h1, h0, hl, and_self, if_true]

/-! ## Evaluation at concrete images -/

theorem range_one_eq : List.range 1 = [0] := rfl

theorem range_two_eq : List.range 2 = [0, 1] := rfl

theorem range_three_eq : List.range 3 = [0, 1, 2] := rfl

theorem range_four_eq : List.range 4 = [0, 1, 2, 3] := rfl

/-- The background loop of `detectActivity` never runs: its bound is the
`FrameBufferSize` of the package-level `config`, which is `0`. -/
theorem accumulateFrames_config (frameBuffer : FrameBuffer) :
    accumulateFrames config.FrameBufferSize frameBuffer = frameBuffer.frame.getD 0 [] := by
  simp [accumulateFrames, config]

/-! ## The frame buffer, the gate scan, the classifier, and the claims settled at a
concrete input -/

/-- C1, at a full buffer of three frames: `addFrameToBuffer` returns
`[f0, f2, g]`, not `[f1, f2, g]`.  The oldest frame `f0` stays in slot 0 and
the frame `f1` is the one that is lost. -/
theorem addFrameToBuffer_keeps_oldest_frame :
    (∀ f0 f1 f2 g : Image, addFrameToBuffer g ⟨[f0, f1, f2]⟩ = ⟨[f0, f2, g]⟩) ∧
    addFrameToBuffer [[1, 1]] ⟨[[[0, 0]], [[0, 1]], [[1, 0]]]⟩ ≠
      ⟨[[[0, 1]], [[1, 0]], [[1, 1]]]⟩ := by
  refine ⟨fun f0 f1 f2 g => rfl, by decide⟩

/-- C2, at a buffer of one frame: for the activity array `[Active]` the scan
leaves `maxConsecutiveFrames` at `0`, while the longest run of Active entries
has length `1`.  For the array of the specification's example the scan gives
`3`. -/
theorem maxConsecutiveFrames_single_frame :
    maxConsecutiveFrames 1 [1] = 0 ∧ longestActiveRun [1] = 1 ∧
    maxConsecutiveFrames 6 [1, 1, 1, 0, 1, 1] = 3 := by
  decide

/-- C3: the background `detectActivity` subtracts the frame from is
`frameBuffer.frame[0]` alone, whatever the buffer holds, because its loop bound
is the `FrameBufferSize` of the package-level `config`, which is `0`.  For the
buffer `[f0, f1]` with `f0 = [[0, 1]]` and `f1 = [[1, 0]]` the accumulation over
the two frames is `Add(f0, f1) = [[0, 0]]`, which is not `f0`. -/
theorem detectActivity_background_is_first_frame :
    (∀ (mathSqrt : ℚ → ℚ) (firstPass secondPass : ℕ → ℕ → Bool) (frameNumber : ℤ)
        (activityThreshold : ℚ) (frame : Image) (frameBuffer : FrameBuffer),
      detectActivity mathSqrt firstPass secondPass frameNumber activityThreshold frame
          frameBuffer =
        classifyFrame mathSqrt firstPass secondPass frameNumber activityThreshold frame
          (frameBuffer.frame.getD 0 [])) ∧
    accumulateFrames config.FrameBufferSize ⟨[[[0, 1]], [[1, 0]]]⟩ = [[0, 1]] ∧
    accumulateFrames 2 ⟨[[[0, 1]], [[1, 0]]]⟩ = [[0, 0]] := by
  refine ⟨?_, ?_, ?_⟩
  · intro mathSqrt firstPass secondPass frameNumber activityThreshold frame frameBuffer
    simp [detectActivity, accumulateFrames, config]
  · simp [accumulateFrames, config]
  · norm_num [accumulateFrames, Add, dimensionError, Normalise, MinMax, Dimensions, mkImage,
      scanPixels, px, minMaxStep, range_one_eq, range_two_eq, List.range']

theorem ratSqrt_zero : Rat.sqrt 0 = 0 := by decide

theorem ratSqrt_one : Rat.sqrt 1 = 1 := by decide

theorem ratSqrt_quarter : Rat.sqrt (1 / 4) = 1 / 2 := by
  rw [show (1 / 4 : ℚ) = (1 / 2) * (1 / 2) by norm_num, Rat.sqrt_eq]
  norm_num

/-- On an image that no task writes, both passes of `MeanStd` read the same
cells. -/
theorem meanStdOfReads_self (mathSqrt : ℚ → ℚ) (image : Image) :
    MeanStdOfReads mathSqrt image image = MeanStd mathSqrt image := rfl

/-- C4, at the frame `[[0, 1]]`, the buffer `[[[1, 0]]]` and
`activityThreshold = 1/10`, with `Rat.sqrt` for `math.Sqrt` (it is exact at the
squares `0` and `1/4`, the only arguments that occur).  Here `D = [[1, 0]]`,
`(m, s) = (1/2, 1/2)`, and `M = SingleThreshold(D, 3/4)` is `[[1, 0]]` once its
cells are written, with standard deviation `1/2 > 1/10`: the claim puts the
frame on the inactivity channel.  `detectActivity` does so when `MeanStd` reads
the mask after every cell has been written.  When `MeanStd` reads the mask
before the row tasks of `SingleThreshold` have written any cell, it finds
`[[0, 0]]`, whose standard deviation is `0`, and `detectActivity` sends the
frame number on the activity channel. -/
theorem detectActivity_reads_unwritten_mask :
    (Subtract (accumulateFrames config.FrameBufferSize ⟨[[[1, 0]]]⟩) [[0, 1]]).1 = [[1, 0]] ∧
    MeanStd Rat.sqrt [[1, 0]] = (1 / 2, 1 / 2) ∧
    SingleThreshold (fun _ _ => true) [[1, 0]] (1 / 2 + 1 / 2 * (1 / 2)) = [[1, 0]] ∧
    (MeanStd Rat.sqrt [[1, 0]]).2 > 1 / 10 ∧
    detectActivity Rat.sqrt (fun _ _ => true) (fun _ _ => true) 3 (1 / 10) [[0, 1]]
        ⟨[[[1, 0]]]⟩ = Sent.inactivityChan 3 ∧
    SingleThreshold (fun _ _ => false) [[1, 0]] (1 / 2 + 1 / 2 * (1 / 2)) = [[0, 0]] ∧
    MeanStdOfReads Rat.sqrt [[0, 0]] [[0, 0]] = (0, 0) ∧
    detectActivity Rat.sqrt (fun _ _ => false) (fun _ _ => false) 3 (1 / 10) [[0, 1]]
        ⟨[[[1, 0]]]⟩ = Sent.activityChan 3 := by
  have hD : (Subtract (accumulateFrames config.FrameBufferSize ⟨[[[1, 0]]]⟩) [[0, 1]]).1 =
      [[1, 0]] := by
    norm_num [accumulateFrames_config, Subtract, dimensionError, Normalise, MinMax,
      Dimensions, mkImage, scanPixels, px, minMaxStep, range_one_eq, range_two_eq]
  have hMS : MeanStd Rat.sqrt [[1, 0]] = (1 / 2, 1 / 2) := by
    have h : MeanStd Rat.sqrt [[1, 0]] = (1 / 2, Rat.sqrt (1 / 4)) := by
      norm_num [MeanStd, Dimensions, scanPixels, px, range_one_eq, range_two_eq]
    rw [h, ratSqrt_quarter]
  have hT : SingleThreshold (fun _ _ => true) [[1, 0]] (1 / 2 + 1 / 2 * (1 / 2)) = [[1, 0]] := by
    norm_num [SingleThreshold, Dimensions, mkImage, px, range_one_eq, range_two_eq]
  have hF : SingleThreshold (fun _ _ => false) [[1, 0]] (1 / 2 + 1 / 2 * (1 / 2)) =
      [[0, 0]] := by
    norm_num [SingleThreshold, Dimensions, mkImage, px, range_one_eq, range_two_eq]
  have hZ : MeanStdOfReads Rat.sqrt [[0, 0]] [[0, 0]] = (0, 0) := by
    have h : MeanStdOfReads Rat.sqrt [[0, 0]] [[0, 0]] = (0, Rat.sqrt 0) := by
      norm_num [MeanStdOfReads, Dimensions, scanPixels, px, range_one_eq, range_two_eq]
    rw [h, ratSqrt_zero]
  refine ⟨hD, hMS, hT, ?_, ?_, hF, hZ, ?_⟩
  · rw [hMS]; norm_num
  · simp only [detectActivity, classifyFrame, hD, hMS, hT, meanStdOfReads_self]
    norm_num
  · simp only [detectActivity, classifyFrame, hD, hMS, hF, hZ]
    norm_num

/-- C5, at an image with negative pixels: `MinMax` of `[[-1, -1/2]]` is
`(-1, 0)`, so `Normalise` maps the largest pixel `-1/2` to `1/2`, not to `1`.
`Subtract` reaches this image as the difference of `[[0, 0]]` and
`[[1, 1/2]]`. -/
theorem normalise_negative_image :
    MinMax [[-1, -1 / 2]] = (-1, 0) ∧ Normalise [[-1, -1 / 2]] = [[0, 1 / 2]] ∧
    (Subtract [[0, 0]] [[1, 1 / 2]]).1 = [[0, 1 / 2]] := by
  refine ⟨?_, ?_, ?_⟩
  · norm_num [MinMax, Dimensions, scanPixels, px, minMaxStep, range_one_eq, range_two_eq]
  · norm_num [Normalise, MinMax, Dimensions, mkImage, scanPixels, px, minMaxStep, range_one_eq,
      range_two_eq]
  · norm_num [Subtract, dimensionError, Normalise, MinMax, Dimensions, mkImage, scanPixels, px,
      minMaxStep, range_one_eq, range_two_eq]

/-- C6, at a constant image above `65535`: `Normalise` of the `2 x 2` image
whose pixels all equal `65536` is the image whose pixels are all `1`, not `0`.
`Divide` reaches such an image from `[[1]]` and `[[1/65536]]`. -/
theorem normalise_constant_image_above_65535 :
    Normalise [[65536, 65536], [65536, 65536]] = [[1, 1], [1, 1]] ∧
    (Divide [[1]] [[1 / 65536]]).1 = [[1]] := by
  refine ⟨?_, ?_⟩
  · norm_num [Normalise, MinMax, Dimensions, mkImage, scanPixels, px, minMaxStep, range_one_eq,
      range_two_eq]
  · norm_num [Divide, dimensionError, divideRow, Normalise, MinMax, Dimensions, mkImage,
      scanPixels, px, minMaxStep, range_one_eq]

/-- C9, at the image `[[1, 0], [0, 0]]`: `Convolution` with the kernel `[[1]]`
returns `[[0, 0], [0, 1]]`, the image moved one place along both axes, while
`Normalise` of the image is `[[1, 0], [0, 0]]`. -/
theorem convolution_unit_kernel_shifts :
    Convolution [[1, 0], [0, 0]] [[1]] = [[0, 0], [0, 1]] ∧
    Normalise [[1, 0], [0, 0]] = [[1, 0], [0, 0]] := by
  refine ⟨?_, ?_⟩
  · norm_num [Convolution, paddedImage, halfKernel, convolutionAccumulator, windowIndex,
      Normalise, MinMax, Dimensions, mkImage, scanPixels, px, minMaxStep, range_one_eq,
      range_two_eq, range_three_eq, range_four_eq]
  · norm_num [Normalise, MinMax, Dimensions, mkImage, scanPixels, px, minMaxStep, range_one_eq,
      range_two_eq]

/-! ## Scanning loops as sums -/

theorem foldl_range_add {K : Type} [AddCommMonoid K] (g : ℕ → K) (n : ℕ) (init : K) :
    (List.range n).foldl (fun acc k => acc + g k) init = init + ∑ k in Finset.range n, g k := by
  induction n with
  | zero => simp
  | succ n ih =>
    rw [List.range_succ, List.foldl_append, ih, Finset.sum_range_succ]
    simp [add_assoc]

/-- The nested loops `for j < h { for i < w { accumulator += g i j } }`
accumulate the sum of `g` over all the pixels. -/
theorem foldl_scan_add {K : Type} [AddCommMonoid K] (g : ℕ → ℕ → K) (w h : ℕ) (init : K) :
    (List.range h).foldl
        (fun acc j => (List.range w).foldl (fun acc i => acc + g i j) acc) init =
      init + ∑ x in Finset.range w, ∑ y in Finset.range h, g x y := by
  have hinner : (fun (acc : K) (j : ℕ) => (List.range w).foldl (fun acc i => acc + g i j) acc) =
      (fun acc j => acc + ∑ i in Finset.range w, g i j) := by
    funext acc j
    exact foldl_range_add (fun i => g i j) w acc
  rw [hinner, foldl_range_add, Finset.sum_comm]

theorem foldl_add_flatMap {K : Type} [AddCommMonoid K] (f : ℕ → List ℚ) (g : ℚ → K) (n : ℕ)
    (init : K) :
    ((List.range n).flatMap f).foldl (fun acc p => acc + g p) init =
      (List.range n).foldl (fun acc j => (f j).foldl (fun acc p => acc + g p) acc) init := by
  induction n with
  | zero => simp
  | succ n ih =>
    rw [List.range_succ, List.flatMap_append, List.foldl_append, ih, List.foldl_append]
    simp

/-- A fold over `scanPixels` accumulates the sum over all the pixels. -/
theorem foldl_scanPixels_add {K : Type} [AddCommMonoid K] (image : Image) (g : ℚ → K)
    (init : K) :
    (scanPixels image).foldl (fun acc p => acc + g p) init =
      init + ∑ x in Finset.range (Dimensions image).1, ∑ y in Finset.range (Dimensions image).2,
        g (px image x y) := by
  unfold scanPixels
  rw [foldl_add_flatMap]
  have hinner : (fun (acc : K) (j : ℕ) =>
      ((List.range (Dimensions image).1).map (fun i => px image i j)).foldl
        (fun acc p => acc + g p) acc) =
      (fun acc j => (List.range (Dimensions image).1).foldl
        (fun acc i => acc + g (px image i j)) acc) := by
    funext acc j
    rw [List.foldl_map]
  rw [hinner]
  exact foldl_scan_add (fun i j => g (px image i j)) _ _ init

/-- The model of `meanStd` computes the population mean and the square root of
the population variance, in the field in which it computes. -/
theorem meanStd_eq {K : Type} [Field K] (mathSqrt : K → K) (image : Image) :
    meanStd mathSqrt image =
      (populationMeanIn K image, mathSqrt (populationVarianceIn K image)) := by
  have h1 := foldl_scanPixels_add image (fun p => ((p : ℚ) : K)) 0
  have h2 := foldl_scanPixels_add image
    (fun p => (((p : ℚ) : K) - populationMeanIn K image) *
      (((p : ℚ) : K) - populationMeanIn K image)) 0
  simp only [zero_add] at h1 h2
  have hmean : (scanPixels image).foldl (fun acc currentPixel => acc + ((currentPixel : ℚ) : K))
      0 / (((Dimensions image).1 : K) * ((Dimensions image).2 : K)) =
      populationMeanIn K image := by
    rw [h1]; rfl
  simp only [meanStd, hmean, h2, populationVarianceIn, pow_two]

/-- The model of `MeanStd` computes the population mean and the square root of
the population variance. -/
theorem MeanStd_eq (mathSqrt : ℚ → ℚ) (image : Image) :
    MeanStd mathSqrt image = (populationMean image, mathSqrt (populationVariance image)) := by
  have h1 := foldl_scanPixels_add image (fun p => p) 0
  have h2 := foldl_scanPixels_add image
    (fun p => (p - populationMean image) * (p - populationMean image)) 0
  simp only [zero_add] at h1 h2
  have hmean : (scanPixels image).foldl (fun acc currentPixel => acc + currentPixel) 0 /
      (((Dimensions image).1 : ℚ) * ((Dimensions image).2 : ℚ)) = populationMean image := by
    rw [h1]; rfl
  simp only [MeanStd, hmean, h2, populationVariance, pow_two]

/-! ## `Invert` -/

/-- C11: for a non-empty rectangular `w x h` image, `Invert` returns a `w x h`
image whose pixel `(x, y)` is `1` if the input pixel `v` is `0`, `0` if `v` is
`1`, and `1 / v` otherwise; and whenever the pixel update computes a
reciprocal, its operand is not `0`. -/
theorem invert_pixelwise (image : Image) (w h : ℕ) (hw : 0 < w) (hh : 0 < h)
    (hr : Rect image w h) :
    Rect (Invert image) w h ∧
    (∀ x y, x < w → y < h →
      px (Invert image) x y =
        if px image x y = 0 then 1 else if px image x y = 1 then 0 else 1 / px image x y) ∧
    (∀ v d : ℚ, (invertPixel v).2 = some d → d ≠ 0) := by
  have hd := dimensions_of_rect hr hw
  have _ := hh
  refine ⟨?_, ?_, ?_⟩
  · simp only [Invert, hd]
    exact rect_mkImage w h _
  · intro x y hx hy
    simp only [Invert, hd]
    rw [px_mkImage _ _ _ hx hy]
    unfold invertPixel
    split_ifs <;> rfl
  · intro v d hvd
    unfold invertPixel at hvd
    split_ifs at hvd with h0 h1
    have hvd2 : v = d := by simpa using hvd
    exact hvd2 ▸ h0

theorem invert_pixelwise_witness :
    Rect (Invert [[1 / 2, 0], [1, 1 / 4]]) 2 2 ∧
    (∀ x y, x < 2 → y < 2 →
      px (Invert [[1 / 2, 0], [1, 1 / 4]]) x y =
        if px [[1 / 2, 0], [1, 1 / 4]] x y = 0 then 1
        else if px [[1 / 2, 0], [1, 1 / 4]] x y = 1 then 0
        else 1 / px [[1 / 2, 0], [1, 1 / 4]] x y) ∧
    (∀ v d : ℚ, (invertPixel v).2 = some d → d ≠ 0) :=
  invert_pixelwise [[1 / 2, 0], [1, 1 / 4]] 2 2 (by decide) (by decide) (by decide)

/-- C12, at the image `[[1/2, 0], [1, 1/4]]`, whose pixels lie in `[0, 1]`:
`Invert` returns `[[2, 1], [0, 4]]`, with the pixels `2` and `4` outside
`[0, 1]`; the result is not the normalised image `[[1/2, 1/4], [0, 1]]`. -/
theorem invert_not_normalised :
    PixelsIn [[1 / 2, 0], [1, 1 / 4]] 0 1 ∧
    Invert [[1 / 2, 0], [1, 1 / 4]] = [[2, 1], [0, 4]] ∧
    ¬ PixelsIn (Invert [[1 / 2, 0], [1, 1 / 4]]) 0 1 ∧
    Normalise [[2, 1], [0, 4]] = [[1 / 2, 1 / 4], [0, 1]] := by
  have hinv : Invert [[1 / 2, 0], [1, 1 / 4]] = [[2, 1], [0, 4]] := by
    norm_num [Invert, invertPixel, Dimensions, mkImage, px, range_two_eq]
  refine ⟨?_, hinv, ?_, ?_⟩
  · norm_num [PixelsIn]
  · rw [hinv]
    norm_num [PixelsIn]
  · norm_num [Normalise, MinMax, Dimensions, mkImage, scanPixels, px, minMaxStep, range_two_eq]

/-! ## The frame buffer capacity and the recording trigger -/

/-- C13: for every buffer of `N >= 1` frames and every new frame,
`addFrameToBuffer` returns a buffer holding exactly `N` frames. -/
theorem addFrameToBuffer_keeps_capacity (frame : Image) (frameBuffer : FrameBuffer) (N : ℕ)
    (hN : 1 ≤ N) (hlen : frameBuffer.frame.length = N) :
    (addFrameToBuffer frame frameBuffer).frame.length = N := by
  have _ := hN
  rw [length_addFrameToBuffer, hlen]

theorem addFrameToBuffer_keeps_capacity_witness :
    (addFrameToBuffer [[1, 1]] ⟨[[[0, 0]], [[0, 1]], [[1, 0]]]⟩).frame.length = 3 :=
  addFrameToBuffer_keeps_capacity [[1, 1]] ⟨[[[0, 0]], [[0, 1]], [[1, 0]]]⟩ 3
    (by decide) (by decide)

/-- C14: at the end of a buffer cycle (`counter = FrameBufferSize - 1`)
`encodeVideo` is called exactly when the value the scan computed is greater
than or equal to the configured `ConsecutiveActiveFrames`, and in no other
iteration; for the array `[1, 1, 1, 0, 1, 1]` it is called with threshold `3`
and not with threshold `4`. -/
theorem encodeVideoCalled_iff :
    (∀ (mainConfig : Config) (activeFrames : List ℤ),
      encodeVideoCalled mainConfig (mainConfig.FrameBufferSize - 1) activeFrames = true ↔
        maxConsecutiveFrames mainConfig.FrameBufferSize activeFrames ≥
          mainConfig.ConsecutiveActiveFrames) ∧
    (∀ (mainConfig : Config) (counter : ℤ) (activeFrames : List ℤ),
      counter ≠ mainConfig.FrameBufferSize - 1 →
        encodeVideoCalled mainConfig counter activeFrames = false) ∧
    encodeVideoCalled ⟨"", 6, 0, 3, ""⟩ 5 [1, 1, 1, 0, 1, 1] = true ∧
    encodeVideoCalled ⟨"", 6, 0, 4, ""⟩ 5 [1, 1, 1, 0, 1, 1] = false := by
  refine ⟨?_, ?_, by decide, by decide⟩
  · intro mainConfig activeFrames
    simp [encodeVideoCalled]
  · intro mainConfig counter activeFrames hc
    simp [encodeVideoCalled, hc]

/-! ## `MinMax` on images inside and outside `[0, 65535]` -/

theorem foldl_minMaxStep_attained (l : List ℚ) (acc : ℚ × ℚ) :
    ((l.foldl minMaxStep acc).1 = acc.1 ∨ (l.foldl minMaxStep acc).1 ∈ l) ∧
    ((l.foldl minMaxStep acc).2 = acc.2 ∨ (l.foldl minMaxStep acc).2 ∈ l) := by
  induction l generalizing acc with
  | nil => simp
  | cons x xs ih =>
    obtain ⟨h1, h2⟩ := ih (minMaxStep acc x)
    simp only [List.foldl_cons]
    constructor
    · rcases h1 with h1 | h1
      · rw [h1]
        simp only [minMaxStep]
        split_ifs
        · right; exact List.mem_cons_self _ _
        · left; rfl
      · right; exact List.mem_cons_of_mem _ h1
    · rcases h2 with h2 | h2
      · rw [h2]
        simp only [minMaxStep]
        split_ifs
        · right; exact List.mem_cons_self _ _
        · left; rfl
      · right; exact List.mem_cons_of_mem _ h2

/-- On a non-empty rectangular image whose pixels all lie in `[0, 65535]`,
`MinMax` does return the smallest and the largest pixel: both values occur in
the image and every pixel lies between them. -/
theorem minMax_correct_of_range (image : Image) (w h : ℕ) (hw : 0 < w) (hh : 0 < h)
    (hr : Rect image w h) (hp : PixelsIn image 0 65535) :
    (∃ x y, x < w ∧ y < h ∧ px image x y = (MinMax image).1) ∧
    (∃ x y, x < w ∧ y < h ∧ px image x y = (MinMax image).2) ∧
    (∀ x y, x < w → y < h → (MinMax image).1 ≤ px image x y ∧ px image x y ≤ (MinMax image).2) := by
  have hd := dimensions_of_rect hr hw
  have hd1 : (Dimensions image).1 = w := by rw [hd]
  have hd2 : (Dimensions image).2 = h := by rw [hd]
  have hb : ∀ x y, x < w → y < h →
      (MinMax image).1 ≤ px image x y ∧ px image x y ≤ (MinMax image).2 := by
    intro x y hx hy
    exact minMax_bounds image (by rw [hd1]; exact hx) (by rw [hd2]; exact hy)
  have hp0 := px_bounds_of_pixelsIn hp le_rfl (by norm_num) 0 0
  have hatt := foldl_minMaxStep_attained (scanPixels image) (0, 65535)
  refine ⟨?_, ?_, hb⟩
  · rcases hatt.2 with h2 | h2
    · refine ⟨0, 0, hw, hh, ?_⟩
      have hmin : (MinMax image).1 = 65535 := by simpa [MinMax] using h2
      have := (hb 0 0 hw hh).1
      rw [hmin] at this ⊢
      exact le_antisymm hp0.2 this
    · obtain ⟨i, j, hi, hj, hv⟩ := mem_scanPixels.mp h2
      rw [hd1] at hi
      rw [hd2] at hj
      exact ⟨i, j, hi, hj, by rw [← hv]; rfl⟩
  · rcases hatt.1 with h1 | h1
    · refine ⟨0, 0, hw, hh, ?_⟩
      have hmax : (MinMax image).2 = 0 := by simpa [MinMax] using h1
      have := (hb 0 0 hw hh).2
      rw [hmax] at this ⊢
      exact le_antisymm this hp0.1
    · obtain ⟨i, j, hi, hj, hv⟩ := mem_scanPixels.mp h1
      rw [hd1] at hi
      rw [hd2] at hj
      exact ⟨i, j, hi, hj, by rw [← hv]; rfl⟩

/-- C15, at two images outside `[0, 65535]`: for `[[-2, -1], [-3, -1]]`
`MinMax` returns `(-3, 0)`, and the returned maximum `0` is not a pixel of the
image (the brightest pixel is `-1`); for `[[65536, 70000]]` it returns
`(65535, 70000)`, and the returned minimum `65535` is not a pixel of the image
(the dimmest pixel is `65536`). -/
theorem minMax_returns_initial_values :
    MinMax [[-2, -1], [-3, -1]] = (-3, 0) ∧
    (∀ col ∈ ([[-2, -1], [-3, -1]] : Image), (MinMax [[-2, -1], [-3, -1]]).2 ∉ col) ∧
    MinMax [[65536, 70000]] = (65535, 70000) ∧
    (∀ col ∈ ([[65536, 70000]] : Image), (MinMax [[65536, 70000]]).1 ∉ col) := by
  have h1 : MinMax [[-2, -1], [-3, -1]] = (-3, 0) := by
    norm_num [MinMax, Dimensions, scanPixels, px, minMaxStep, range_two_eq]
  have h2 : MinMax [[65536, 70000]] = (65535, 70000) := by
    norm_num [MinMax, Dimensions, scanPixels, px, minMaxStep, range_one_eq, range_two_eq]
  refine ⟨h1, ?_, h2, ?_⟩
  · rw [h1]; norm_num
  · rw [h2]; norm_num

/-! ## `MeanStd` and the distance metrics -/

theorem natCast_mul_ne_zero {w h : ℕ} (hw : 0 < w) (hh : 0 < h) : ((w : ℚ) * (h : ℚ)) ≠ 0 := by
  have h1 : (w : ℚ) ≠ 0 := by exact_mod_cast (Nat.pos_iff_ne_zero.mp hw)
  have h2 : (h : ℚ) ≠ 0 := by exact_mod_cast (Nat.pos_iff_ne_zero.mp hh)
  exact mul_ne_zero h1 h2

theorem populationMean_constant (image : Image) (w h : ℕ) (hw : 0 < w) (hh : 0 < h)
    (hr : Rect image w h) (c : ℚ) (hc : ∀ x y, x < w → y < h → px image x y = c) :
    populationMean image = c := by
  have hd := dimensions_of_rect hr hw
  have hsum : ∑ x in Finset.range w, ∑ y in Finset.range h, px image x y =
      ∑ x in Finset.range w, ∑ y in Finset.range h, c := by
    apply Finset.sum_congr rfl
    intro x hx
    apply Finset.sum_congr rfl
    intro y hy
    exact hc x y (Finset.mem_range.mp hx) (Finset.mem_range.mp hy)
  simp only [populationMean, hd, hsum, Finset.sum_const, Finset.card_range, nsmul_eq_mul]
  field_simp [natCast_mul_ne_zero hw hh]
  ring

theorem populationVariance_constant (image : Image) (w h : ℕ) (hw : 0 < w) (hh : 0 < h)
    (hr : Rect image w h) (c : ℚ) (hc : ∀ x y, x < w → y < h → px image x y = c) :
    populationVariance image = 0 := by
  have hd := dimensions_of_rect hr hw
  have hm := populationMean_constant image w h hw hh hr c hc
  have hsum : ∑ x in Finset.range w, ∑ y in Finset.range h, (px image x y - c) ^ 2 = 0 := by
    apply Finset.sum_eq_zero
    intro x hx
    apply Finset.sum_eq_zero
    intro y hy
    rw [hc x y (Finset.mem_range.mp hx) (Finset.mem_range.mp hy)]
    simp
  simp only [populationVariance, hd, hm, hsum, zero_div]

/-- C16: for a `w x h` image (`w, h > 0`) whose pixels all equal `c`, `MeanStd`
returns mean `c` and standard deviation `0`, given that `math.Sqrt` maps `0` to
`0`. -/
theorem meanStd_constant_image (mathSqrt : ℚ → ℚ) (hsqrt : mathSqrt 0 = 0) (image : Image)
    (w h : ℕ) (hw : 0 < w) (hh : 0 < h) (hr : Rect image w h) (c : ℚ)
    (hc : ∀ x y, x < w → y < h → px image x y = c) :
    MeanStd mathSqrt image = (c, 0) := by
  rw [MeanStd_eq, populationMean_constant image w h hw hh hr c hc,
    populationVariance_constant image w h hw hh hr c hc, hsqrt]

theorem meanStd_constant_image_witness :
    MeanStd (fun x => 2 * x) [[1 / 3, 1 / 3], [1 / 3, 1 / 3], [1 / 3, 1 / 3]] = (1 / 3, 0) :=
  meanStd_constant_image (fun x => 2 * x) (by norm_num)
    [[1 / 3, 1 / 3], [1 / 3, 1 / 3], [1 / 3, 1 / 3]] 3 2 (by decide) (by decide) (by decide)
    (1 / 3)
    (by
      intro x y hx hy
      interval_cases x <;> interval_cases y <;> simp [px])

/-! ## `CrossCorrelation` on images of equal dimensions -/

theorem fieldCast_mul_ne_zero {K : Type} [Field K] [CharZero K] {w h : ℕ} (hw : 0 < w)
    (hh : 0 < h) : ((w : K) * (h : K)) ≠ 0 := by
  have h1 : (w : K) ≠ 0 := by exact_mod_cast (Nat.pos_iff_ne_zero.mp hw)
  have h2 : (h : K) ≠ 0 := by exact_mod_cast (Nat.pos_iff_ne_zero.mp hh)
  exact mul_ne_zero h1 h2

/-- The value of `CrossCorrelation` on two images of equal dimensions, with the
loops written as sums. -/
theorem crossCorrelation_eq {K : Type} [Field K] (mathSqrt : K → K) (a b : Image) (w h : ℕ)
    (hw : 0 < w) (hra : Rect a w h) (hrb : Rect b w h) :
    CrossCorrelation mathSqrt a b =
      (∑ x in Finset.range w, ∑ y in Finset.range h,
          (((px a x y : ℚ) : K) - populationMeanIn K a) *
            (((px b x y : ℚ) : K) - populationMeanIn K b)) /
        ((meanStd mathSqrt a).2 * (meanStd mathSqrt b).2) / ((w : K) * (h : K)) := by
  have hda := dimensions_of_rect hra hw
  have hdb := dimensions_of_rect hrb hw
  have hma : (meanStd mathSqrt a).1 = populationMeanIn K a := by rw [meanStd_eq]
  have hmb : (meanStd mathSqrt b).1 = populationMeanIn K b := by rw [meanStd_eq]
  simp only [CrossCorrelation, hda, hdb, ne_eq, not_true_eq_false, or_self, if_false, hma, hmb]
  rw [foldl_scan_add, zero_add]

/-- The sum of the squared deviations from the mean is the population variance
times the number of pixels. -/
theorem sum_sq_deviation_eq {K : Type} [Field K] [CharZero K] (a : Image) (w h : ℕ)
    (hw : 0 < w) (hh : 0 < h) (hra : Rect a w h) :
    ∑ x in Finset.range w, ∑ y in Finset.range h,
        (((px a x y : ℚ) : K) - populationMeanIn K a) ^ 2 =
      populationVarianceIn K a * ((w : K) * (h : K)) := by
  have hda := dimensions_of_rect hra hw
  have hn : ((w : K) * (h : K)) ≠ 0 := fieldCast_mul_ne_zero hw hh
  simp only [populationVarianceIn, hda]
  field_simp

theorem populationVarianceIn_nonneg {K : Type} [LinearOrderedField K] (a : Image) :
    0 ≤ populationVarianceIn K a := by
  unfold populationVarianceIn
  apply div_nonneg
  · apply Finset.sum_nonneg
    intro x _
    apply Finset.sum_nonneg
    intro y _
    exact sq_nonneg _
  · positivity

/-- With an exact square root, the square of the standard deviation that
`meanStd` returns is the population variance. -/
theorem meanStd_std_mul_self {K : Type} [LinearOrderedField K] (mathSqrt : K → K)
    (hsqrt : ∀ v : K, 0 ≤ v → mathSqrt v * mathSqrt v = v) (a : Image) :
    (meanStd mathSqrt a).2 * (meanStd mathSqrt a).2 = populationVarianceIn K a := by
  rw [meanStd_eq]
  exact hsqrt _ (populationVarianceIn_nonneg a)

/-- C17: for a non-empty rectangular image `a` whose standard deviation, as
`meanStd` returns it, is nonzero, `CrossCorrelation(a, a)` is `1`.  The
arithmetic is that of any ordered field `K` in which `math.Sqrt` is an exact
square root of every nonnegative number, as in the real numbers. -/
theorem crossCorrelation_self {K : Type} [LinearOrderedField K] (mathSqrt : K → K)
    (hsqrt : ∀ v : K, 0 ≤ v → mathSqrt v * mathSqrt v = v) (a : Image) (w h : ℕ)
    (hw : 0 < w) (hh : 0 < h) (hr : Rect a w h) (hstd : (meanStd mathSqrt a).2 ≠ 0) :
    CrossCorrelation mathSqrt a a = 1 := by
  have hn : ((w : K) * (h : K)) ≠ 0 := fieldCast_mul_ne_zero hw hh
  have hss := meanStd_std_mul_self mathSqrt hsqrt a
  have hV : populationVarianceIn K a ≠ 0 := by
    rw [← hss]
    exact mul_ne_zero hstd hstd
  have hsum : ∑ x in Finset.range w, ∑ y in Finset.range h,
      (((px a x y : ℚ) : K) - populationMeanIn K a) *
        (((px a x y : ℚ) : K) - populationMeanIn K a) =
      populationVarianceIn K a * ((w : K) * (h : K)) := by
    rw [← sum_sq_deviation_eq a w h hw hh hr]
    simp only [pow_two]
  rw [crossCorrelation_eq mathSqrt a a w h hw hr hr, hss, hsum]
  field_simp

theorem populationVarianceIn_real_example :
    populationVarianceIn ℝ [[0, 1, 1]] = 2 / 9 := by
  norm_num [populationVarianceIn, populationMeanIn, Dimensions, px, Finset.sum_range_succ]

theorem crossCorrelation_self_witness :
    CrossCorrelation Real.sqrt [[0, 1, 1]] [[0, 1, 1]] = 1 :=
  crossCorrelation_self Real.sqrt (fun _ hv => Real.mul_self_sqrt hv) [[0, 1, 1]] 1 3
    (by decide) (by decide) (by decide)
    (by
      rw [meanStd_eq, populationVarianceIn_real_example]
      exact Real.sqrt_ne_zero'.mpr (by norm_num))

theorem dimensions_ne_of_rect {a b : Image} {wa ha wb hb : ℕ} (hra : Rect a wa ha)
    (hrb : Rect b wb hb) (hwa : 0 < wa) (hwb : 0 < wb) (hne : wa ≠ wb ∨ ha ≠ hb) :
    (Dimensions a).1 ≠ (Dimensions b).1 ∨ (Dimensions a).2 ≠ (Dimensions b).2 := by
  rw [dimensions_of_rect hra hwa, dimensions_of_rect hrb hwb]
  exact hne

/-- C18: for non-empty rectangular images `a` (`wa x ha`) and `b` (`wb x hb`)
whose widths or heights differ, `SquareError` and `AbsoluteError` return
`math.MaxFloat32` in all three components and `CrossCorrelation` returns
`math.MaxFloat32`; the results are the same for every other pair of images of
these dimensions, so they depend on no pixel. -/
theorem distance_metrics_sentinel_on_mismatch (mathSqrt : ℚ → ℚ) (a b : Image)
    (wa ha wb hb : ℕ) (hwa : 0 < wa) (hha : 0 < ha) (hwb : 0 < wb) (hhb : 0 < hb)
    (hra : Rect a wa ha) (hrb : Rect b wb hb) (hne : wa ≠ wb ∨ ha ≠ hb) :
    SquareError mathSqrt a b = (MaxFloat32, MaxFloat32, MaxFloat32) ∧
    AbsoluteError mathSqrt a b = (MaxFloat32, MaxFloat32, MaxFloat32) ∧
    CrossCorrelation mathSqrt a b = MaxFloat32 ∧
    (∀ a2 b2 : Image, Rect a2 wa ha → Rect b2 wb hb →
      SquareError mathSqrt a2 b2 = SquareError mathSqrt a b ∧
      AbsoluteError mathSqrt a2 b2 = AbsoluteError mathSqrt a b ∧
      CrossCorrelation mathSqrt a2 b2 = CrossCorrelation mathSqrt a b) := by
  have _ := hha
  have _ := hhb
  have key : ∀ a2 b2 : Image, Rect a2 wa ha → Rect b2 wb hb →
      SquareError mathSqrt a2 b2 = (MaxFloat32, MaxFloat32, MaxFloat32) ∧
      AbsoluteError mathSqrt a2 b2 = (MaxFloat32, MaxFloat32, MaxFloat32) ∧
      CrossCorrelation mathSqrt a2 b2 = MaxFloat32 := by
    intro a2 b2 h2a h2b
    have hdim := dimensions_ne_of_rect h2a h2b hwa hwb hne
    refine ⟨?_, ?_, ?_⟩
    · simp only [SquareError, if_pos hdim]
    · simp only [AbsoluteError, if_pos hdim]
    · simp only [CrossCorrelation, if_pos hdim, Rat.cast_id]
  obtain ⟨h1, h2, h3⟩ := key a b hra hrb
  refine ⟨h1, h2, h3, ?_⟩
  intro a2 b2 h2a h2b
  obtain ⟨k1, k2, k3⟩ := key a2 b2 h2a h2b
  exact ⟨by rw [k1, h1], by rw [k2, h2], by rw [k3, h3]⟩

theorem distance_metrics_sentinel_on_mismatch_witness :
    SquareError (fun x => x) [[0, 1]] [[0], [1]] = (MaxFloat32, MaxFloat32, MaxFloat32) ∧
    AbsoluteError (fun x => x) [[0, 1]] [[0], [1]] = (MaxFloat32, MaxFloat32, MaxFloat32) ∧
    CrossCorrelation (fun x => x) [[0, 1]] [[0], [1]] = MaxFloat32 ∧
    (∀ a2 b2 : Image, Rect a2 1 2 → Rect b2 2 1 →
      SquareError (fun x => x) a2 b2 = SquareError (fun x => x) [[0, 1]] [[0], [1]] ∧
      AbsoluteError (fun x => x) a2 b2 = AbsoluteError (fun x => x) [[0, 1]] [[0], [1]] ∧
      CrossCorrelation (fun x : ℚ => x) a2 b2 =
        CrossCorrelation (fun x : ℚ => x) [[0, 1]] [[0], [1]]) :=
  distance_metrics_sentinel_on_mismatch (fun x => x) [[0, 1]] [[0], [1]] 1 2 2 1
    (by decide) (by decide) (by decide) (by decide) (by decide) (by decide) (by decide)

/-- C19: for images `a`, `b` of equal dimensions `w x h` and `n = w * h`,
`SquareError` returns `(sqrt(SSE / n), SSE / n, SSE)` with `SSE` the sum over
the pixels of `(a - b)^2`, and `AbsoluteError` returns
`(sqrt(SAE / n), SAE / n, SAE)` with `SAE` the sum over the pixels of
`|a - b|`. -/
theorem square_and_absolute_error_values (mathSqrt : ℚ → ℚ) (a b : Image) (w h : ℕ)
    (hw : 0 < w) (hh : 0 < h) (hra : Rect a w h) (hrb : Rect b w h) :
    SquareError mathSqrt a b =
      (mathSqrt (sumSquaredDifferences a b w h / ((w : ℚ) * (h : ℚ))),
        sumSquaredDifferences a b w h / ((w : ℚ) * (h : ℚ)),
        sumSquaredDifferences a b w h) ∧
    AbsoluteError mathSqrt a b =
      (mathSqrt (sumAbsoluteDifferences a b w h / ((w : ℚ) * (h : ℚ))),
        sumAbsoluteDifferences a b w h / ((w : ℚ) * (h : ℚ)),
        sumAbsoluteDifferences a b w h) := by
  have hda := dimensions_of_rect hra hw
  have hdb := dimensions_of_rect hrb hw
  have _ := hh
  constructor
  · simp only [SquareError, hda, hdb, ne_eq, not_true_eq_false, or_self, if_false]
    rw [foldl_scan_add]
    simp only [zero_add, sumSquaredDifferences, pow_two]
  · simp only [AbsoluteError, hda, hdb, ne_eq, not_true_eq_false, or_self, if_false]
    rw [foldl_scan_add]
    simp only [zero_add, sumAbsoluteDifferences]

theorem square_and_absolute_error_values_witness :
    SquareError (fun x => 2 * x) [[0, 1], [1, 0]] [[1, 1], [1, 1]] =
      (2 * (sumSquaredDifferences [[0, 1], [1, 0]] [[1, 1], [1, 1]] 2 2 /
          (((2 : ℕ) : ℚ) * ((2 : ℕ) : ℚ))),
        sumSquaredDifferences [[0, 1], [1, 0]] [[1, 1], [1, 1]] 2 2 /
          (((2 : ℕ) : ℚ) * ((2 : ℕ) : ℚ)),
        sumSquaredDifferences [[0, 1], [1, 0]] [[1, 1], [1, 1]] 2 2) ∧
    AbsoluteError (fun x => 2 * x) [[0, 1], [1, 0]] [[1, 1], [1, 1]] =
      (2 * (sumAbsoluteDifferences [[0, 1], [1, 0]] [[1, 1], [1, 1]] 2 2 /
          (((2 : ℕ) : ℚ) * ((2 : ℕ) : ℚ))),
        sumAbsoluteDifferences [[0, 1], [1, 0]] [[1, 1], [1, 1]] 2 2 /
          (((2 : ℕ) : ℚ) * ((2 : ℕ) : ℚ)),
        sumAbsoluteDifferences [[0, 1], [1, 0]] [[1, 1], [1, 1]] 2 2) :=
  square_and_absolute_error_values (fun x => 2 * x) [[0, 1], [1, 0]] [[1, 1], [1, 1]] 2 2
    (by decide) (by decide) (by decide) (by decide)

/-! ## `SingleThreshold` -/

/-- The image of `SingleThreshold` under a schedule `written`: it has the
dimensions of the input, and the cell `(x, y)` holds the thresholded pixel if
it has been written and `0` otherwise. -/
theorem singleThreshold_read (written : ℕ → ℕ → Bool) (image : Image) (t : ℚ) (w h : ℕ)
    (hw : 0 < w) (hr : Rect image w h) :
    Rect (SingleThreshold written image t) w h ∧
    ∀ x y, x < w → y < h →
      px (SingleThreshold written image t) x y =
        if written x y then (if px image x y < t then 0 else 1) else 0 := by
  have hd := dimensions_of_rect hr hw
  simp only [SingleThreshold, hd]
  refine ⟨rect_mkImage w h _, ?_⟩
  intro x y hx hy
  rw [px_mkImage _ _ _ hx hy]

/-- C20, at the `2 x 2` image `[[0, 1/2], [3/4, 1]]` and the threshold `1/2`:
`SingleThreshold` returns without waiting for its row tasks.  When the caller
runs alone it reaches its `return` with both row tasks still running, and the
image it returns is all zero: cell `(0, 1)` holds `0` although
`image[0][1] = 1/2` is not below the threshold, where the claim says `1`.  When
the task of row `0` alone runs before the `return`, the image is
`[[0, 0], [1, 0]]`.  Only once every cell is written is the image the
thresholded one, `[[0, 1], [1, 1]]`; in general a written cell `(x, y)` holds
`0` if `image[x][y] < t` and `1` otherwise, and a cell not yet written holds
`0`. -/
theorem singleThreshold_returns_unwritten_image :
    runSchedule (fun i j => if px [[0, 1 / 2], [3 / 4, 1]] i j < 1 / 2 then 0 else 1)
        [Turn.caller, Turn.caller, Turn.caller, Turn.caller]
        (syncInit 2 2 (singleThresholdSync 2 2)) =
      some { outputImage := SingleThreshold (fun _ _ => false) [[0, 1 / 2], [3 / 4, 1]] (1 / 2),
             counter := 2, running := [Task.row 0, Task.row 1], rest := [], reached := true } ∧
    SingleThreshold (fun _ _ => false) [[0, 1 / 2], [3 / 4, 1]] (1 / 2) = [[0, 0], [0, 0]] ∧
    runSchedule (fun i j => if px [[0, 1 / 2], [3 / 4, 1]] i j < 1 / 2 then 0 else 1)
        [Turn.caller, Turn.caller, Turn.task (Task.row 0), Turn.caller, Turn.caller]
        (syncInit 2 2 (singleThresholdSync 2 2)) =
      some { outputImage :=
               SingleThreshold (fun _ j => decide (j = 0)) [[0, 1 / 2], [3 / 4, 1]] (1 / 2),
             counter := 1, running := [Task.row 1], rest := [], reached := true } ∧
    SingleThreshold (fun _ j => decide (j = 0)) [[0, 1 / 2], [3 / 4, 1]] (1 / 2) =
      [[0, 0], [1, 0]] ∧
    SingleThreshold (fun _ _ => true) [[0, 1 / 2], [3 / 4, 1]] (1 / 2) = [[0, 1], [1, 1]] ∧
    (∀ (written : ℕ → ℕ → Bool) (image : Image) (t : ℚ) (w h : ℕ), 0 < w → Rect image w h →
      Rect (SingleThreshold written image t) w h ∧
      ∀ x y, x < w → y < h →
        px (SingleThreshold written image t) x y =
          if written x y then (if px image x y < t then 0 else 1) else 0) := by
  have h0 : SingleThreshold (fun _ _ => false) [[0, 1 / 2], [3 / 4, 1]] (1 / 2) =
      [[0, 0], [0, 0]] := by
    norm_num [SingleThreshold, Dimensions, mkImage, px, range_two_eq]
  have h1 : SingleThreshold (fun _ j => decide (j = 0)) [[0, 1 / 2], [3 / 4, 1]] (1 / 2) =
      [[0, 0], [1, 0]] := by
    norm_num [SingleThreshold, Dimensions, mkImage, px, range_two_eq]
  refine ⟨?_, h0, ?_, h1, ?_, ?_⟩
  · rw [h0]
    simp [runSchedule, stepCaller, syncInit, singleThresholdSync, mkImage, range_two_eq]
  · rw [h1]
    norm_num [runSchedule, stepCaller, stepTask, writeRow, syncInit, singleThresholdSync,
      Dimensions, mkImage, px, range_two_eq]
  · norm_num [SingleThreshold, Dimensions, mkImage, px, range_two_eq]
  · intro written image t w h hw hr
    exact singleThreshold_read written image t w h hw hr

/-! ## `DualThreshold` and `Mask` -/

/-- The image of `DualThreshold` under a schedule `written`: it has the
dimensions of the input, and the cell `(x, y)` holds `1` if it has been written
and `min A B < image[x][y] < max A B`, and `0` otherwise. -/
theorem dualThreshold_read (written : ℕ → ℕ → Bool) (image : Image) (A B : ℚ) (w h : ℕ)
    (hw : 0 < w) (hr : Rect image w h) :
    Rect (DualThreshold written image A B) w h ∧
    ∀ x y, x < w → y < h →
      px (DualThreshold written image A B) x y =
        if written x y then
          (if min A B < px image x y ∧ px image x y < max A B then 1 else 0)
        else 0 := by
  have hd := dimensions_of_rect hr hw
  simp only [DualThreshold, hd]
  refine ⟨rect_mkImage w h _, ?_⟩
  intro x y hx hy
  rw [px_mkImage _ _ _ hx hy]
  by_cases hwr : written x y = true
  · simp only [hwr, if_true]
    by_cases hAB : A < B
    · simp only [if_pos hAB, min_eq_left (le_of_lt hAB), max_eq_right (le_of_lt hAB), gt_iff_lt]
      by_cases hc : px image x y < B ∧ A < px image x y
      · rw [if_pos hc, if_pos ⟨hc.2, hc.1⟩]
      · rw [if_neg hc, if_neg (fun hc2 => hc ⟨hc2.2, hc2.1⟩)]
    · simp only [if_neg hAB, min_eq_right (not_lt.mp hAB), max_eq_left (not_lt.mp hAB),
        gt_iff_lt]
      by_cases hc : px image x y < A ∧ B < px image x y
      · rw [if_pos hc, if_pos ⟨hc.2, hc.1⟩]
      · rw [if_neg hc, if_neg (fun hc2 => hc ⟨hc2.2, hc2.1⟩)]
  · simp only [hwr, Bool.false_eq_true, if_false]

/-- Under one and the same schedule, `DualThreshold` does not depend on the
order of its two thresholds. -/
theorem dualThreshold_comm (written : ℕ → ℕ → Bool) (image : Image) (A B : ℚ) :
    DualThreshold written image A B = DualThreshold written image B A := by
  simp only [DualThreshold]
  rcases lt_trichotomy A B with hlt | heq | hgt
  · simp only [if_pos hlt, if_neg (not_lt.mpr (le_of_lt hlt))]
  · subst heq; rfl
  · simp only [if_pos hgt, if_neg (not_lt.mpr (le_of_lt hgt))]

/-- C21, at the `2 x 2` image `[[0, 1/4], [1/2, 1]]` and the thresholds `3/4`
and `1/5`: `DualThreshold` returns without waiting for its row tasks.  When the
caller runs alone it reaches its `return` with both row tasks still running,
and the image it returns is all zero: cell `(0, 1)` holds `0` although
`1/5 < image[0][1] = 1/4 < 3/4`, where the claim says `1`.  Only once every
cell is written is the image `[[0, 1], [1, 0]]`; in general a written cell
holds `1` if `min A B < image[x][y] < max A B` and `0` otherwise, and a cell
not yet written holds `0`.  Under one schedule the order of the thresholds
does not matter. -/
theorem dualThreshold_returns_unwritten_image :
    runSchedule
        (fun i j =>
          if px [[0, 1 / 4], [1 / 2, 1]] i j < 3 / 4 ∧ px [[0, 1 / 4], [1 / 2, 1]] i j > 1 / 5
          then 1 else 0)
        [Turn.caller, Turn.caller, Turn.caller, Turn.caller]
        (syncInit 2 2 (dualThresholdSync 2 2)) =
      some { outputImage :=
               DualThreshold (fun _ _ => false) [[0, 1 / 4], [1 / 2, 1]] (3 / 4) (1 / 5),
             counter := 2, running := [Task.row 0, Task.row 1], rest := [], reached := true } ∧
    DualThreshold (fun _ _ => false) [[0, 1 / 4], [1 / 2, 1]] (3 / 4) (1 / 5) =
      [[0, 0], [0, 0]] ∧
    px [[0, 1 / 4], [1 / 2, 1]] 0 1 = 1 / 4 ∧
    DualThreshold (fun _ _ => true) [[0, 1 / 4], [1 / 2, 1]] (3 / 4) (1 / 5) =
      [[0, 1], [1, 0]] ∧
    (∀ (written : ℕ → ℕ → Bool) (image : Image) (A B : ℚ) (w h : ℕ), 0 < w →
      Rect image w h →
      Rect (DualThreshold written image A B) w h ∧
      (∀ x y, x < w → y < h →
        px (DualThreshold written image A B) x y =
          if written x y then
            (if min A B < px image x y ∧ px image x y < max A B then 1 else 0)
          else 0) ∧
      DualThreshold written image A B = DualThreshold written image B A) := by
  have h0 : DualThreshold (fun _ _ => false) [[0, 1 / 4], [1 / 2, 1]] (3 / 4) (1 / 5) =
      [[0, 0], [0, 0]] := by
    norm_num [DualThreshold, Dimensions, mkImage, px, range_two_eq]
  refine ⟨?_, h0, ?_, ?_, ?_⟩
  · rw [h0]
    simp [runSchedule, stepCaller, syncInit, dualThresholdSync, mkImage, range_two_eq]
  · norm_num [px]
  · norm_num [DualThreshold, Dimensions, mkImage, px, range_two_eq]
  · intro written image A B w h hw hr
    exact ⟨(dualThreshold_read written image A B w h hw hr).1,
      (dualThreshold_read written image A B w h hw hr).2, dualThreshold_comm written image A B⟩

/-- The image of `Mask` under a schedule `written`, for an image and a mask of
equal dimensions: no error, the dimensions of the input, and the cell `(x, y)`
holds `image[x][y]` if it has been written and `mask[x][y] > 0.5`, and `0`
otherwise. -/
theorem mask_read (written : ℕ → ℕ → Bool) (image mask : Image) (w h : ℕ) (hw : 0 < w)
    (hri : Rect image w h) (hrm : Rect mask w h) :
    (Mask written image mask).2 = none ∧ Rect (Mask written image mask).1 w h ∧
    ∀ x y, x < w → y < h →
      px (Mask written image mask).1 x y =
        if written x y then (if px mask x y > 1 / 2 then px image x y else 0) else 0 := by
  have he := dimensionError_eq_none hri hrm hw
  have hd := dimensions_of_rect hri hw
  refine ⟨?_, ?_, ?_⟩
  · simp [Mask, he]
  · simp only [Mask, he, hd]
    exact rect_mkImage w h _
  · intro x y hx hy
    simp only [Mask, he, hd]
    rw [px_mkImage _ _ _ hx hy]

/-- C22, at the `2 x 2` image `[[3, 1/4], [1/3, 7]]` and the mask
`[[1, 1/2], [0, 3/4]]`: `Mask` returns without waiting for its row tasks.  When
the caller runs alone it reaches its `return` with both row tasks still
running, and the image it returns is all zero: cell `(0, 0)` holds `0` although
`mask[0][0] = 1 > 0.5`, where the claim says `image[0][0] = 3`.  Only once
every cell is written is the image `[[3, 0], [0, 7]]`; in general a written
cell holds `image[x][y]` if `mask[x][y] > 0.5` and `0` otherwise, without
rescaling, and a cell not yet written holds `0`. -/
theorem mask_returns_unwritten_image :
    runSchedule
        (fun i j =>
          if px [[1, 1 / 2], [0, 3 / 4]] i j > 1 / 2 then px [[3, 1 / 4], [1 / 3, 7]] i j else 0)
        [Turn.caller, Turn.caller, Turn.caller, Turn.caller]
        (syncInit 2 2 (maskSync 2 2)) =
      some { outputImage :=
               (Mask (fun _ _ => false) [[3, 1 / 4], [1 / 3, 7]] [[1, 1 / 2], [0, 3 / 4]]).1,
             counter := 2, running := [Task.row 0, Task.row 1], rest := [], reached := true } ∧
    Mask (fun _ _ => false) [[3, 1 / 4], [1 / 3, 7]] [[1, 1 / 2], [0, 3 / 4]] =
      ([[0, 0], [0, 0]], none) ∧
    px [[1, 1 / 2], [0, 3 / 4]] 0 0 = 1 ∧ px [[3, 1 / 4], [1 / 3, 7]] 0 0 = 3 ∧
    Mask (fun _ _ => true) [[3, 1 / 4], [1 / 3, 7]] [[1, 1 / 2], [0, 3 / 4]] =
      ([[3, 0], [0, 7]], none) ∧
    (∀ (written : ℕ → ℕ → Bool) (image mask : Image) (w h : ℕ), 0 < w → Rect image w h →
      Rect mask w h →
      (Mask written image mask).2 = none ∧ Rect (Mask written image mask).1 w h ∧
      ∀ x y, x < w → y < h →
        px (Mask written image mask).1 x y =
          if written x y then (if px mask x y > 1 / 2 then px image x y else 0) else 0) := by
  have h0 : Mask (fun _ _ => false) [[3, 1 / 4], [1 / 3, 7]] [[1, 1 / 2], [0, 3 / 4]] =
      ([[0, 0], [0, 0]], none) := by
    norm_num [Mask, dimensionError, Dimensions, mkImage, px, range_two_eq]
  refine ⟨?_, h0, ?_, ?_, ?_, ?_⟩
  · rw [h0]
    simp [runSchedule, stepCaller, syncInit, maskSync, mkImage, range_two_eq]
  · norm_num [px]
  · norm_num [px]
  · norm_num [Mask, dimensionError, Dimensions, mkImage, px, range_two_eq]
  · intro written image mask w h hw hri hrm
    exact mask_read written image mask w h hw hri hrm

/-! ## The Sobel kernels -/

/-- C24: the separated Sobel kernels factor the full `3 x 3` kernels: for all
`i`, `j` in `0..2`, `SobelX[i][j] = SepSobelXPt1[i][0] * SepSobelXPt2[0][j]` and
`SobelY[i][j] = SepSobelYPt2[i][0] * SepSobelYPt1[0][j]`. -/
theorem sobel_kernels_factor (i j : Fin 3) :
    px SobelX i j = px SepSobelXPt1 i 0 * px SepSobelXPt2 0 j ∧
    px SobelY i j = px SepSobelYPt2 i 0 * px SepSobelYPt1 0 j := by
  fin_cases i <;> fin_cases j <;>
    norm_num [px, SobelX, SobelY, SepSobelXPt1, SepSobelXPt2, SepSobelYPt1, SepSobelYPt2]

/-! ## The slots of the frame buffer -/

theorem getD_zero_foldl_addFrameToBuffer (pushes : List Image) :
    ∀ frameBuffer : FrameBuffer, 2 ≤ frameBuffer.frame.length →
      (pushes.foldl (fun fb g => addFrameToBuffer g fb) frameBuffer).frame.getD 0 [] =
        frameBuffer.frame.getD 0 [] := by
  induction pushes with
  | nil => intro frameBuffer _; rfl
  | cons g gs ih =>
    intro frameBuffer hlen
    simp only [List.foldl_cons]
    rw [ih (addFrameToBuffer g frameBuffer) (by rw [length_addFrameToBuffer]; exact hlen)]
    have h0 := getD_addFrameToBuffer g frameBuffer hlen 0 (by omega)
    simpa using h0

/-- C30: for a buffer of `N >= 2` frames and a new frame `g`, `addFrameToBuffer`
leaves slot `0` unchanged, sets every slot `k` with `1 <= k <= N-2` to the frame
that was last, and sets slot `N-1` to `g`; and after any sequence of pushes slot
`0` still holds the frame it held at first. -/
theorem addFrameToBuffer_slots (frame : Image) (frameBuffer : FrameBuffer) (N : ℕ)
    (hN : 2 ≤ N) (hlen : frameBuffer.frame.length = N) :
    (addFrameToBuffer frame frameBuffer).frame.getD 0 [] = frameBuffer.frame.getD 0 [] ∧
    (∀ k, 1 ≤ k → k ≤ N - 2 →
      (addFrameToBuffer frame frameBuffer).frame.getD k [] =
        frameBuffer.frame.getD (N - 1) []) ∧
    (addFrameToBuffer frame frameBuffer).frame.getD (N - 1) [] = frame ∧
    (∀ pushes : List Image,
      (pushes.foldl (fun fb g => addFrameToBuffer g fb) frameBuffer).frame.getD 0 [] =
        frameBuffer.frame.getD 0 []) := by
  have hlen2 : 2 ≤ frameBuffer.frame.length := by omega
  refine ⟨?_, ?_, ?_, ?_⟩
  · have h0 := getD_addFrameToBuffer frame frameBuffer hlen2 0 (by omega)
    simpa using h0
  · intro k hk1 hk2
    have hk := getD_addFrameToBuffer frame frameBuffer hlen2 k (by omega)
    rw [hk, hlen, if_neg (by omega), if_neg (by omega)]
  · have hl := getD_addFrameToBuffer frame frameBuffer hlen2 (N - 1) (by omega)
    rw [hl, hlen, if_neg (by omega), if_pos rfl]
  · intro pushes
    exact getD_zero_foldl_addFrameToBuffer pushes frameBuffer hlen2

theorem addFrameToBuffer_slots_witness :
    (addFrameToBuffer [[1, 1]] ⟨[[[0, 0]], [[0, 1]], [[1, 0]], [[1, 2]]]⟩).frame.getD 0 [] =
      (⟨[[[0, 0]], [[0, 1]], [[1, 0]], [[1, 2]]]⟩ : FrameBuffer).frame.getD 0 [] ∧
    (∀ k, 1 ≤ k → k ≤ 4 - 2 →
      (addFrameToBuffer [[1, 1]] ⟨[[[0, 0]], [[0, 1]], [[1, 0]], [[1, 2]]]⟩).frame.getD k [] =
        (⟨[[[0, 0]], [[0, 1]], [[1, 0]], [[1, 2]]]⟩ : FrameBuffer).frame.getD (4 - 1) []) ∧
    (addFrameToBuffer [[1, 1]] ⟨[[[0, 0]], [[0, 1]], [[1, 0]], [[1, 2]]]⟩).frame.getD (4 - 1) [] =
      [[1, 1]] ∧
    (∀ pushes : List Image,
      (pushes.foldl (fun fb g => addFrameToBuffer g fb)
        ⟨[[[0, 0]], [[0, 1]], [[1, 0]], [[1, 2]]]⟩).frame.getD 0 [] =
        (⟨[[[0, 0]], [[0, 1]], [[1, 0]], [[1, 2]]]⟩ : FrameBuffer).frame.getD 0 []) :=
  addFrameToBuffer_slots [[1, 1]] ⟨[[[0, 0]], [[0, 1]], [[1, 0]], [[1, 2]]]⟩ 4 (by decide)
    (by decide)

/-! ## The early exit of `Divide` -/

/-- For images with pixels in `[0, 1]`: a cell that the row task of `Divide`
leaves at `0` is `0` in the normalised result. -/
theorem divide_px_zero_of_raw_zero (a b : Image) (w h : ℕ) (hw : 0 < w)
    (hra : Rect a w h) (hrb : Rect b w h) (hpa : PixelsIn a 0 1) (hpb : PixelsIn b 0 1)
    (x y : ℕ) (hx : x < w) (hy : y < h) (hraw0 : (divideRow a b y 0 w).1.getD x 0 = 0) :
    px (Divide a b).1 x y = 0 := by
  have he := dimensionError_eq_none hra hrb hw
  have hd := dimensions_of_rect hra hw
  have hna : ∀ i j, 0 ≤ px a i j := fun i j => (px_bounds_of_pixelsIn hpa le_rfl zero_le_one i j).1
  have hnb : ∀ i j, 0 ≤ px b i j := fun i j => (px_bounds_of_pixelsIn hpb le_rfl zero_le_one i j).1
  simp only [Divide, he, hd]
  have hdr := dimensions_mkImage w h (fun i j => (divideRow a b j 0 w).1.getD i 0) hw
  have hx2 : x < (Dimensions (mkImage w h (fun i j => (divideRow a b j 0 w).1.getD i 0))).1 := by
    rw [hdr]; exact hx
  have hy2 : y < (Dimensions (mkImage w h (fun i j => (divideRow a b j 0 w).1.getD i 0))).2 := by
    rw [hdr]; exact hy
  have hraw : px (mkImage w h (fun i j => (divideRow a b j 0 w).1.getD i 0)) x y = 0 := by
    rw [px_mkImage _ _ _ hx hy]
    exact hraw0
  have hmin0 : (MinMax (mkImage w h (fun i j => (divideRow a b j 0 w).1.getD i 0))).1 = 0 := by
    apply le_antisymm
    · have := (minMax_bounds _ hx2 hy2).1
      rwa [hraw] at this
    · apply minMax_min_nonneg
      intro i j hi hj
      rw [hdr] at hi hj
      rw [px_mkImage _ _ _ hi hj]
      exact divideRow_nonneg a b j hna hnb w 0 i
  rw [px_normalise _ hx2 hy2, hraw, hmin0]
  simp

/-- C27: for images `a`, `b` of equal dimensions `w x h` with all pixels in
`[0, 1]` and a row `y`: if `b[x0][y] = 0` (in particular for the smallest such
`x0`), then the image `Divide` returns holds `0` at every `(x, y)` with
`x >= x0`, whatever `a[x][y]` and `b[x][y]` are. -/
theorem divide_row_zero_after_zero_divisor (a b : Image) (w h : ℕ) (hw : 0 < w) (hh : 0 < h)
    (hra : Rect a w h) (hrb : Rect b w h) (hpa : PixelsIn a 0 1) (hpb : PixelsIn b 0 1)
    (x0 y : ℕ) (hy : y < h) (hb0 : px b x0 y = 0) :
    ∀ x, x0 ≤ x → x < w → px (Divide a b).1 x y = 0 := by
  intro x hx0 hx
  have _ := hh
  apply divide_px_zero_of_raw_zero a b w h hw hra hrb hpa hpb x y hx hy
  exact divideRow_zero_from_zero_divisor a b y w 0 x x0 hx0 (by simpa using hb0)

theorem divide_row_zero_after_zero_divisor_witness :
    px [[1, 0, 1], [0, 1, 1 / 2]] 0 1 = 0 ∧ px [[1, 0, 1], [0, 1, 1 / 2]] 1 1 ≠ 0 ∧
    px [[1, 1, 1], [1, 1, 1]] 1 1 ≠ 0 ∧
    px (Divide [[1, 1, 1], [1, 1, 1]] [[1, 0, 1], [0, 1, 1 / 2]]).1 1 1 = 0 :=
  ⟨by simp [px], by simp [px], by simp [px],
    divide_row_zero_after_zero_divisor [[1, 1, 1], [1, 1, 1]] [[1, 0, 1], [0, 1, 1 / 2]] 2 3
      (by decide) (by decide) (by decide) (by decide)
      (by simp [PixelsIn]) (by simp [PixelsIn]; norm_num) 0 1 (by decide) (by simp [px])
      1 (by decide) (by decide)⟩

/-! ## The window of `Convolution` -/

theorem mkImage_congr (w h : ℕ) (f g : ℕ → ℕ → ℚ)
    (hfg : ∀ i j, i < w → j < h → f i j = g i j) : mkImage w h f = mkImage w h g := by
  unfold mkImage
  apply List.map_congr_left
  intro i hi
  apply List.map_congr_left
  intro j hj
  exact hfg i j (List.mem_range.mp hi) (List.mem_range.mp hj)

theorem halfKernel_eq_ceil (n : ℕ) : ((halfKernel n : ℕ) : ℤ) = ⌈((n : ℚ)) / 2⌉ := by
  symm
  rw [Int.ceil_eq_iff]
  unfold halfKernel
  generalize hk : (n + 1) / 2 = k
  have h2 : 2 * k ≤ n + 1 := by omega
  have h3 : n ≤ 2 * k := by omega
  have h2q : (2 : ℚ) * (k : ℚ) ≤ (n : ℚ) + 1 := by exact_mod_cast h2
  have h3q : (n : ℚ) ≤ 2 * (k : ℚ) := by exact_mod_cast h3
  rw [Int.cast_natCast]
  constructor
  · linarith
  · linarith

theorem le_two_mul_halfKernel (n : ℕ) : n ≤ halfKernel n + halfKernel n := by
  unfold halfKernel
  omega

theorem windowIndex_eq (i kI half : ℕ) : windowIndex i kI half = i + kI := by
  unfold windowIndex
  omega

/-- A read of the padded image inside its bounds is a read of the image
extended by zero, at the coordinates moved back by the padding. -/
theorem px_paddedImage (image : Image) (halfW halfH X Y : ℕ)
    (hX : X < (Dimensions image).1 + halfW + halfW)
    (hY : Y < (Dimensions image).2 + halfH + halfH) :
    px (paddedImage image halfW halfH) X Y =
      zeroExtended image ((X : ℤ) - (halfW : ℤ)) ((Y : ℤ) - (halfH : ℤ)) := by
  unfold paddedImage
  rw [px_mkImage _ _ _ hX hY]
  unfold zeroExtended
  by_cases hc : halfW ≤ X ∧ X < (Dimensions image).1 + halfW ∧
      halfH ≤ Y ∧ Y < (Dimensions image).2 + halfH
  · have hc2 : 0 ≤ (X : ℤ) - (halfW : ℤ) ∧ (X : ℤ) - (halfW : ℤ) < ((Dimensions image).1 : ℤ) ∧
        0 ≤ (Y : ℤ) - (halfH : ℤ) ∧ (Y : ℤ) - (halfH : ℤ) < ((Dimensions image).2 : ℤ) := by
      omega
    rw [if_pos hc, if_pos hc2]
    have hx : ((X : ℤ) - (halfW : ℤ)).toNat = X - halfW := by omega
    have hy : ((Y : ℤ) - (halfH : ℤ)).toNat = Y - halfH := by omega
    rw [hx, hy]
  · have hc2 : ¬ (0 ≤ (X : ℤ) - (halfW : ℤ) ∧
        (X : ℤ) - (halfW : ℤ) < ((Dimensions image).1 : ℤ) ∧
        0 ≤ (Y : ℤ) - (halfH : ℤ) ∧ (Y : ℤ) - (halfH : ℤ) < ((Dimensions image).2 : ℤ)) := by
      omega
    rw [if_neg hc, if_neg hc2]

/-- The accumulator of `Convolution` is the window sum of the specification. -/
theorem convolutionAccumulator_eq_windowSum (image kernel : Image) (i j : ℕ)
    (hi : i < (Dimensions image).1) (hj : j < (Dimensions image).2) :
    convolutionAccumulator
        (paddedImage image (halfKernel (Dimensions kernel).1) (halfKernel (Dimensions kernel).2))
        kernel i j =
      windowSum image kernel i j := by
  unfold convolutionAccumulator windowSum
  rw [foldl_scan_add, zero_add]
  apply Finset.sum_congr rfl
  intro kx hkx
  apply Finset.sum_congr rfl
  intro ky hky
  have hkx2 := Finset.mem_range.mp hkx
  have hky2 := Finset.mem_range.mp hky
  have hwk := le_two_mul_halfKernel (Dimensions kernel).1
  have hhk := le_two_mul_halfKernel (Dimensions kernel).2
  rw [windowIndex_eq, windowIndex_eq, px_paddedImage _ _ _ _ _ (by omega) (by omega),
    ← halfKernel_eq_ceil, ← halfKernel_eq_ceil, mul_comm]
  push_cast
  rfl

/-- C28: for a `W x H` image and a `kw x kh` kernel (all at least `1`), with
`hw = ceil(kw/2)` and `hh = ceil(kh/2)`, `Convolution` returns `Normalise(R)`,
where `R` is the `W x H` image with `R[x][y]` the sum over `0 <= kx < kw`,
`0 <= ky < kh` of `kernel[kx][ky] * Z[x + kx - hw][y + ky - hh]` and `Z` is the
image extended by zero outside its bounds. -/
theorem convolution_window_sum (image kernel : Image) (W H kw kh : ℕ) (hW : 0 < W)
    (hH : 0 < H) (hkw : 0 < kw) (hkh : 0 < kh) (hri : Rect image W H)
    (hrk : Rect kernel kw kh) :
    Convolution image kernel = Normalise (mkImage W H (fun x y => windowSum image kernel x y)) ∧
    (∀ x y, windowSum image kernel x y =
      ∑ kx in Finset.range kw, ∑ ky in Finset.range kh,
        px kernel kx ky *
          zeroExtended image ((x : ℤ) + (kx : ℤ) - ⌈(kw : ℚ) / 2⌉)
            ((y : ℤ) + (ky : ℤ) - ⌈(kh : ℚ) / 2⌉)) := by
  have hdi := dimensions_of_rect hri hW
  have hdk := dimensions_of_rect hrk hkw
  have _ := hH
  have _ := hkh
  constructor
  · unfold Convolution
    simp only
    congr 1
    rw [hdi]
    apply mkImage_congr
    intro x y hx hy
    exact convolutionAccumulator_eq_windowSum image kernel x y (by rw [hdi]; exact hx)
      (by rw [hdi]; exact hy)
  · intro x y
    simp only [windowSum, hdk]

theorem convolution_window_sum_witness :
    Convolution [[1, 0], [0, 0]] [[1]] =
      Normalise (mkImage 2 2 (fun x y => windowSum [[1, 0], [0, 0]] [[1]] x y)) ∧
    (∀ x y, windowSum [[1, 0], [0, 0]] [[1]] x y =
      ∑ kx in Finset.range 1, ∑ ky in Finset.range 1,
        px [[1]] kx ky *
          zeroExtended [[1, 0], [0, 0]] ((x : ℤ) + (kx : ℤ) - ⌈((1 : ℕ) : ℚ) / 2⌉)
            ((y : ℤ) + (ky : ℤ) - ⌈((1 : ℕ) : ℚ) / 2⌉)) :=
  convolution_window_sum [[1, 0], [0, 0]] [[1]] 2 2 1 1 (by decide) (by decide) (by decide)
    (by decide) (by decide) (by decide)

/-! ## The counter of the loop of `main` -/

theorem length_applyPoll (polled : Option Sent) (s : MainState) :
    (applyPoll polled s).activeFrames.length = s.activeFrames.length := by
  unfold applyPoll
  cases polled with
  | none => rfl
  | some sent => cases sent <;> simp

theorem counter_applyPoll (polled : Option Sent) (s : MainState) :
    (applyPoll polled s).counter = s.counter := by
  unfold applyPoll
  cases polled with
  | none => rfl
  | some sent => cases sent <;> rfl

theorem mainIteration_invariant (mainConfig : Config) (N : ℕ)
    (hcfg : mainConfig.FrameBufferSize = N) (polled : Option Sent) (s : MainState) (k : ℕ)
    (hc : s.counter = ((k % N : ℕ) : ℤ)) (hl : s.activeFrames.length = N) :
    (mainIteration mainConfig polled s).counter = (((k + 1) % N : ℕ) : ℤ) ∧
    (mainIteration mainConfig polled s).activeFrames.length = N := by
  constructor
  · simp only [mainIteration, advanceCounter, counter_applyPoll, markUnchecked, hc, hcfg]
    have h1 : ((k % N : ℕ) : ℤ) + 1 = ((k % N + 1 : ℕ) : ℤ) := by push_cast; rfl
    rw [h1, ← Int.ofNat_tmod, Nat.mod_add_mod]
  · simp only [mainIteration, advanceCounter, length_applyPoll, markUnchecked, List.length_set, hl]

theorem foldl_mainIteration_invariant (mainConfig : Config) (N : ℕ)
    (hcfg : mainConfig.FrameBufferSize = N) (polls : List (Option Sent)) :
    ∀ (s : MainState) (k : ℕ), s.counter = ((k % N : ℕ) : ℤ) → s.activeFrames.length = N →
      (polls.foldl (fun s polled => mainIteration mainConfig polled s) s).counter =
          (((k + polls.length) % N : ℕ) : ℤ) ∧
        (polls.foldl (fun s polled => mainIteration mainConfig polled s) s).activeFrames.length =
          N := by
  induction polls with
  | nil => intro s k hc hl; exact ⟨by simpa using hc, hl⟩
  | cons p ps ih =>
    intro s k hc hl
    obtain ⟨hc1, hl1⟩ := mainIteration_invariant mainConfig N hcfg p s k hc hl
    have := ih (mainIteration mainConfig p s) (k + 1) hc1 hl1
    simp only [List.foldl_cons, List.length_cons]
    have hk : k + 1 + ps.length = k + (ps.length + 1) := by omega
    rw [hk] at this
    exact this

theorem mainLoop_invariant (mainConfig : Config) (N : ℕ)
    (hcfg : mainConfig.FrameBufferSize = N) (polls : List (Option Sent)) :
    (mainLoop mainConfig polls).counter = ((polls.length % N : ℕ) : ℤ) ∧
    (mainLoop mainConfig polls).activeFrames.length = N := by
  have h := foldl_mainIteration_invariant mainConfig N hcfg polls (mainInit mainConfig) 0
    (by simp [mainInit]) (by simp [mainInit, hcfg])
  simpa [mainLoop] using h

/-- C29: in the loop of `main` with buffer size `N >= 1`, at the start of the
iteration that follows any number `k` of iterations the counter is `k mod N`,
so it lies in `0..N-1` and runs through `0, 1, ..., N-1` cyclically; the
iteration sets `activeFrames[counter]` to `-1` before the poll; and whatever
the poll receives, the gate scan runs in that iteration exactly when
`k mod N = N - 1`. -/
theorem main_loop_counter_cycle (mainConfig : Config) (N : ℕ) (hN : 1 ≤ N)
    (hcfg : mainConfig.FrameBufferSize = N) (polls : List (Option Sent)) :
    (mainLoop mainConfig polls).counter = ((polls.length % N : ℕ) : ℤ) ∧
    0 ≤ (mainLoop mainConfig polls).counter ∧ (mainLoop mainConfig polls).counter < N ∧
    (markUnchecked (mainLoop mainConfig polls)).activeFrames.getD
      (mainLoop mainConfig polls).counter.toNat 0 = -1 ∧
    (∀ polled : Option Sent,
      gateScanRuns mainConfig (applyPoll polled (markUnchecked (mainLoop mainConfig polls))) =
        true ↔ polls.length % N = N - 1) := by
  obtain ⟨hc, hl⟩ := mainLoop_invariant mainConfig N hcfg polls
  have hlt : polls.length % N < N := Nat.mod_lt _ (by omega)
  refine ⟨hc, ?_, ?_, ?_, ?_⟩
  · rw [hc]; exact Int.natCast_nonneg _
  · rw [hc]; exact_mod_cast hlt
  · have hidx : (mainLoop mainConfig polls).counter.toNat = polls.length % N := by
      rw [hc]; exact Int.toNat_ofNat _
    have hlt2 : polls.length % N < (mainLoop mainConfig polls).activeFrames.length := by
      rw [hl]; exact hlt
    simp [markUnchecked, hidx, List.getD_eq_getElem?_getD, List.getElem?_set, hlt2]
  · intro polled
    simp only [gateScanRuns, counter_applyPoll, markUnchecked, hc, hcfg, decide_eq_true_eq]
    omega

theorem main_loop_counter_cycle_witness :
    (mainLoop ⟨"", 3, 0, 2, ""⟩ [none, some (Sent.activityChan 0), none, none]).counter =
      ((([none, some (Sent.activityChan 0), none, none] : List (Option Sent)).length % 3 : ℕ)
        : ℤ) ∧
    0 ≤ (mainLoop ⟨"", 3, 0, 2, ""⟩ [none, some (Sent.activityChan 0), none, none]).counter ∧
    (mainLoop ⟨"", 3, 0, 2, ""⟩ [none, some (Sent.activityChan 0), none, none]).counter <
      (3 : ℕ) ∧
    (markUnchecked
      (mainLoop ⟨"", 3, 0, 2, ""⟩ [none, some (Sent.activityChan 0), none, none])).activeFrames.getD
      (mainLoop ⟨"", 3, 0, 2, ""⟩ [none, some (Sent.activityChan 0), none, none]).counter.toNat
      0 = -1 ∧
    (∀ polled : Option Sent,
      gateScanRuns ⟨"", 3, 0, 2, ""⟩
        (applyPoll polled (markUnchecked
          (mainLoop ⟨"", 3, 0, 2, ""⟩ [none, some (Sent.activityChan 0), none, none]))) =
        true ↔
      ([none, some (Sent.activityChan 0), none, none] : List (Option Sent)).length % 3 =
        3 - 1) :=
  main_loop_counter_cycle ⟨"", 3, 0, 2, ""⟩ 3 (by decide) (by decide)
    [none, some (Sent.activityChan 0), none, none]

/-! ## Separable convolution -/

theorem range_five_eq : List.range 5 = [0, 1, 2, 3, 4] := rfl

theorem range_six_eq : List.range 6 = [0, 1, 2, 3, 4, 5] := rfl

/-- C23, at the image `[[1, 0]]` (width 1, height 2): `Convolution` with
`SobelX` returns `[[1, 0]]`, while in `SepConvolution` with the separated
Sobel-X kernels the first pass returns `[[0, 1]]`, the second pass `[[0, 0]]`,
and the result is `[[0, 0]]`.  Every pass of `Convolution` reads its window one
pixel up and to the left of the centred window, so the two passes of
`SepConvolution` displace the image twice and the single pass of `Convolution`
once. -/
theorem sepConvolution_ne_convolution :
    Convolution [[1, 0]] SobelX = [[1, 0]] ∧
    Convolution [[1, 0]] SepSobelXPt1 = [[0, 1]] ∧
    Convolution [[0, 1]] SepSobelXPt2 = [[0, 0]] ∧
    SepConvolution [[1, 0]] SepSobelXPt1 SepSobelXPt2 = [[0, 0]] ∧
    SepConvolution [[1, 0]] SepSobelXPt1 SepSobelXPt2 ≠ Convolution [[1, 0]] SobelX := by
  have hconv : Convolution [[1, 0]] SobelX = [[1, 0]] := by
    norm_num [Convolution, paddedImage, halfKernel, convolutionAccumulator, windowIndex_eq,
      Normalise, MinMax, Dimensions, mkImage, scanPixels, px, minMaxStep, SobelX, range_one_eq,
      range_two_eq, range_three_eq, range_five_eq, range_six_eq]
  have hpass1 : Convolution [[1, 0]] SepSobelXPt1 = [[0, 1]] := by
    norm_num [Convolution, paddedImage, halfKernel, convolutionAccumulator, windowIndex_eq,
      Normalise, MinMax, Dimensions, mkImage, scanPixels, px, minMaxStep, SepSobelXPt1,
      range_one_eq, range_two_eq, range_three_eq, range_four_eq, range_five_eq]
  have hpass2 : Convolution [[0, 1]] SepSobelXPt2 = [[0, 0]] := by
    norm_num [Convolution, paddedImage, halfKernel, convolutionAccumulator, windowIndex_eq,
      Normalise, MinMax, Dimensions, mkImage, scanPixels, px, minMaxStep, SepSobelXPt2,
      range_one_eq, range_two_eq, range_three_eq, range_six_eq]
  have hnorm : Normalise [[0, 0]] = [[0, 0]] := by
    norm_num [Normalise, MinMax, Dimensions, mkImage, scanPixels, px, minMaxStep, range_one_eq,
      range_two_eq]
  have hsep : SepConvolution [[1, 0]] SepSobelXPt1 SepSobelXPt2 = [[0, 0]] := by
    simp only [SepConvolution, hpass1, hpass2, hnorm]
  refine ⟨hconv, hpass1, hpass2, hsep, ?_⟩
  rw [hconv, hsep]
  norm_num

/-! ## Waiting for the row tasks and for the save tasks -/

/-- The caller runs a list of `go saveFrameToRAMDisk(...)` statements: every
save task is started and the caller's counter stays as it was. -/
theorem runSchedule_goSave (rowValue : ℕ → ℕ → ℚ) (ks : List ℕ) :
    ∀ (s : SyncState) (r : List SyncStmt) (ts : List Turn),
      s.rest = ks.map SyncStmt.goSave ++ r →
        runSchedule rowValue (List.replicate ks.length Turn.caller ++ ts) s =
          runSchedule rowValue ts
            { s with running := s.running ++ ks.map Task.save, rest := r } := by
  induction ks with
  | nil =>
    intro s r ts hs
    simp only [List.map_nil, List.nil_append] at hs
    simp [← hs]
  | cons k ks ih =>
    intro s r ts hs
    simp only [List.map_cons, List.cons_append] at hs
    have hstep : stepCaller s =
        some ⟨s.outputImage, s.counter, s.running ++ [Task.save k],
          List.map SyncStmt.goSave ks ++ r, s.reached⟩ := by
      simp only [stepCaller, hs]
    have hrun : runSchedule rowValue (List.replicate (k :: ks).length Turn.caller ++ ts) s =
        runSchedule rowValue (List.replicate ks.length Turn.caller ++ ts)
          ⟨s.outputImage, s.counter, s.running ++ [Task.save k],
            List.map SyncStmt.goSave ks ++ r, s.reached⟩ := by
      simp only [List.length_cons, List.replicate_succ, List.cons_append, runSchedule, hstep]
      rfl
    rw [hrun, ih _ r ts rfl]
    simp

/-- A save task never changes the counter of the caller's wait group. -/
theorem stepTask_save_counter (rowValue : ℕ → ℕ → ℚ) (k : ℕ) (s s1 : SyncState)
    (h : stepTask rowValue (Task.save k) s = some s1) : s1.counter = s.counter := by
  unfold stepTask at h
  split_ifs at h
  simp only [Option.some.injEq] at h
  rw [← h]

/-- C25, at a `2 x 2` image: none of `SingleThreshold`, `DualThreshold` and
`Mask` has a `Wait()` among its statements, for any dimensions.  For the image
`[[0, 1], [1, 0]]` and threshold `1/2`, when the caller of `SingleThreshold`
runs alone it reaches its `return` with both row tasks still running and the
output image all zero, although the completed image is `[[0, 1], [1, 0]]`;
the same schedule is impossible for `Add`, whose caller blocks in `Wait()`. -/
theorem thresholds_return_without_waiting :
    (∀ w h : ℕ, SyncStmt.wgWait ∉ singleThresholdSync w h ∧
      SyncStmt.wgWait ∉ dualThresholdSync w h ∧ SyncStmt.wgWait ∉ maskSync w h) ∧
    runSchedule (fun i j => if px [[0, 1], [1, 0]] i j < 1 / 2 then 0 else 1)
        [Turn.caller, Turn.caller, Turn.caller, Turn.caller]
        (syncInit 2 2 (singleThresholdSync 2 2)) =
      some { outputImage := [[0, 0], [0, 0]], counter := 2,
             running := [Task.row 0, Task.row 1], rest := [], reached := true } ∧
    SingleThreshold (fun _ _ => true) [[0, 1], [1, 0]] (1 / 2) = [[0, 1], [1, 0]] ∧
    runSchedule (fun i j => px [[0, 1], [1, 0]] i j)
        [Turn.caller, Turn.caller, Turn.caller, Turn.caller] (syncInit 2 2 (addSync 2)) =
      none := by
  refine ⟨?_, ?_, ?_, ?_⟩
  · intro w h
    simp [singleThresholdSync, dualThresholdSync, maskSync]
  · simp [runSchedule, stepCaller, syncInit, singleThresholdSync, mkImage, range_two_eq]
  · norm_num [SingleThreshold, Dimensions, mkImage, px, range_two_eq]
  · simp [runSchedule, stepCaller, syncInit, addSync, mkImage, range_two_eq]

/-- C26, at a window of two frames: a save task never changes the counter of
the wait group of `main`, because `saveFrameToRAMDisk` receives the wait group
by value; so for every number of frames, when `main` runs alone it passes
`frameSaveWaitGroup.Wait()` and calls `encodeVideo` with every save task of the
window still running. -/
theorem encodeVideo_called_before_saves_finish :
    (∀ (rowValue : ℕ → ℕ → ℚ) (k : ℕ) (s s1 : SyncState),
      stepTask rowValue (Task.save k) s = some s1 → s1.counter = s.counter) ∧
    (∀ frames : ℕ,
      runSchedule (fun _ _ => 0) (List.replicate frames Turn.caller ++ [Turn.caller, Turn.caller])
          (syncInit 0 0 (recordingSync frames)) =
        some { outputImage := [], counter := 0,
               running := (List.range frames).map Task.save, rest := [], reached := true }) ∧
    runSchedule (fun _ _ => 0) [Turn.caller, Turn.caller, Turn.caller, Turn.caller]
        (syncInit 0 0 (recordingSync 2)) =
      some { outputImage := [], counter := 0, running := [Task.save 0, Task.save 1],
             rest := [], reached := true } := by
  have hgen : ∀ frames : ℕ,
      runSchedule (fun _ _ => 0) (List.replicate frames Turn.caller ++ [Turn.caller, Turn.caller])
          (syncInit 0 0 (recordingSync frames)) =
        some { outputImage := [], counter := 0,
               running := (List.range frames).map Task.save, rest := [], reached := true } := by
    intro frames
    have h := runSchedule_goSave (fun _ _ => 0) (List.range frames)
      (syncInit 0 0 (recordingSync frames)) [SyncStmt.wgWait, SyncStmt.callEncodeVideo]
      [Turn.caller, Turn.caller] (by simp [syncInit, recordingSync])
    rw [List.length_range] at h
    rw [h]
    simp [runSchedule, stepCaller, syncInit, mkImage]
  refine ⟨stepTask_save_counter, hgen, ?_⟩
  have h2 := hgen 2
  simpa [range_two_eq] using h2


/-! ## Images of zeros and ones, and the classifier at a large threshold -/

/-- The output of `Subtract` on two images of the same dimensions has these
dimensions. -/
theorem rect_subtract {a b : Image} {w h : ℕ} (hra : Rect a w h) (hrb : Rect b w h)
    (hw : 0 < w) : Rect (Subtract a b).1 w h := by
  have hda := dimensions_of_rect hra hw
  have hne := dimensionError_eq_none hra hrb hw
  simp only [Subtract, hne, hda]
  exact rect_normalise _ (rect_mkImage w h _) hw

/-- Under every schedule the image of `SingleThreshold` has the dimensions of
its input, and every cell of it holds `0` or `1`. -/
theorem singleThreshold_binary (written : ℕ → ℕ → Bool) {image : Image} {w h : ℕ}
    (hr : Rect image w h) (hw : 0 < w) (t : ℚ) :
    Rect (SingleThreshold written image t) w h ∧
    ∀ i j, i < w → j < h →
      px (SingleThreshold written image t) i j = 0 ∨
        px (SingleThreshold written image t) i j = 1 := by
  have hread := singleThreshold_read written image t w h hw hr
  refine ⟨hread.1, ?_⟩
  intro i j hi hj
  rw [hread.2 i j hi hj]
  by_cases hwr : written i j = true
  · rw [if_pos hwr]
    by_cases hlt : px image i j < t
    · left; rw [if_pos hlt]
    · right; rw [if_neg hlt]
  · left; rw [if_neg hwr]

/-- The population variance of an image of zeros and ones is `m * (1 - m)` for
the mean `m`, so it lies between `0` and `1/4`. -/
theorem populationVariance_binary {image : Image} {w h : ℕ} (hw : 0 < w) (hh : 0 < h)
    (hr : Rect image w h)
    (hbin : ∀ i j, i < w → j < h → px image i j = 0 ∨ px image i j = 1) :
    0 ≤ populationVariance image ∧ populationVariance image ≤ 1 / 4 := by
  have hd := dimensions_of_rect hr hw
  have hn := natCast_mul_ne_zero hw hh
  have hnpos : (0 : ℚ) < (w : ℚ) * (h : ℚ) := by positivity
  have hmean : (∑ x in Finset.range w, ∑ y in Finset.range h, px image x y) =
      populationMean image * ((w : ℚ) * (h : ℚ)) := by
    simp only [populationMean, hd]
    field_simp
  have hsq : (∑ x in Finset.range w, ∑ y in Finset.range h,
        (px image x y - populationMean image) ^ 2) =
      (∑ x in Finset.range w, ∑ y in Finset.range h,
        (px image x y * (1 - 2 * populationMean image) + populationMean image ^ 2)) := by
    apply Finset.sum_congr rfl
    intro x hx
    apply Finset.sum_congr rfl
    intro y hy
    rcases hbin x y (Finset.mem_range.mp hx) (Finset.mem_range.mp hy) with h0 | h1
    · rw [h0]; ring
    · rw [h1]; ring
  have hval : populationVariance image =
      populationMean image * (1 - populationMean image) := by
    have hexp : (∑ x in Finset.range w, ∑ y in Finset.range h,
        (px image x y * (1 - 2 * populationMean image) + populationMean image ^ 2)) =
        (∑ x in Finset.range w, ∑ y in Finset.range h, px image x y) *
            (1 - 2 * populationMean image) +
          (w : ℚ) * (h : ℚ) * populationMean image ^ 2 := by
      simp only [Finset.sum_add_distrib, ← Finset.sum_mul, Finset.sum_const, Finset.card_range,
        nsmul_eq_mul]
    rw [populationVariance]
    simp only [hd]
    rw [hsq, hexp, hmean]
    field_simp
    ring
  constructor
  · rw [populationVariance]
    apply div_nonneg
    · apply Finset.sum_nonneg
      intro x _
      apply Finset.sum_nonneg
      intro y _
      exact sq_nonneg _
    · simp only [hd]
      exact hnpos.le
  · rw [hval]
    nlinarith [sq_nonneg (populationMean image - 1 / 2)]

/-- With a square root that maps `[0, 1/4]` into `(-∞, 1/2]`, the standard
deviation `MeanStd` returns for an image of zeros and ones that no task is
writing is at most `1/2`. -/
theorem meanStd_binary_le_half (mathSqrt : ℚ → ℚ)
    (hsqrt : ∀ v : ℚ, 0 ≤ v → v ≤ 1 / 4 → mathSqrt v ≤ 1 / 2) {image : Image} {w h : ℕ}
    (hw : 0 < w) (hh : 0 < h) (hr : Rect image w h)
    (hbin : ∀ i j, i < w → j < h → px image i j = 0 ∨ px image i j = 1) :
    (MeanStd mathSqrt image).2 ≤ 1 / 2 := by
  rw [MeanStd_eq]
  have hv := populationVariance_binary hw hh hr hbin
  exact hsqrt _ hv.1 hv.2

/-- When `MeanStd` reads the foreground mask after every cell of it has been
written, `detectActivity` sends the frame number on the activity channel for
every `activityThreshold ≥ 1/2`. -/
theorem detectActivity_written_mask_active (mathSqrt : ℚ → ℚ)
    (hsqrt : ∀ v : ℚ, 0 ≤ v → v ≤ 1 / 4 → mathSqrt v ≤ 1 / 2) (w h : ℕ) (hw : 0 < w)
    (hh : 0 < h) (frameNumber : ℤ) (activityThreshold : ℚ) (hthr : 1 / 2 ≤ activityThreshold)
    (frame : Image) (frameBuffer : FrameBuffer) (hrf : Rect frame w h)
    (hrb : Rect (accumulateFrames config.FrameBufferSize frameBuffer) w h) :
    detectActivity mathSqrt (fun _ _ => true) (fun _ _ => true) frameNumber activityThreshold
      frame frameBuffer = Sent.activityChan frameNumber := by
  have hrs := rect_subtract hrb hrf hw
  have hmask := singleThreshold_binary (fun _ _ => true) hrs hw
    ((MeanStd mathSqrt
        (Subtract (accumulateFrames config.FrameBufferSize frameBuffer) frame).1).1 +
      (1 / 2) * (MeanStd mathSqrt
        (Subtract (accumulateFrames config.FrameBufferSize frameBuffer) frame).1).2)
  have hle := meanStd_binary_le_half mathSqrt hsqrt hw hh hmask.1 hmask.2
  simp only [detectActivity, classifyFrame, meanStdOfReads_self]
  rw [if_neg]
  exact not_lt.mpr (le_trans hle hthr)

/-- C31, at a frame equal to the background `[[1/4, 3/4]]` and
`activityThreshold = 1/2`, with `Rat.sqrt` for `math.Sqrt` (exact at the
squares `0` and `1` that occur).  The first part of the claim holds: the
standard deviation `MeanStd` returns for an image of zeros and ones is at most
`1/2`, and under every schedule every cell of the image of `SingleThreshold`
holds `0` or `1`.  But `detectActivity` reads the mask while the row tasks of
`SingleThreshold` write it.  Here the difference is `[[0, 0]]`, the threshold
is `0` and the written mask is `[[1, 1]]`; when the first pass of `MeanStd`
reads the mask before any cell is written and the second pass after all cells
are written, the mean is `0`, the standard deviation is `1 > 1/2`, and
`detectActivity` sends the frame number on the inactivity channel.  When both
passes read the written mask it sends it on the activity channel. -/
theorem detectActivity_inactive_at_threshold_half :
    (∀ mathSqrt : ℚ → ℚ, (∀ v : ℚ, 0 ≤ v → v ≤ 1 / 4 → mathSqrt v ≤ 1 / 2) →
      ∀ (image : Image) (w h : ℕ), 0 < w → 0 < h → Rect image w h →
        (∀ i j, i < w → j < h → px image i j = 0 ∨ px image i j = 1) →
        (MeanStd mathSqrt image).2 ≤ 1 / 2) ∧
    (∀ (written : ℕ → ℕ → Bool) (source : Image) (t : ℚ) (w h : ℕ), 0 < w →
      Rect source w h → ∀ i j, i < w → j < h →
        px (SingleThreshold written source t) i j = 0 ∨
          px (SingleThreshold written source t) i j = 1) ∧
    (Subtract (accumulateFrames config.FrameBufferSize ⟨[[[1 / 4, 3 / 4]]]⟩)
        [[1 / 4, 3 / 4]]).1 = [[0, 0]] ∧
    MeanStd Rat.sqrt [[0, 0]] = (0, 0) ∧
    SingleThreshold (fun _ _ => false) [[0, 0]] 0 = [[0, 0]] ∧
    SingleThreshold (fun _ _ => true) [[0, 0]] 0 = [[1, 1]] ∧
    MeanStdOfReads Rat.sqrt [[0, 0]] [[1, 1]] = (0, 1) ∧
    detectActivity Rat.sqrt (fun _ _ => false) (fun _ _ => true) 3 (1 / 2) [[1 / 4, 3 / 4]]
        ⟨[[[1 / 4, 3 / 4]]]⟩ = Sent.inactivityChan 3 ∧
    detectActivity Rat.sqrt (fun _ _ => true) (fun _ _ => true) 3 (1 / 2) [[1 / 4, 3 / 4]]
        ⟨[[[1 / 4, 3 / 4]]]⟩ = Sent.activityChan 3 := by
  have hD : (Subtract (accumulateFrames config.FrameBufferSize ⟨[[[1 / 4, 3 / 4]]]⟩)
      [[1 / 4, 3 / 4]]).1 = [[0, 0]] := by
    norm_num [accumulateFrames_config, Subtract, dimensionError, Normalise, MinMax,
      Dimensions, mkImage, scanPixels, px, minMaxStep, range_one_eq, range_two_eq]
  have hMS : MeanStd Rat.sqrt [[0, 0]] = (0, 0) := by
    have h : MeanStd Rat.sqrt [[0, 0]] = (0, Rat.sqrt 0) := by
      norm_num [MeanStd, Dimensions, scanPixels, px, range_one_eq, range_two_eq]
    rw [h, ratSqrt_zero]
  have hF : SingleThreshold (fun _ _ => false) [[0, 0]] 0 = [[0, 0]] := by
    norm_num [SingleThreshold, Dimensions, mkImage, px, range_one_eq, range_two_eq]
  have hT : SingleThreshold (fun _ _ => true) [[0, 0]] 0 = [[1, 1]] := by
    norm_num [SingleThreshold, Dimensions, mkImage, px, range_one_eq, range_two_eq]
  have hR : MeanStdOfReads Rat.sqrt [[0, 0]] [[1, 1]] = (0, 1) := by
    have h : MeanStdOfReads Rat.sqrt [[0, 0]] [[1, 1]] = (0, Rat.sqrt 1) := by
      norm_num [MeanStdOfReads, Dimensions, scanPixels, px, range_one_eq, range_two_eq]
    rw [h, ratSqrt_one]
  have hW : MeanStd Rat.sqrt [[1, 1]] = (1, 0) := by
    have h : MeanStd Rat.sqrt [[1, 1]] = (1, Rat.sqrt 0) := by
      norm_num [MeanStd, Dimensions, scanPixels, px, range_one_eq, range_two_eq]
    rw [h, ratSqrt_zero]
  have hthr : (0 : ℚ) + 1 / 2 * 0 = 0 := by norm_num
  refine ⟨?_, ?_, hD, hMS, hF, hT, hR, ?_, ?_⟩
  · intro mathSqrt hsqrt image w h hw hh hr hbin
    exact meanStd_binary_le_half mathSqrt hsqrt hw hh hr hbin
  · intro written source t w h hw hr
    exact (singleThreshold_binary written hr hw t).2
  · simp only [detectActivity, classifyFrame, hD, hMS, hthr, hF, hT, hR]
    norm_num
  · simp only [detectActivity, classifyFrame, hD, hMS, hthr, hT, meanStdOfReads_self, hW]
    norm_num

/-! ## The classifier on a constant difference -/

/-- The output of `Normalise` on an image with the value `d` at every pixel is
constant: `1` when `65535 < d`, and `0` otherwise. -/
theorem normalise_constant {image : Image} {w h : ℕ} (hw : 0 < w) (hh : 0 < h)
    (hr : Rect image w h) (d : ℚ) (hc : ∀ x y, x < w → y < h → px image x y = d) :
    ∀ x y, x < w → y < h → px (Normalise image) x y = if 65535 < d then 1 else 0 := by
  have hd := dimensions_of_rect hr hw
  have hb := minMax_bounds image (i := 0) (j := 0) (by rw [hd]; exact hw) (by rw [hd]; exact hh)
  rw [hc 0 0 hw hh] at hb
  have hmin65 := minMax_min_le image
  have hatt := foldl_minMaxStep_attained (scanPixels image) (0, 65535)
  have hmem : ∀ v, v ∈ scanPixels image → v = d := by
    intro v hv
    obtain ⟨i, j, hi, hj, hv⟩ := mem_scanPixels.mp hv
    rw [hd] at hi hj
    rw [hv]
    exact hc i j hi hj
  have hmax : (MinMax image).2 = 0 ∨ (MinMax image).2 = d := by
    rcases hatt.1 with h0 | h0
    · left; exact h0
    · right; exact hmem _ h0
  have hmin : (MinMax image).1 = 65535 ∨ (MinMax image).1 = d := by
    rcases hatt.2 with h0 | h0
    · left; exact h0
    · right; exact hmem _ h0
  intro x y hx hy
  rw [px_normalise image (by rw [hd]; exact hx) (by rw [hd]; exact hy), hc x y hx hy]
  by_cases hlt : (65535 : ℚ) < d
  · rw [if_pos hlt]
    have hmin2 : (MinMax image).1 = 65535 := by
      rcases hmin with h0 | h0
      · exact h0
      · linarith
    have hmax2 : (MinMax image).2 = d := by
      rcases hmax with h0 | h0
      · linarith [hb.2]
      · exact h0
    rw [hmin2, hmax2, if_neg (ne_of_lt hlt)]
    exact div_self (by linarith)
  · rw [if_neg hlt]
    have hmin2 : (MinMax image).1 = d := by
      rcases hmin with h0 | h0
      · linarith [hb.1]
      · exact h0
    rw [hmin2, sub_self, zero_div]

/-- With `mathSqrt 0 = 0`, for a frame and a background of equal dimensions
whose pixelwise difference `background - frame` is `d` at every pixel: the
normalised difference is the constant `c` (`1` when `65535 < d`, else `0`),
the adaptive threshold is `c`, and under every schedule a cell of the
foreground mask holds `1` if it has been written and `0` otherwise. -/
theorem foregroundMask_constant_difference (mathSqrt : ℚ → ℚ) (hsqrt : mathSqrt 0 = 0)
    (frame background : Image) (w h : ℕ) (hw : 0 < w) (hh : 0 < h) (hrf : Rect frame w h)
    (hrb : Rect background w h) (d : ℚ)
    (hdiff : ∀ x y, x < w → y < h → px background x y - px frame x y = d) :
    (∀ x y, x < w → y < h →
      px (Subtract background frame).1 x y = if 65535 < d then 1 else 0) ∧
    ((MeanStd mathSqrt (Subtract background frame).1).1 +
        (1 / 2) * (MeanStd mathSqrt (Subtract background frame).1).2 =
      if 65535 < d then 1 else 0) ∧
    (∀ (written : ℕ → ℕ → Bool) x y, x < w → y < h →
      px (SingleThreshold written (Subtract background frame).1
          ((MeanStd mathSqrt (Subtract background frame).1).1 +
            (1 / 2) * (MeanStd mathSqrt (Subtract background frame).1).2)) x y =
        if written x y then 1 else 0) := by
  have hdb := dimensions_of_rect hrb hw
  have hne := dimensionError_eq_none hrb hrf hw
  have hDeq : (Subtract background frame).1 = Normalise (mkImage w h (fun i j =>
      px background i j - px frame i j)) := by
    simp only [Subtract, hne, hdb]
  have hraw : ∀ x y, x < w → y < h →
      px (mkImage w h (fun i j => px background i j - px frame i j)) x y = d := by
    intro x y hx hy
    rw [px_mkImage w h _ hx hy]
    exact hdiff x y hx hy
  have hrD : Rect (Subtract background frame).1 w h := rect_subtract hrb hrf hw
  have hDc : ∀ x y, x < w → y < h →
      px (Subtract background frame).1 x y = if 65535 < d then 1 else 0 := by
    rw [hDeq]
    exact normalise_constant hw hh (rect_mkImage w h _) d hraw
  have hthreshold :
      (MeanStd mathSqrt (Subtract background frame).1).1 +
          (1 / 2) * (MeanStd mathSqrt (Subtract background frame).1).2 =
        if 65535 < d then 1 else 0 := by
    rw [MeanStd_eq, populationMean_constant _ w h hw hh hrD _ hDc,
      populationVariance_constant _ w h hw hh hrD _ hDc, hsqrt]
    ring
  refine ⟨hDc, hthreshold, ?_⟩
  intro written x y hx hy
  rw [hthreshold, (singleThreshold_read written _ _ w h hw hrD).2 x y hx hy, hDc x y hx hy,
    if_neg (lt_irrefl _)]

/-- C32, at a frame equal to the background `[[1/4, 3/4]]` and
`activityThreshold = 0`, with `Rat.sqrt` for `math.Sqrt` (exact at the squares
`0` and `1/4` that occur).  The first part of the claim holds in general: for a
constant difference `d` the normalised difference is a constant `c`, the
adaptive threshold is `c`, and every written cell of the foreground mask holds
`1`.  But `detectActivity` reads the mask while the row tasks of
`SingleThreshold` write it.  Here the difference is `[[0, 0]]` and the
threshold is `0`; when `MeanStd` reads the mask after the task of row `0` has
written its cell and before the task of row `1` has, it finds `[[1, 0]]`, whose
standard deviation is `1/2 > 0`, and `detectActivity` sends the frame number
on the inactivity channel.  When it reads the written mask `[[1, 1]]`, the
standard deviation is `0` and the frame number goes to the activity channel. -/
theorem detectActivity_inactive_on_equal_frames :
    (∀ (mathSqrt : ℚ → ℚ), mathSqrt 0 = 0 →
      ∀ (frame background : Image) (w h : ℕ), 0 < w → 0 < h → Rect frame w h →
        Rect background w h → ∀ d : ℚ,
        (∀ x y, x < w → y < h → px background x y - px frame x y = d) →
        (∀ x y, x < w → y < h →
          px (Subtract background frame).1 x y = if 65535 < d then 1 else 0) ∧
        ((MeanStd mathSqrt (Subtract background frame).1).1 +
            (1 / 2) * (MeanStd mathSqrt (Subtract background frame).1).2 =
          if 65535 < d then 1 else 0) ∧
        (∀ (written : ℕ → ℕ → Bool) x y, x < w → y < h →
          px (SingleThreshold written (Subtract background frame).1
              ((MeanStd mathSqrt (Subtract background frame).1).1 +
                (1 / 2) * (MeanStd mathSqrt (Subtract background frame).1).2)) x y =
            if written x y then 1 else 0)) ∧
    (Subtract (accumulateFrames config.FrameBufferSize ⟨[[[1 / 4, 3 / 4]]]⟩)
        [[1 / 4, 3 / 4]]).1 = [[0, 0]] ∧
    MeanStd Rat.sqrt [[0, 0]] = (0, 0) ∧
    SingleThreshold (fun _ j => decide (j = 0)) [[0, 0]] 0 = [[1, 0]] ∧
    MeanStdOfReads Rat.sqrt [[1, 0]] [[1, 0]] = (1 / 2, 1 / 2) ∧
    detectActivity Rat.sqrt (fun _ j => decide (j = 0)) (fun _ j => decide (j = 0)) 3 0
        [[1 / 4, 3 / 4]] ⟨[[[1 / 4, 3 / 4]]]⟩ = Sent.inactivityChan 3 ∧
    SingleThreshold (fun _ _ => true) [[0, 0]] 0 = [[1, 1]] ∧
    MeanStd Rat.sqrt [[1, 1]] = (1, 0) ∧
    detectActivity Rat.sqrt (fun _ _ => true) (fun _ _ => true) 3 0 [[1 / 4, 3 / 4]]
        ⟨[[[1 / 4, 3 / 4]]]⟩ = Sent.activityChan 3 := by
  have hD : (Subtract (accumulateFrames config.FrameBufferSize ⟨[[[1 / 4, 3 / 4]]]⟩)
      [[1 / 4, 3 / 4]]).1 = [[0, 0]] := by
    norm_num [accumulateFrames_config, Subtract, dimensionError, Normalise, MinMax,
      Dimensions, mkImage, scanPixels, px, minMaxStep, range_one_eq, range_two_eq]
  have hMS : MeanStd Rat.sqrt [[0, 0]] = (0, 0) := by
    have h : MeanStd Rat.sqrt [[0, 0]] = (0, Rat.sqrt 0) := by
      norm_num [MeanStd, Dimensions, scanPixels, px, range_one_eq, range_two_eq]
    rw [h, ratSqrt_zero]
  have hP : SingleThreshold (fun _ j => decide (j = 0)) [[0, 0]] 0 = [[1, 0]] := by
    norm_num [SingleThreshold, Dimensions, mkImage, px, range_one_eq, range_two_eq]
  have hT : SingleThreshold (fun _ _ => true) [[0, 0]] 0 = [[1, 1]] := by
    norm_num [SingleThreshold, Dimensions, mkImage, px, range_one_eq, range_two_eq]
  have hR : MeanStdOfReads Rat.sqrt [[1, 0]] [[1, 0]] = (1 / 2, 1 / 2) := by
    have h : MeanStdOfReads Rat.sqrt [[1, 0]] [[1, 0]] = (1 / 2, Rat.sqrt (1 / 4)) := by
      norm_num [MeanStdOfReads, Dimensions, scanPixels, px, range_one_eq, range_two_eq]
    rw [h, ratSqrt_quarter]
  have hW : MeanStd Rat.sqrt [[1, 1]] = (1, 0) := by
    have h : MeanStd Rat.sqrt [[1, 1]] = (1, Rat.sqrt 0) := by
      norm_num [MeanStd, Dimensions, scanPixels, px, range_one_eq, range_two_eq]
    rw [h, ratSqrt_zero]
  have hthr : (0 : ℚ) + 1 / 2 * 0 = 0 := by norm_num
  refine ⟨?_, hD, hMS, hP, hR, ?_, hT, hW, ?_⟩
  · intro mathSqrt hsqrt frame background w h hw hh hrf hrb d hdiff
    exact foregroundMask_constant_difference mathSqrt hsqrt frame background w h hw hh hrf hrb
      d hdiff
  · simp only [detectActivity, classifyFrame, hD, hMS, hthr, hP, hR]
    norm_num
  · simp only [detectActivity, classifyFrame, hD, hMS, hthr, hT, meanStdOfReads_self, hW]
    norm_num

/-! ## The gate scan reads only which slots are Active -/

theorem scanStep_congr (a b : List ℤ) (st : ℤ × ℤ) (fr : ℕ)
    (h : a.getD fr 0 = 1 ↔ b.getD fr 0 = 1) : scanStep a st fr = scanStep b st fr := by
  unfold scanStep
  by_cases ha : a.getD fr 0 = 1
  · have hb := h.mp ha
    simp only [ha, hb]
  · have hb : ¬ b.getD fr 0 = 1 := fun hb => ha (h.mpr hb)
    simp only [ha, hb, ne_eq, not_false_eq_true, if_true, if_false]

theorem foldl_scanStep_congr (a b : List ℤ) (idxs : List ℕ) :
    ∀ st : ℤ × ℤ, (∀ fr ∈ idxs, (a.getD fr 0 = 1 ↔ b.getD fr 0 = 1)) →
      idxs.foldl (scanStep a) st = idxs.foldl (scanStep b) st := by
  induction idxs with
  | nil => intro st _; rfl
  | cons i is ih =>
    intro st h
    simp only [List.foldl_cons]
    rw [scanStep_congr a b st i (h i (List.mem_cons_self _ _))]
    exact ih _ (fun fr hfr => h fr (List.mem_cons_of_mem _ hfr))

theorem leadingActive_le_length (l : List ℤ) : leadingActive l ≤ l.length := by
  induction l with
  | nil => simp [leadingActive]
  | cons x xs ih =>
    simp only [leadingActive, List.length_cons]
    split_ifs <;> omega

theorem longestActiveRun_le_length (l : List ℤ) : longestActiveRun l ≤ l.length := by
  induction l with
  | nil => simp [longestActiveRun]
  | cons x xs ih =>
    have h1 := leadingActive_le_length (x :: xs)
    simp only [longestActiveRun, List.length_cons] at h1 ⊢
    exact max_le h1 (by omega)

theorem maxConsecutiveFrames_bounds (activeFrames : List ℤ) (h : 1 ≤ activeFrames.length) :
    0 ≤ maxConsecutiveFrames activeFrames.length activeFrames ∧
    maxConsecutiveFrames activeFrames.length activeFrames ≤ activeFrames.length := by
  by_cases h2 : 2 ≤ activeFrames.length
  · rw [maxConsecutiveFrames_eq_longestActiveRun activeFrames h2]
    exact ⟨Int.natCast_nonneg _, by exact_mod_cast longestActiveRun_le_length activeFrames⟩
  · have h1 : activeFrames.length = 1 := by omega
    rw [h1]
    simp [maxConsecutiveFrames, List.range']

/-- C33: for two activity arrays of the same length `N >= 1` that hold the
value `1` at exactly the same positions, the gate scan computes the same
`maxConsecutiveFrames`, and that value lies between `0` and `N`. -/
theorem maxConsecutiveFrames_depends_on_active_slots (N : ℕ) (hN : 1 ≤ N) (a b : List ℤ)
    (ha : a.length = N) (hb : b.length = N)
    (hsame : ∀ k, k < N → (a.getD k 0 = 1 ↔ b.getD k 0 = 1)) :
    maxConsecutiveFrames N a = maxConsecutiveFrames N b ∧
    0 ≤ maxConsecutiveFrames N a ∧ maxConsecutiveFrames N a ≤ N := by
  have _ := hb
  refine ⟨?_, ?_⟩
  · unfold maxConsecutiveFrames
    have h0 : (if a.getD 0 0 = 1 then (1 : ℤ) else 0) = (if b.getD 0 0 = 1 then (1 : ℤ) else 0) := by
      have h := hsame 0 (by omega)
      by_cases ha0 : a.getD 0 0 = 1
      · rw [if_pos ha0, if_pos (h.mp ha0)]
      · rw [if_neg ha0, if_neg (fun hb0 => ha0 (h.mpr hb0))]
    simp only [h0]
    rw [foldl_scanStep_congr a b]
    intro fr hfr
    apply hsame
    rw [List.mem_range'_1] at hfr
    have hn : ((N : ℤ) - 1).toNat = N - 1 := by omega
    rw [hn] at hfr
    omega
  · have h := maxConsecutiveFrames_bounds a (by omega)
    rw [ha] at h
    exact h

theorem maxConsecutiveFrames_depends_on_active_slots_witness :
    maxConsecutiveFrames (6 : ℕ) [1, 1, 1, 0, 1, 1] =
      maxConsecutiveFrames (6 : ℕ) [1, 1, 1, -1, 1, 1] ∧
    0 ≤ maxConsecutiveFrames (6 : ℕ) [1, 1, 1, 0, 1, 1] ∧
    maxConsecutiveFrames (6 : ℕ) [1, 1, 1, 0, 1, 1] ≤ (6 : ℕ) :=
  maxConsecutiveFrames_depends_on_active_slots 6 (by decide) [1, 1, 1, 0, 1, 1]
    [1, 1, 1, -1, 1, 1] (by decide) (by decide)
    (by
      intro k hk
      interval_cases k <;> decide)

/-! ## The range and the symmetry of `CrossCorrelation` -/

/-- C34: for images `a`, `b` of equal dimensions whose standard deviations, as
`meanStd` returns them, are both nonzero, `CrossCorrelation(a, b)` lies in
`[-1, 1]`, equals `CrossCorrelation(b, a)`, and is not the sentinel
`math.MaxFloat32`.  The arithmetic is that of any ordered field `K` in which
`math.Sqrt` is an exact square root of every nonnegative number, as in the real
numbers. -/
theorem crossCorrelation_range_and_symmetry {K : Type} [LinearOrderedField K]
    (mathSqrt : K → K) (hsqrt : ∀ v : K, 0 ≤ v → mathSqrt v * mathSqrt v = v) (a b : Image)
    (w h : ℕ) (hw : 0 < w) (hh : 0 < h) (hra : Rect a w h) (hrb : Rect b w h)
    (hsa : (meanStd mathSqrt a).2 ≠ 0) (hsb : (meanStd mathSqrt b).2 ≠ 0) :
    (-1 ≤ CrossCorrelation mathSqrt a b ∧ CrossCorrelation mathSqrt a b ≤ 1) ∧
    CrossCorrelation mathSqrt a b = CrossCorrelation mathSqrt b a ∧
    CrossCorrelation mathSqrt a b ≠ ((MaxFloat32 : ℚ) : K) := by
  have hn : ((w : K) * (h : K)) ≠ 0 := fieldCast_mul_ne_zero hw hh
  have hab := crossCorrelation_eq mathSqrt a b w h hw hra hrb
  have hba := crossCorrelation_eq mathSqrt b a w h hw hrb hra
  have hsqa := meanStd_std_mul_self mathSqrt hsqrt a
  have hsqb := meanStd_std_mul_self mathSqrt hsqrt b
  have hrange : -1 ≤ CrossCorrelation mathSqrt a b ∧ CrossCorrelation mathSqrt a b ≤ 1 := by
    rw [← abs_le, ← sq_le_one_iff_abs_le_one, hab]
    have hcs := Finset.sum_mul_sq_le_sq_mul_sq (Finset.range w ×ˢ Finset.range h)
      (fun p : ℕ × ℕ => ((px a p.1 p.2 : ℚ) : K) - populationMeanIn K a)
      (fun p : ℕ × ℕ => ((px b p.1 p.2 : ℚ) : K) - populationMeanIn K b)
    simp only [Finset.sum_product] at hcs
    rw [sum_sq_deviation_eq a w h hw hh hra, sum_sq_deviation_eq b w h hw hh hrb, ← hsqa,
      ← hsqb] at hcs
    have hden : (meanStd mathSqrt a).2 * (meanStd mathSqrt b).2 * ((w : K) * (h : K)) ≠ 0 :=
      mul_ne_zero (mul_ne_zero hsa hsb) hn
    rw [div_div, div_pow, div_le_one (by positivity)]
    calc _ ≤ _ := hcs
      _ = _ := by ring
  refine ⟨hrange, ?_, ?_⟩
  · rw [hab, hba, mul_comm (meanStd mathSqrt a).2 (meanStd mathSqrt b).2]
    congr 2
    apply Finset.sum_congr rfl
    intro x _
    apply Finset.sum_congr rfl
    intro y _
    exact mul_comm _ _
  · intro heq
    have h1 : (1 : K) < ((MaxFloat32 : ℚ) : K) := by
      have h0 : (1 : ℚ) < MaxFloat32 := by norm_num [MaxFloat32]
      exact_mod_cast h0
    rw [heq] at hrange
    exact absurd hrange.2 (not_le.mpr h1)

theorem populationVarianceIn_real_example2 :
    populationVarianceIn ℝ [[1, 0, 1]] = 2 / 9 := by
  norm_num [populationVarianceIn, populationMeanIn, Dimensions, px, Finset.sum_range_succ]

theorem crossCorrelation_range_and_symmetry_witness :
    (-1 ≤ CrossCorrelation Real.sqrt [[0, 1, 1]] [[1, 0, 1]] ∧
      CrossCorrelation Real.sqrt [[0, 1, 1]] [[1, 0, 1]] ≤ 1) ∧
    CrossCorrelation Real.sqrt [[0, 1, 1]] [[1, 0, 1]] =
      CrossCorrelation Real.sqrt [[1, 0, 1]] [[0, 1, 1]] ∧
    CrossCorrelation Real.sqrt [[0, 1, 1]] [[1, 0, 1]] ≠ ((MaxFloat32 : ℚ) : ℝ) :=
  crossCorrelation_range_and_symmetry Real.sqrt (fun _ hv => Real.mul_self_sqrt hv)
    [[0, 1, 1]] [[1, 0, 1]] 1 3 (by decide) (by decide) (by decide) (by decide)
    (by
      rw [meanStd_eq, populationVarianceIn_real_example]
      exact Real.sqrt_ne_zero'.mpr (by norm_num))
    (by
      rw [meanStd_eq, populationVarianceIn_real_example2]
      exact Real.sqrt_ne_zero'.mpr (by norm_num))

/-! ## The indices `Convolution` uses -/

theorem inBounds_of_rect {image : Image} {w h : ℕ} (hr : Rect image w h) {i j : ℕ}
    (hi : i < w) (hj : j < h) : InBounds image i j := by
  obtain ⟨hl, hc⟩ := hr
  have hi2 : i < image.length := by rw [hl]; exact hi
  refine ⟨hi2, ?_⟩
  have hget : image.getD i [] = image[i] := by
    simp [List.getD_eq_getElem?_getD, hi2]
  rw [hget, hc _ (List.getElem_mem hi2)]
  exact hj

/-- C35: for a non-empty rectangular `W x H` image and a non-empty rectangular
`kw x kh` kernel, and all `x < W`, `y < H`, `kx < kw`, `ky < kh`: the index
`x+(kx-half)+half` of the padded-image access, computed on signed integers, is
not negative and is `x + kx`; it is below `W + 2*ceil(kw/2)`, and likewise
`y + ky < H + 2*ceil(kh/2)`; and the accesses `paddedImage[x+kx][y+ky]`,
`kernel[kx][ky]`, `image[x][y]` and the write
`paddedImage[x+half][y+half]` are all in bounds. -/
theorem convolution_indices_in_bounds (image kernel : Image) (W H kw kh : ℕ) (hW : 0 < W)
    (hH : 0 < H) (hkw : 0 < kw) (hkh : 0 < kh) (hri : Rect image W H)
    (hrk : Rect kernel kw kh) (x y kx ky : ℕ) (hx : x < W) (hy : y < H) (hkx : kx < kw)
    (hky : ky < kh) :
    (0 ≤ ((x : ℤ) + ((kx : ℤ) - (halfKernel kw : ℤ))) + (halfKernel kw : ℤ) ∧
      0 ≤ ((y : ℤ) + ((ky : ℤ) - (halfKernel kh : ℤ))) + (halfKernel kh : ℤ)) ∧
    (windowIndex x kx (halfKernel kw) = x + kx ∧ windowIndex y ky (halfKernel kh) = y + ky) ∧
    ((x : ℤ) + (kx : ℤ) < (W : ℤ) + 2 * ⌈(kw : ℚ) / 2⌉ ∧
      (y : ℤ) + (ky : ℤ) < (H : ℤ) + 2 * ⌈(kh : ℚ) / 2⌉) ∧
    InBounds (paddedImage image (halfKernel (Dimensions kernel).1)
        (halfKernel (Dimensions kernel).2))
      (windowIndex x kx (halfKernel (Dimensions kernel).1))
      (windowIndex y ky (halfKernel (Dimensions kernel).2)) ∧
    InBounds (paddedImage image (halfKernel (Dimensions kernel).1)
        (halfKernel (Dimensions kernel).2))
      (x + halfKernel (Dimensions kernel).1) (y + halfKernel (Dimensions kernel).2) ∧
    InBounds kernel kx ky ∧ InBounds image x y := by
  have hdi := dimensions_of_rect hri hW
  have hdk := dimensions_of_rect hrk hkw
  have hwk := le_two_mul_halfKernel kw
  have hhk := le_two_mul_halfKernel kh
  have _ := hH
  have _ := hkh
  have hpad : Rect (paddedImage image (halfKernel kw) (halfKernel kh))
      (W + halfKernel kw + halfKernel kw) (H + halfKernel kh + halfKernel kh) := by
    unfold paddedImage
    rw [hdi]
    exact rect_mkImage _ _ _
  refine ⟨⟨by omega, by omega⟩, ⟨windowIndex_eq _ _ _, windowIndex_eq _ _ _⟩, ⟨?_, ?_⟩, ?_, ?_,
    inBounds_of_rect hrk hkx hky, inBounds_of_rect hri hx hy⟩
  · rw [← halfKernel_eq_ceil]; omega
  · rw [← halfKernel_eq_ceil]; omega
  · simp only [hdk, windowIndex_eq]
    exact inBounds_of_rect hpad (by omega) (by omega)
  · simp only [hdk]
    exact inBounds_of_rect hpad (by omega) (by omega)

theorem convolution_indices_in_bounds_witness :
    (0 ≤ (((1 : ℕ) : ℤ) + (((2 : ℕ) : ℤ) - (halfKernel 3 : ℤ))) + (halfKernel 3 : ℤ) ∧
      0 ≤ (((0 : ℕ) : ℤ) + (((2 : ℕ) : ℤ) - (halfKernel 3 : ℤ))) + (halfKernel 3 : ℤ)) ∧
    (windowIndex 1 2 (halfKernel 3) = 1 + 2 ∧ windowIndex 0 2 (halfKernel 3) = 0 + 2) ∧
    ((((1 : ℕ) : ℤ)) + ((2 : ℕ) : ℤ) < ((2 : ℕ) : ℤ) + 2 * ⌈((3 : ℕ) : ℚ) / 2⌉ ∧
      (((0 : ℕ) : ℤ)) + ((2 : ℕ) : ℤ) < ((2 : ℕ) : ℤ) + 2 * ⌈((3 : ℕ) : ℚ) / 2⌉) ∧
    InBounds (paddedImage [[1, 0], [0, 0]] (halfKernel (Dimensions SobelX).1)
        (halfKernel (Dimensions SobelX).2))
      (windowIndex 1 2 (halfKernel (Dimensions SobelX).1))
      (windowIndex 0 2 (halfKernel (Dimensions SobelX).2)) ∧
    InBounds (paddedImage [[1, 0], [0, 0]] (halfKernel (Dimensions SobelX).1)
        (halfKernel (Dimensions SobelX).2))
      (1 + halfKernel (Dimensions SobelX).1) (0 + halfKernel (Dimensions SobelX).2) ∧
    InBounds SobelX 2 2 ∧ InBounds [[1, 0], [0, 0]] 1 0 :=
  convolution_indices_in_bounds [[1, 0], [0, 0]] SobelX 2 2 3 3 (by decide) (by decide)
    (by decide) (by decide) (by decide) (by decide) 1 0 2 2 (by decide) (by decide) (by decide)
    (by decide)

/-! ## Overflow in `Add` -/

/-- C7, at the `1 x 1` images `[[2^127]]` and `[[2^127]]`, whose pixels are
finite `float32` values: the `float32` sum `2^127 + 2^127` overflows to `+Inf`,
`MinMax` of `[[+Inf]]` is `(65535, +Inf)`, the quotient `+Inf - 65535` is
`+Inf`, and `Normalise` computes `(+Inf - 65535) / +Inf`, which is NaN.  So
`Add` returns `[[NaN]]`, and NaN is not in `[0, 1]`.  In exact arithmetic the
same call returns `[[1]]`. -/
theorem add_overflow_returns_nan :
    floatAdd float32Overflow (FloatValue.finite (2 ^ 127)) (FloatValue.finite (2 ^ 127)) =
      FloatValue.posInf ∧
    MinMaxFloat [[FloatValue.posInf]] = (FloatValue.finite 65535, FloatValue.posInf) ∧
    NormaliseFloat [[FloatValue.posInf]] = [[FloatValue.nan]] ∧
    AddFloat [[FloatValue.finite (2 ^ 127)]] [[FloatValue.finite (2 ^ 127)]] =
      ([[FloatValue.nan]], none) ∧
    (∀ q : ℚ, FloatValue.nan ≠ FloatValue.finite q) ∧
    (Add [[2 ^ 127]] [[2 ^ 127]]).1 = [[1]] := by
  have hadd : floatAdd float32Overflow (FloatValue.finite (2 ^ 127))
      (FloatValue.finite (2 ^ 127)) = FloatValue.posInf := by
    norm_num [floatAdd, floatOfExact, float32Overflow]
  have hmm : MinMaxFloat [[FloatValue.posInf]] =
      (FloatValue.finite 65535, FloatValue.posInf) := by
    norm_num [MinMaxFloat, scanFloatPixels, pxFloat, floatLt, toFloat32, floatOfExact,
      float32Overflow, range_one_eq]
  have heq : floatEq (FloatValue.finite 65535) FloatValue.posInf = false := rfl
  have hquot : floatSub float32Overflow FloatValue.posInf (FloatValue.finite 65535) =
      FloatValue.posInf := rfl
  have hnum : floatSub float64Overflow FloatValue.posInf (FloatValue.finite 65535) =
      FloatValue.posInf := rfl
  have hdiv : floatDiv float64Overflow FloatValue.posInf FloatValue.posInf =
      FloatValue.nan := rfl
  have hconv : toFloat32 FloatValue.nan = FloatValue.nan := rfl
  have hnorm : NormaliseFloat [[FloatValue.posInf]] = [[FloatValue.nan]] := by
    simp only [NormaliseFloat, hmm, heq, Bool.false_eq_true, if_false, hquot, mkFloatImage,
      List.length_cons, List.length_nil, List.getD_cons_zero, zero_add, range_one_eq,
      List.map_cons, List.map_nil, pxFloat, hnum, hdiv, hconv]
  refine ⟨hadd, hmm, hnorm, ?_, ?_, ?_⟩
  · have hsum : mkFloatImage 1 1 (fun i j =>
        floatAdd float32Overflow (pxFloat [[FloatValue.finite (2 ^ 127)]] i j)
          (pxFloat [[FloatValue.finite (2 ^ 127)]] i j)) = [[FloatValue.posInf]] := by
      simp only [mkFloatImage, range_one_eq, List.map_cons, List.map_nil, pxFloat,
        List.getD_cons_zero, hadd]
    simp only [AddFloat, List.length_cons, List.length_nil, List.getD_cons_zero, ne_eq,
      not_true_eq_false, if_false, zero_add, hsum, hnorm]
  · intro q h
    exact FloatValue.noConfusion h
  · norm_num [Add, dimensionError, Normalise, MinMax, Dimensions, mkImage, scanPixels, px,
      minMaxStep, range_one_eq]

end BirdWatcher
